import Mathlib

/-!
RISCV_32 user land: shell tokenizer, supervisor (init) and shell dispatch.

A shallow embedding of `src/sh.c`, `src/init.c`, `lib/ulib.c` and `lib/syscall.c`.

* Memory is a `List Nat` of bytes.  In the tokenizer a `char*` is an offset into `buf`, the
  null pointer is `none`, and a read outside the buffer has no value.  The string functions
  of ulib.c take the memory from their pointer on.
* `int` is a 32-bit two's-complement integer: values are `Int`, wrapped by `wrap32`
  where the C arithmetic can overflow.
* A loop of the C code is a function with a loop budget (`fuel`), one unit per iteration.
* A process is a function from the replies the kernel gives to its traps to the run they
  produce: the traps issued, in order, and how the code ended (`Proc`, `Out`).  A run on a
  finite list of replies is a finite prefix of the behaviour of the process.
-/

namespace RiscvUser

/-! ## sh.c: constants -/

/-- The constant `MAX_ARGS` of sh.c:4. -/
def MAX_ARGS : Nat := 10

/-- The constant `BUF_SIZE` of sh.c:5. -/
def BUF_SIZE : Nat := 64

/-- The space character, the only separator the tokenizer knows. -/
def SP : Nat := 32

/-- The bytes of a string literal. -/
def bytes (s : String) : List Nat :=
  s.toList.map Char.toNat

/-! ## sh.c:49-73, the tokenizer -/

/-- The variables of the tokenizer: the line buffer `buf`, the argument vector `argv`
(each slot a pointer into `buf`, or null), the counter `argc` and the cursor `ptr`
(an offset into `buf`). -/
structure TokState where
  buf : List Nat
  argv : List (Option Nat)
  argc : Nat
  ptr : Nat
deriving DecidableEq, Repr

/-- Line 56: `while(*ptr == ' ') ptr++;` gives the cursor after the loop. -/
def skipSpaces (buf : List Nat) : Nat → Nat → Option Nat
  | 0, _ => none
  | fuel + 1, ptr =>
    match buf[ptr]? with
    | none => none
    | some c => if c = SP then skipSpaces buf fuel (ptr + 1) else some ptr

/-- Line 65: `while(*ptr && *ptr != ' ') ptr++;` gives the cursor after the loop. -/
def scanToken (buf : List Nat) : Nat → Nat → Option Nat
  | 0, _ => none
  | fuel + 1, ptr =>
    match buf[ptr]? with
    | none => none
    | some c => if c ≠ 0 ∧ c ≠ SP then scanToken buf fuel (ptr + 1) else some ptr

/-- Lines 54-72: the loop `while(*ptr && argc < MAX_ARGS) { ... }`. -/
def tokLoop : Nat → TokState → Option TokState
  | 0, _ => none
  | fuel + 1, s =>
    match s.buf[s.ptr]? with
    | none => none
    | some c =>
      if c ≠ 0 ∧ s.argc < MAX_ARGS then
        -- 1. skip leading spaces
        match skipSpaces s.buf (fuel + 1) s.ptr with
        | none => none
        | some p1 =>
          match s.buf[p1]? with
          | none => none
          | some c1 =>
            -- end of the string: `break`
            if c1 = 0 then some { s with ptr := p1 }
            else
              -- 2. `argv[argc++] = ptr;`
              let argv1 := s.argv.set s.argc (some p1)
              -- 3. scan to the end of the token
              match scanToken s.buf (fuel + 1) p1 with
              | none => none
              | some p2 =>
                match s.buf[p2]? with
                | none => none
                | some c2 =>
                  -- 4. `if (*ptr) { *ptr = 0; ptr++; }`
                  if c2 ≠ 0 then
                    tokLoop fuel
                      { buf := s.buf.set p2 0, argv := argv1, argc := s.argc + 1, ptr := p2 + 1 }
                  else
                    tokLoop fuel
                      { buf := s.buf, argv := argv1, argc := s.argc + 1, ptr := p2 }
      else some s

/-- Lines 51-73: `argc = 0; ptr = buf;`, the loop, then `argv[argc] = 0;`.
The loop budget is the size of the buffer plus one: every iteration that does not leave
the loop moves the cursor forward. -/
def tokenize (buf : List Nat) (argv : List (Option Nat)) : Option TokState :=
  match tokLoop (buf.length + 1) { buf := buf, argv := argv, argc := 0, ptr := 0 } with
  | none => none
  | some s => some { s with argv := s.argv.set s.argc none }

/-- The C string that starts at offset `off` of `buf`: the bytes up to the first NUL. -/
def cstr (buf : List Nat) (off : Nat) : List Nat :=
  (buf.drop off).takeWhile (fun c => c ≠ 0)

/-- The string a slot of `argv` points to (`none` for the null pointer). -/
def slotString (buf : List Nat) (p : Option Nat) : Option (List Nat) :=
  p.map (cstr buf)

/-- The token sequence `argv[0..argc-1]`, each token read as a C string from the buffer
as the tokenizer left it. -/
def tokens (s : TokState) : List (Option (List Nat)) :=
  (s.argv.take s.argc).map (slotString s.buf)

/-- The argument vector as the consumer of `exec` reads it: the strings of the slots
before the first null pointer. -/
def argvStrings (buf : List Nat) : List (Option Nat) → List (List Nat)
  | [] => []
  | none :: _ => []
  | some off :: rest => cstr buf off :: argvStrings buf rest

/-- The buffer after `memset(buf, 0, BUF_SIZE)` and a `readline` that stored `line` and its
terminator at the front: the line, a NUL, and whatever `tail` lies behind the terminator
(zeros, or characters that a backspace has left behind). -/
def lineBuf (line tail : List Nat) : List Nat :=
  line ++ 0 :: tail

/-- From the words of the specification: the tokens of a line are its maximal runs of
non-space characters, in order, that is the non-empty pieces between spaces. -/
def maximalRuns (line : List Nat) : List (List Nat) :=
  (line.splitOn SP).filter (fun t => t ≠ [])

/-- From the words of the specification: tokenizing stops at the fixed maximum count. -/
def specTokens (line : List Nat) : List (List Nat) :=
  (maximalRuns line).take MAX_ARGS


/-- What the loop of lines 54-72 establishes when it is entered with the cursor at the end
of `pre`, the NUL-free text `rem` in front of it and its terminator behind. -/
structure TokPost (pre rem tail : List Nat) (argv : List (Option Nat)) (argc : Nat)
    (s : TokState) : Prop where
  buf_eq : ∃ rem2, rem2.length = rem.length ∧ s.buf = pre ++ rem2 ++ 0 :: tail
  argc_eq : s.argc = min MAX_ARGS (argc + (maximalRuns rem).length)
  argv_len : s.argv.length = argv.length
  argv_old : ∀ i, i < argc → s.argv[i]? = argv[i]?
  argv_rest : ∀ i, s.argc ≤ i → s.argv[i]? = argv[i]?
  argv_new : ∀ j, argc + j < s.argc →
    ∃ off, s.argv[argc + j]? = some (some off) ∧ (maximalRuns rem)[j]? = some (cstr s.buf off)


/-! ## The kernel interface: traps, replies and processes -/

/-- An argument register of a trap.  An integer is shown as such; a pointer is shown by what
the kernel finds behind it: the bytes it reads (`str`), the null-terminated vector of strings
it reads (`vec`), or a cell it stores a result into (`cell`). -/
inductive Arg where
  | word (v : Int)
  | str (s : List Nat)
  | vec (v : List (List Nat))
  | cell
deriving DecidableEq, Repr

/-- One `ecall`: the operation number (a7) and the three argument registers (a0, a1, a2). -/
structure Trap where
  num : Int
  a0 : Arg
  a1 : Arg
  a2 : Arg
deriving DecidableEq, Repr

/-- What the kernel hands back from a trap: the result register `ret` and, for a trap that
was given a cell (`read`, `wait`), the value `val` stored into it. -/
structure Reply where
  ret : Int
  val : Int
deriving DecidableEq, Repr

/-- A trap the process issued, with the reply it got (`none`: the trap has not returned). -/
structure Event where
  trap : Trap
  reply : Option Reply
deriving DecidableEq, Repr

/-- Why a process issues no further trap. -/
inductive Halt where
  /-- The last trap has not returned: the process is blocked, replaced or gone. -/
  | pending
  /-- The process sits in the `while(1);` that follows the exit trap. -/
  | spin
  /-- A pointer left its buffer, or a null pointer was followed. -/
  | fault
  /-- The loop budget of the model is used up. -/
  | fuel
deriving DecidableEq, Repr

/-- The result of a piece of code: it returns a value, or the process issues no further trap. -/
inductive Res (α : Type) where
  | ok (a : α)
  | halt (h : Halt)
deriving DecidableEq, Repr

/-- A run of a piece of code: the traps it issued (in order, with their replies), the replies
it has not consumed, and its result. -/
structure Out (α : Type) where
  trace : List Event
  rest : List Reply
  res : Res α
deriving DecidableEq, Repr

/-- The same run after the events `t`. -/
def Out.after {α : Type} (t : List Event) (o : Out α) : Out α :=
  ⟨t ++ o.trace, o.rest, o.res⟩

/-- A piece of code of a user process: given the replies the kernel will give to its traps
(in the order of the traps), its run. -/
def Proc (α : Type) : Type := List Reply → Out α

/-- Code that issues no trap and returns `a`. -/
def Proc.pure {α : Type} (a : α) : Proc α := fun rs => ⟨[], rs, .ok a⟩

/-- Sequencing: `f` runs on what `p` returned, with the replies `p` has left. -/
def Proc.bind {α β : Type} (p : Proc α) (f : α → Proc β) : Proc β := fun rs =>
  match p rs with
  | ⟨t, rs1, .ok a⟩ => (f a rs1).after t
  | ⟨t, rs1, .halt h⟩ => ⟨t, rs1, .halt h⟩

instance : Monad Proc where
  pure := Proc.pure
  bind := Proc.bind

/-- The process issues no further trap, for the reason `h`. -/
def stop {α : Type} (h : Halt) : Proc α := fun rs => ⟨[], rs, .halt h⟩

/-! ## syscall.h -/

def SYS_READ : Int := 63
def SYS_WRITE : Int := 64
def SYS_EXIT : Int := 93
def SYS_YIELD : Int := 124
def SYS_GETPID : Int := 172
def SYS_FORK : Int := 220
def SYS_EXEC : Int := 221
def SYS_WAIT : Int := 260
def STDIN : Int := 0
def STDOUT : Int := 1

/-! ## syscall.c -/

/-- Function `long syscall(long num, long a0, long a1, long a2)`: one `ecall`; the result
is the kernel's reply.  When the kernel does not reply the process goes no further. -/
def syscall (num : Int) (a0 a1 a2 : Arg) : Proc Reply := fun rs =>
  match rs with
  | [] => ⟨[⟨⟨num, a0, a1, a2⟩, none⟩], [], .halt .pending⟩
  | r :: rest => ⟨[⟨⟨num, a0, a1, a2⟩, some r⟩], rest, .ok r⟩

/-- Function `void exit(int code)`: `syscall(SYS_EXIT, code, 0, 0); while(1);`. -/
def exit {α : Type} (code : Int) : Proc α := do
  let _ ← syscall SYS_EXIT (.word code) (.word 0) (.word 0)
  stop .spin

/-- Function `int read(int fd, char* buf, int n)`: `buf` is a cell the kernel stores into;
the reply carries the result and the stored value. -/
def read (fd : Int) (n : Int) : Proc Reply :=
  syscall SYS_READ (.word fd) .cell (.word n)

/-- Function `int write(int fd, const char* buf, int n)`: `buf` is the memory from the
pointer on, of which the kernel reads `n` bytes. -/
def write (fd : Int) (buf : List Nat) (n : Nat) : Proc Int := do
  let r ← syscall SYS_WRITE (.word fd) (.str (buf.take n)) (.word n)
  pure r.ret

/-- Function `int yield(void)`. -/
def yield : Proc Int := do
  let r ← syscall SYS_YIELD (.word 0) (.word 0) (.word 0)
  pure r.ret

/-- Function `int getpid(void)`. -/
def getpid : Proc Int := do
  let r ← syscall SYS_GETPID (.word 0) (.word 0) (.word 0)
  pure r.ret

/-- Function `int fork(void)`. -/
def fork : Proc Int := do
  let r ← syscall SYS_FORK (.word 0) (.word 0) (.word 0)
  pure r.ret

/-- Function `int exec(char* path, char** argv)`: `path` is the string behind the first
pointer, `argv` the strings of the vector behind the second one. -/
def exec (path : List Nat) (argv : List (List Nat)) : Proc Int := do
  let r ← syscall SYS_EXEC (.str path) (.vec argv) (.word 0)
  pure r.ret

/-- Function `int wait(int* status)`: `status` is `.cell` for the address of a variable and
`.word 0` for the null pointer; the reply carries the pid and the stored status. -/
def wait (status : Arg) : Proc Reply :=
  syscall SYS_WAIT status (.word 0) (.word 0)

/-! ## ulib.c -/

/-- A string literal in memory: its bytes and the terminating NUL. -/
def lit (s : String) : List Nat :=
  bytes s ++ [0]

/-- The loop `while(str[len]) len++;` of `print`, on the memory from `str` on (the end of the
modelled memory reads as NUL). -/
def strlen : List Nat → Nat
  | [] => 0
  | c :: rest => if c ≠ 0 then strlen rest + 1 else 0

/-- Function `void print(const char* str)`. -/
def print (str : List Nat) : Proc Unit := do
  let len := strlen str
  let _ ← write STDOUT str len
  pure ()

/-- Function `void puts(const char* str)`. -/
def puts (str : List Nat) : Proc Unit := do
  print str
  print (lit "\n")

/-- Function `int strcmp(const char* s1, const char* s2)` on the memory from each pointer
on (the end of the modelled memory reads as NUL).  A byte is its own value as
`unsigned char`. -/
def strcmp : List Nat → List Nat → Int
  | [], s2 => (0 : Int) - (s2.headD 0 : Nat)
  | c1 :: s1, s2 =>
    if c1 ≠ 0 ∧ c1 = s2.headD 0 then strcmp s1 s2.tail
    else (c1 : Int) - (s2.headD 0 : Nat)

/-- A 32-bit two's-complement `int`: the value of `x` after wrap-around. -/
def wrap32 (x : Int) : Int :=
  (x + 2147483648) % 4294967296 - 2147483648

/-- The loop `while (r >= 10) { r -= 10; q++; }` of `itoa`: the final `(q, r)`. -/
def divLoop : Nat → Int → Int → Option (Int × Int)
  | 0, _, _ => none
  | fuel + 1, q, r => if r ≥ 10 then divLoop fuel (wrap32 (q + 1)) (r - 10) else some (q, r)

/-- The loop `while (num > 0) { ...; temp[t_i++] = r + '0'; num = q; }` of `itoa`: the bytes
of `temp[0..t_i-1]`. -/
def itoaLoop : Nat → Int → List Nat → Option (List Nat)
  | 0, _, _ => none
  | fuel + 1, num, temp =>
    if num > 0 then
      match divLoop (num.toNat + 1) 0 num with
      | none => none
      | some (q, r) => itoaLoop fuel q (temp ++ [(r + 48).toNat])
    else some temp

/-- Function `void itoa(int num, char* buf)`: the bytes written to `buf`, terminator included.
The budget of each loop is the value it counts down, plus one. -/
def itoa (num : Int) : Option (List Nat) :=
  if num = 0 then some [48, 0]
  else
    let neg := decide (num < 0)
    let num1 := if num < 0 then wrap32 (-num) else num
    match itoaLoop (num1.toNat + 1) num1 [] with
    | none => none
    | some temp =>
      let temp1 := if neg then temp ++ [45] else temp
      -- `while (t_i > 0) buf[i++] = temp[--t_i]; buf[i] = 0;`
      some (temp1.reverse ++ [0])

/-- Function `void memset(void* dst, int c, int n)`: `while(n-- > 0) *d++ = c;` on the
memory from `dst` on; the stored byte is `c` as a `char`. -/
def memset : List Nat → Nat → Nat → List Nat
  | _ :: rest, c, n + 1 => (c % 256) :: memset rest c n
  | dst, _, _ => dst

/-! ## init.c -/

/-- The array `char sh_path[] = "sh";` of init.c:8. -/
def sh_path : List Nat := bytes "sh"

/-- The vector `args` of init.c:9-11: `args[0] = sh_path; args[1] = 0;`. -/
def init_args : List (List Nat) := [sh_path]

/-- Lines 34-60: the reaper loop `while(1) { zombie_pid = wait(&status); ... }`.
It returns when it is left by `break`. -/
def initReaper (shell_pid : Int) : Nat → Proc Unit
  | 0 => stop .fuel
  | fuel + 1 => do
    let r ← wait .cell
    let zombie_pid := r.ret
    if zombie_pid = shell_pid then
      -- the shell has died: `break`
      print (lit "INIT: Shell exited. Restarting.\n")
    else if zombie_pid > 0 then do
      -- an adopted orphan has died
      print (lit "INIT: Reaped orphan PID: ")
      match itoa zombie_pid with
      | none => stop .fault
      | some buf => do
        puts buf
        initReaper shell_pid fuel
    else do
      let _ ← yield
      initReaper shell_pid fuel

/-- Lines 13-63: the loop `while(1) { shell_pid = fork(); ... }` of `main`. -/
def initLoop : Nat → Proc Unit
  | 0 => stop .fuel
  | fuel + 1 => do
    print (lit "INIT: Forking shell...\n")
    let shell_pid ← fork
    if shell_pid < 0 then do
      print (lit "INIT: Fork failed! Retrying...\n")
      -- `continue`
      initLoop fuel
    else if shell_pid = 0 then do
      -- child process
      let _ ← exec sh_path init_args
      print (lit "INIT: Exec failed\n")
      exit 1
    else do
      -- parent process
      initReaper shell_pid fuel
      initLoop fuel

/-- Function `int main()` of init.c. -/
def initMain (fuel : Nat) : Proc Int := do
  print (lit "INIT: Starting System...\n")
  initLoop fuel
  pure 0

/-! ## sh.c -/

/-- Lines 10-32 of `readline`: the loop `while (i < max - 1) { ... }`; it returns the buffer
and `i`. -/
def readlineLoop (max : Nat) : Nat → List Nat → Nat → Proc (List Nat × Nat)
  | 0, _, _ => stop .fuel
  | fuel + 1, buf, i =>
    if i + 1 < max then do
      let r ← read STDIN 1
      if r.ret < 1 then
        -- read failed or EOF: `break`
        pure (buf, i)
      else
        let c := r.val.toNat % 256
        if c = 13 ∨ c = 10 then do
          let _ ← write STDOUT (lit "\n") 1
          pure (buf, i)
        else if c = 127 ∨ c = 8 then
          if i > 0 then do
            let _ ← write STDOUT (lit "\x08 \x08") 3
            readlineLoop max fuel buf (i - 1)
          else
            readlineLoop max fuel buf i
        else do
          let _ ← write STDOUT [c] 1
          readlineLoop max fuel (buf.set i c) (i + 1)
    else pure (buf, i)

/-- Function `void readline(char* buf, int max)`: the buffer after the call. -/
def readline (fuel : Nat) (buf : List Nat) (max : Nat) : Proc (List Nat) := do
  let (buf1, i) ← readlineLoop max fuel buf 0
  pure (buf1.set i 0)

/-- The variables of `main` that live across iterations: `buf` and `argv`. -/
structure ShVars where
  buf : List Nat
  argv : List (Option Nat)
deriving DecidableEq, Repr

/-- Lines 86-108: what follows `int pid = fork();`, in the process that `fork` returned
`pid` to. -/
def shAfterFork (t : TokState) (arg0 : Nat) (pid : Int) : Proc Unit :=
  if pid < 0 then
    print (lit "sh: fork failed\n")
  else if pid = 0 then do
    -- child process
    let _ ← exec (cstr t.buf arg0) (argvStrings t.buf t.argv)
    -- if exec returns, it failed
    print (lit "sh: command not found: ")
    puts (t.buf.drop arg0)
    exit 1
  else do
    -- parent process (shell)
    let _ ← wait .cell
    pure ()

/-- Lines 84-108: fork and exec; it returns at the end of the loop body. -/
def shSpawn (t : TokState) (arg0 : Nat) : Proc ShVars := do
  let pid ← fork
  shAfterFork t arg0 pid
  pure ⟨t.buf, t.argv⟩

/-- Lines 79-108: the command of a line with at least one token; `arg0` is `argv[0]`. -/
def shCommand (t : TokState) (arg0 : Nat) : Proc ShVars := do
  -- internal commands
  if strcmp (t.buf.drop arg0) (lit "exit") = 0 then
    exit 0
  shSpawn t arg0

/-- Lines 47-108: one iteration of the shell after `readline` has filled `buf`.  It returns
when the iteration ends (by `continue` or at the end of the loop body). -/
def shDispatch (buf : List Nat) (argv : List (Option Nat)) : Proc ShVars :=
  match buf[0]? with
  | none => stop .fault
  | some b0 =>
    -- empty line: `continue`
    if b0 = 0 then pure ⟨buf, argv⟩
    else
      match tokenize buf argv with
      | none => stop .fault
      | some t =>
        -- no arguments found: `continue`
        if t.argc = 0 then pure ⟨t.buf, t.argv⟩
        else
          match t.argv[0]? with
          | some (some arg0) => shCommand t arg0
          | _ => stop .fault

/-- Lines 43-45: the prompt, `memset(buf, 0, BUF_SIZE)` and `readline(buf, BUF_SIZE)`; it
returns the buffer. -/
def shPrompt (fuel : Nat) (v : ShVars) : Proc (List Nat) := do
  print (lit "$ ")
  let buf := memset v.buf 0 BUF_SIZE
  readline fuel buf BUF_SIZE

/-- Lines 43-108: one iteration of the loop of `main`. -/
def shIteration (fuel : Nat) (v : ShVars) : Proc ShVars := do
  let buf1 ← shPrompt fuel v
  shDispatch buf1 v.argv

/-- Lines 42-109: the loop `while(1) { ... }` of `main`. -/
def shLoop : Nat → ShVars → Proc Unit
  | 0, _ => stop .fuel
  | fuel + 1, v => do
    let v1 ← shIteration fuel v
    shLoop fuel v1

/-- Function `int main()` of sh.c; `v` is what the stack holds in `buf` and `argv` at the
start. -/
def shMain (fuel : Nat) (v : ShVars) : Proc Int := do
  print (lit "\n--- RISC-V Shell ---\n")
  shLoop fuel v
  pure 0

/-- The trap of a `write` of the bytes `s` to standard output. -/
def writeTrap (s : List Nat) : Trap :=
  ⟨SYS_WRITE, .word STDOUT, .str s, .word s.length⟩

/-- The trap of `print(str)` for a string literal. -/
def printTrap (s : String) : Trap :=
  writeTrap (bytes s)

/-- The first trap of a run, if it has one. -/
def firstTrap {α : Type} (o : Out α) : Option Trap :=
  o.trace.head?.map Event.trap

/-- The trap of `fork()`. -/
def forkTrap : Trap := ⟨SYS_FORK, .word 0, .word 0, .word 0⟩

/-- The trap of `yield()`. -/
def yieldTrap : Trap := ⟨SYS_YIELD, .word 0, .word 0, .word 0⟩

/-- The trap of `wait(&status)`. -/
def waitTrap : Trap := ⟨SYS_WAIT, .cell, .word 0, .word 0⟩

/-- The trap of `exit(code)`. -/
def exitTrap (code : Int) : Trap := ⟨SYS_EXIT, .word code, .word 0, .word 0⟩

/-- The trap of `exec(path, argv)`. -/
def execTrap (path : List Nat) (argv : List (List Nat)) : Trap :=
  ⟨SYS_EXEC, .str path, .vec argv, .word 0⟩

/-- From the words of the specification: the decimal representation of `n`, most
significant digit first, in ASCII. -/
def decimal (n : Nat) : List Nat :=
  ((Nat.digits 10 n).reverse).map (fun d => d + 48)

/-- A property of the runs of `p`: on replies that all satisfy `R`, every event satisfies `Q`
and the replies left over still satisfy `R`. -/
def Proc.Inv {α : Type} (R : Reply → Prop) (Q : Event → Prop) (p : Proc α) : Prop :=
  ∀ rs, (∀ r ∈ rs, R r) → (∀ e ∈ (p rs).trace, Q e) ∧ (∀ r ∈ (p rs).rest, R r)

/-- The event is a trap whose number is in `nums`, and its reply (if any) satisfies `R`. -/
def Fits (R : Reply → Prop) (nums : List Int) (e : Event) : Prop :=
  e.trap.num ∈ nums ∧ ∀ r, e.reply = some r → R r

/-- The supervisor from the reaper loop on: the reaper loop with `shell_pid` recorded, then
the loop of `main` again (the `else` branch of init.c:30-62 and what follows it). -/
def initFromReaper (shell_pid : Int) (fuel : Nat) : Proc Unit := do
  initReaper shell_pid fuel
  initLoop fuel

/-- The run has left the reaper loop of `shell_pid` (the loop has returned) only by a
`wait` that returned exactly `shell_pid`, followed by the restart message. -/
def LeftOnDeath (shell_pid : Int) (o : Out Unit) : Prop :=
  o.res = .ok () → ∃ pre v w, o.trace = pre ++ [⟨waitTrap, some ⟨shell_pid, v⟩⟩,
    ⟨printTrap "INIT: Shell exited. Restarting.\n", some w⟩]

/-- Every exit trap of the trace is `exit(1)`, is the last event, and comes right after a
`fork` that returned 0, the `exec` of the shell that returned, and the diagnostic. -/
def ExitInChildOnly (t : List Event) : Prop :=
  ∀ pre e post, t = pre ++ e :: post → e.trap.num = SYS_EXIT →
    post = [] ∧ e.trap = exitTrap 1 ∧
    ∃ pre2 r0 r1 r2, r0.ret = 0 ∧
      pre = pre2 ++ [⟨forkTrap, some r0⟩, ⟨execTrap sh_path init_args, some r1⟩,
        ⟨printTrap "INIT: Exec failed\n", some r2⟩]

/-- The replies to `k` turns of the loop of `main` in which `fork` fails: per turn, the
reply to the message, to `fork` and to the failure message. -/
def failedTurnReplies (fs : List (Reply × Reply × Reply)) : List Reply :=
  fs.flatMap (fun x => [x.1, x.2.1, x.2.2])

/-- The events of `k` turns of the loop of `main` in which `fork` fails. -/
def failedTurnEvents (fs : List (Reply × Reply × Reply)) : List Event :=
  fs.flatMap (fun x => [⟨printTrap "INIT: Forking shell...\n", some x.1⟩,
    ⟨forkTrap, some x.2.1⟩, ⟨printTrap "INIT: Fork failed! Retrying...\n", some x.2.2⟩])

/-- The events of a restart: the `wait` that returns `shell_pid`, the restart message, the
turns in which `fork` fails, and the turn in which `fork` returns `rf`. -/
def restartEvents (shell_pid v : Int) (w0 : Reply) (fs : List (Reply × Reply × Reply))
    (w1 rf : Reply) : List Event :=
  [⟨waitTrap, some ⟨shell_pid, v⟩⟩, ⟨printTrap "INIT: Shell exited. Restarting.\n", some w0⟩]
    ++ failedTurnEvents fs
    ++ [⟨printTrap "INIT: Forking shell...\n", some w1⟩, ⟨forkTrap, some rf⟩]

/-- Among the first `B` traps after the first one of the trace, a `fork` has returned a
positive pid different from `p`: a new, distinct SupervisedChild has been recorded. -/
def RestartedWithin (B : Nat) (p : Int) (t : List Event) : Prop :=
  ∃ e ∈ (t.drop 1).take B, e.trap = forkTrap ∧ ∃ r, e.reply = some r ∧ 0 < r.ret ∧ r.ret ≠ p

/-- The loop budget is no obstacle to `p` on fewer than `n` replies: the run does not end
for lack of budget, and it leaves no more replies than it was given. -/
def Proc.Bounded {α : Type} (n : Nat) (p : Proc α) : Prop :=
  ∀ rs, rs.length < n → (p rs).res ≠ .halt .fuel ∧ (p rs).rest.length ≤ rs.length

/-- The number of traps with operation number `num` in a trace. -/
def countTraps (num : Int) (t : List Event) : Nat :=
  (t.filter (fun e => e.trap.num = num)).length

/-- From the words of the specification: `a` precedes `b` in the lexicographic order on
bytes; a proper prefix precedes. -/
def precedes : List Nat → List Nat → Bool
  | [], [] => false
  | [], _ :: _ => true
  | _ :: _, [] => false
  | x :: xs, y :: ys => if x < y then true else if x = y then precedes xs ys else false

/-- The shift `x << k` of a 32-bit `int`, with wrap-around. -/
def shl32 (x : Int) (k : Nat) : Int :=
  wrap32 (x * 2 ^ k)

/-- The loop `while (*str >= '0' && *str <= '9') { ... }` of `atoi`, on the memory from
`str` on (the end of the modelled memory reads as NUL): the final `res`. -/
def atoiLoop : List Nat → Int → Int
  | [], res => res
  | c :: str, res =>
    if c ≥ 48 ∧ c ≤ 57 then
      let d : Int := (c : Int) - 48
      let temp := res
      -- `res = (temp << 3) + (temp << 1) + d;`
      atoiLoop str (wrap32 (wrap32 (shl32 temp 3 + shl32 temp 1) + d))
    else res

/-- Function `int atoi(const char* str)` on the memory from `str` on. -/
def atoi (str : List Nat) : Int :=
  let neg := decide (str.headD 0 = 45)
  -- `if (*str == '-') { sign = -1; str++; }`
  let sign : Int := if neg then -1 else 1
  let str1 := if neg then str.tail else str
  let res := atoiLoop str1 0
  -- `return sign < 0 ? -res : res;`
  if sign < 0 then wrap32 (-res) else res

/-- From the words of the specification: the value of a string of decimal digits. -/
def digitValue (ds : List Nat) : Nat :=
  ds.foldl (fun acc c => acc * 10 + (c - 48)) 0

/-- From the words of the specification: the canonical decimal representation of an
integer: "0" for zero, otherwise a '-' sign for a negative number and then the digits,
without a leading zero. -/
def canonical (n : Int) : List Nat :=
  if n = 0 then [48] else if n < 0 then 45 :: decimal n.natAbs else decimal n.natAbs


/-- The trap of `read(STDIN, &c, 1)`. -/
def readTrap : Trap := ⟨SYS_READ, .word STDIN, .cell, .word 1⟩

/-- The input stream a run has received: the replies to its `read` traps, in order. -/
def reads (t : List Event) : List Reply :=
  t.filterMap (fun e => if e.trap.num = SYS_READ then e.reply else none)

/-- From the words of the specification: the line stored after the input stream `input`,
starting from the stored characters `line`.  The fold ends at the limit of `max - 1` stored
characters, at a failed read, and at the first CR or LF; a backspace byte (127 or 8) removes
the last stored character if there is one; every other character is appended. -/
def refLine (max : Nat) : List Reply → List Nat → List Nat
  | [], line => line
  | r :: input, line =>
    if line.length + 1 ≥ max then line
    else if r.ret < 1 then line
    else
      let c := r.val.toNat % 256
      if c = 13 ∨ c = 10 then line
      else if c = 127 ∨ c = 8 then refLine max input line.dropLast
      else refLine max input (line ++ [c])

/-- The replies a run has consumed: those of its traps, in order. -/
def replies (t : List Event) : List Reply :=
  t.filterMap Event.reply

/-- A run of `readline` (or of its loop) that is blocked for want of a reply: no reply is
left, no `read` has failed, and the last trap has no reply; that trap is a `read` only while
the line is unfinished (no CR or LF received, and the reference line of the input received,
started from `line`, is shorter than `max - 1`), otherwise it is the `write` of an echo. -/
def Blocked {α : Type} (max : Nat) (line : List Nat) (o : Out α) : Prop :=
  o.res = .halt .pending ∧ o.rest = [] ∧ (∀ r ∈ reads o.trace, ¬ r.ret < 1) ∧
  ((o.trace.getLast? = some ⟨readTrap, none⟩ ∧
      (∀ r ∈ reads o.trace, r.val.toNat % 256 ≠ 13 ∧ r.val.toNat % 256 ≠ 10) ∧
      (refLine max (reads o.trace) line).length + 1 < max) ∨
    ∃ s, o.trace.getLast? = some ⟨writeTrap s, none⟩)

/-- What a run `o` of the loop of `readline` on the replies `rs`, entered with `buf` and `i`,
is like when the budget is no obstacle.  The replies of its traps and the replies left over
are `rs`.  Either the run is blocked for want of a reply, or the loop has returned `(buf1, j)`
with `j ≤ max - 1`, the buffer has kept its size and its bytes from index `max - 1` on, the
first `j` bytes are the reference line of the input received (followed by whatever input
`more`), started from the first `i` bytes of `buf`, and a failed `read` is the last `read`. -/
def LoopPost (max : Nat) (buf : List Nat) (i : Nat) (rs : List Reply)
    (o : Out (List Nat × Nat)) : Prop :=
  replies o.trace ++ o.rest = rs ∧
  (Blocked max (buf.take i) o ∨
    ∃ buf1 j, o.res = .ok (buf1, j) ∧ j + 1 ≤ max ∧ buf1.length = buf.length ∧
      buf1.drop (max - 1) = buf.drop (max - 1) ∧
      (∀ more, refLine max (reads o.trace ++ more) (buf.take i) = buf1.take j) ∧
      (∀ pre r more, reads o.trace = pre ++ r :: more → r.ret < 1 → more = []))

/-! ## usertests.c -/

/-- Function `void print_int(int n)`: `itoa(n, buf); print(buf);`. -/
def print_int (n : Int) : Proc Unit :=
  match itoa n with
  | none => stop .fuel
  | some buf => print buf

/-- Lines 16-39 of `exitwait`: the loop `for(i = 0; i < 50; i++) { ... }` from `i` on; `s` is
the memory from the pointer `s` on. -/
def exitwaitLoop (s : List Nat) : Nat → Int → Proc Unit
  | 0, _ => stop .fuel
  | fuel + 1, i =>
    if i < 50 then do
      let pid ← fork
      if pid < 0 then do
        print s
        print (lit ": fork failed\n")
        exit 1
      if pid ≠ 0 then do
        -- Parent
        let r ← wait .cell
        let wpid := r.ret
        let xstate := r.val
        if wpid ≠ pid then do
          print s
          print (lit ": wait wrong pid\n")
          exit 1
        if i ≠ xstate then do
          print s
          print (lit ": wait wrong exit status. Expected ")
          print_int i
          print (lit " got ")
          print_int xstate
          print (lit "\n")
          exit 1
      else
        -- Child
        exit i
      -- `i++` (below 50, no wrap-around)
      exitwaitLoop s fuel (i + 1)
    else pure ()

/-- Function `void exitwait(char *s)`.  The budget of the loop is the number of its
iterations plus one. -/
def exitwait (s : List Nat) : Proc Unit := do
  print (lit "\n--- Test: ")
  print s
  print (lit " ---\n")
  exitwaitLoop s 51 0
  print s
  print (lit ": OK\n")

/-- From the words of the specification: the iterations `i`, `i + 1`, ... are accepted on
the pairs of replies to `fork` and `wait`: `fork` returned a positive pid, `wait` returned
exactly that pid and stored exactly the status `i`. -/
def acceptedFrom : Int → List (Reply × Reply) → Bool
  | _, [] => true
  | i, (rf, rw) :: ps =>
    decide (0 < rf.ret) && decide (rw.ret = rf.ret) && decide (rw.val = i)
      && acceptedFrom (i + 1) ps

/-- The replies of the accepted iterations, in the order the parent receives them. -/
def pairReplies : List (Reply × Reply) → List Reply
  | [] => []
  | (rf, rw) :: ps => rf :: rw :: pairReplies ps

/-- The events of the accepted iterations in the parent: `fork` and `wait(&xstate)` in
turn. -/
def pairEvents : List (Reply × Reply) → List Event
  | [] => []
  | (rf, rw) :: ps => ⟨forkTrap, some rf⟩ :: ⟨waitTrap, some rw⟩ :: pairEvents ps

/-- The events of the heading `print("\n--- Test: "); print(s); print(" ---\n");`. -/
def headingEvents (s : List Nat) (h1 h2 h3 : Reply) : List Event :=
  [⟨printTrap "\n--- Test: ", some h1⟩, ⟨writeTrap (cstr s 0), some h2⟩,
    ⟨printTrap " ---\n", some h3⟩]

/-! ## The kernel model of the claim on outstanding children -/

/-- Modelled from the spec: the kernel is not among the sources, and this is the kernel model
the claim names.  The children of a process that are outstanding after the event `e`, when
`children` were outstanding before it.  A `fork` that returns a
positive pid adds that pid; a `wait` with at least one outstanding child reaps exactly one
child, whose pid it returns (`none`: the event is not one of this kernel model); nothing is
said of a `wait` without outstanding children; a trap that has not returned and every other
trap leave the children as they are. -/
def kernelStep (children : List Int) (e : Event) : Option (List Int) :=
  match e.reply with
  | none => some children
  | some r =>
    if e.trap.num = SYS_FORK then
      if 0 < r.ret then some (r.ret :: children) else some children
    else if e.trap.num = SYS_WAIT then
      if children = [] then some children
      else if r.ret ∈ children then some (children.erase r.ret) else none
    else some children

/-- The pid the event has just spawned: the result of a `fork` that returned a positive
pid. -/
def spawned (e : Event) : Option Int :=
  match e.reply with
  | none => none
  | some r => if e.trap.num = SYS_FORK ∧ 0 < r.ret then some r.ret else none

/-- From the words of the specification: as long as the trace is one of the kernel model,
started with the outstanding `children` and with `last` the pid spawned by the event just
before, the process has no outstanding children each time it reads, and the pid each of its
`wait`s returns is the pid it has just spawned. -/
def OneInFlight : List Int → Option Int → List Event → Prop
  | _, _, [] => True
  | children, last, e :: t =>
    match kernelStep children e with
    | none => True
    | some c1 =>
      (e.trap.num = SYS_READ → children = []) ∧
      (e.trap.num = SYS_WAIT → ∀ rw, e.reply = some rw → last = some rw.ret) ∧
      OneInFlight c1 (spawned e) t

/-- A piece of code that keeps the invariant of the iterations: its trace has the property
`OneInFlight` from no outstanding children on, also with any trace that has the property put
behind it when the piece returns. -/
def Piece {α : Type} (p : Proc α) : Prop :=
  ∀ rs, OneInFlight [] none (p rs).trace ∧
    ∀ a, (p rs).res = .ok a → ∀ b, OneInFlight [] none b →
      OneInFlight [] none ((p rs).trace ++ b)

/-- From the words of the specification: in the trace of one iteration, `fork` is called at
most once, and `wait` is called exactly once when `fork` returned a positive pid and never
otherwise. -/
def ForkWaitCounts (tr : List Event) : Prop :=
  countTraps SYS_FORK tr ≤ 1 ∧
  ((∃ rf, ⟨forkTrap, some rf⟩ ∈ tr ∧ 0 < rf.ret) → countTraps SYS_WAIT tr = 1) ∧
  ((¬ ∃ rf, ⟨forkTrap, some rf⟩ ∈ tr ∧ 0 < rf.ret) → countTraps SYS_WAIT tr = 0)

/-! # Theorems -/

/-! ## Lemmas on buffers -/

theorem getElem?_mid (pre : List Nat) (x : Nat) (post : List Nat) :
    (pre ++ x :: post)[pre.length]? = some x := by
  rw [List.getElem?_append_right (le_refl _)]; simp

theorem set_mid (pre : List Nat) (x y : Nat) (post : List Nat) :
    (pre ++ x :: post).set pre.length y = pre ++ y :: post := by
  rw [List.set_append_right _ _ (le_refl _)]; simp

theorem takeWhile_nonzero (tok post : List Nat) (h : ∀ x ∈ tok, x ≠ 0) :
    (tok ++ 0 :: post).takeWhile (fun c => c ≠ 0) = tok := by
  induction tok with
  | nil => simp
  | cons x tok ih =>
    have hx : x ≠ 0 := h x (List.mem_cons_self _ _)
    have := ih (fun y hy => h y (List.mem_cons_of_mem _ hy))
    simp [List.takeWhile_cons, hx] at this ⊢
    exact this

theorem cstr_mid (pre tok post : List Nat) (h : ∀ x ∈ tok, x ≠ 0) :
    cstr (pre ++ tok ++ 0 :: post) pre.length = tok := by
  unfold cstr
  rw [List.append_assoc, List.drop_left]
  exact takeWhile_nonzero tok post h

theorem skipSpaces_run (sp : List Nat) :
    ∀ (pre : List Nat) (c : Nat) (post : List Nat) (fuel : Nat),
      (∀ x ∈ sp, x = SP) → c ≠ SP → sp.length < fuel →
      skipSpaces (pre ++ sp ++ c :: post) fuel pre.length = some (pre.length + sp.length) := by
  induction sp with
  | nil =>
    intro pre c post fuel _ hc hf
    obtain ⟨f, rfl⟩ : ∃ f, fuel = f + 1 := ⟨fuel - 1, by simp at hf; omega⟩
    simp only [List.append_nil, skipSpaces, getElem?_mid, if_neg hc, List.length_nil, Nat.add_zero]
  | cons x sp ih =>
    intro pre c post fuel hsp hc hf
    obtain ⟨f, rfl⟩ : ∃ f, fuel = f + 1 := ⟨fuel - 1, by simp at hf; omega⟩
    have hx : x = SP := hsp x (List.mem_cons_self _ _)
    have h := ih (pre ++ [x]) c post f (fun y hy => hsp y (List.mem_cons_of_mem _ hy)) hc
      (by simp at hf; omega)
    have e : pre ++ x :: sp ++ c :: post = pre ++ [x] ++ sp ++ c :: post := by simp
    have e2 : pre ++ x :: sp ++ c :: post = pre ++ x :: (sp ++ c :: post) := by simp
    simp only [skipSpaces]
    rw [e2, getElem?_mid, ← e2, e]
    simp only [if_pos hx]
    have e3 : (pre ++ [x]).length = pre.length + 1 := by simp
    rw [← e3, h]; simp; omega

theorem scanToken_run (tok : List Nat) :
    ∀ (pre : List Nat) (c : Nat) (post : List Nat) (fuel : Nat),
      (∀ x ∈ tok, x ≠ 0 ∧ x ≠ SP) → (c = 0 ∨ c = SP) → tok.length < fuel →
      scanToken (pre ++ tok ++ c :: post) fuel pre.length = some (pre.length + tok.length) := by
  induction tok with
  | nil =>
    intro pre c post fuel _ hc hf
    obtain ⟨f, rfl⟩ : ∃ f, fuel = f + 1 := ⟨fuel - 1, by simp at hf; omega⟩
    have hc2 : ¬ (c ≠ 0 ∧ c ≠ SP) := by rcases hc with hc | hc <;> simp [hc]
    simp only [List.append_nil, scanToken, getElem?_mid, if_neg hc2, List.length_nil, Nat.add_zero]
  | cons x tok ih =>
    intro pre c post fuel htok hc hf
    obtain ⟨f, rfl⟩ : ∃ f, fuel = f + 1 := ⟨fuel - 1, by simp at hf; omega⟩
    have hx := htok x (List.mem_cons_self _ _)
    have h := ih (pre ++ [x]) c post f (fun y hy => htok y (List.mem_cons_of_mem _ hy)) hc
      (by simp at hf; omega)
    have e : pre ++ x :: tok ++ c :: post = pre ++ [x] ++ tok ++ c :: post := by simp
    have e2 : pre ++ x :: tok ++ c :: post = pre ++ x :: (tok ++ c :: post) := by simp
    simp only [scanToken]
    rw [e2, getElem?_mid, ← e2, e]
    simp only [if_pos hx]
    have e3 : (pre ++ [x]).length = pre.length + 1 := by simp
    rw [← e3, h]; simp; omega

/-! ## The maximal runs of a line -/

theorem maximalRuns_nil : maximalRuns [] = [] := by
  simp [maximalRuns, List.splitOn]

theorem maximalRuns_space (l : List Nat) : maximalRuns (SP :: l) = maximalRuns l := by
  simp [maximalRuns, List.splitOn, List.splitOnP_cons]

theorem maximalRuns_spaces (sp l : List Nat) (h : ∀ x ∈ sp, x = SP) :
    maximalRuns (sp ++ l) = maximalRuns l := by
  induction sp with
  | nil => simp
  | cons x sp ih =>
    have hx : x = SP := h x (List.mem_cons_self _ _)
    subst hx
    rw [List.cons_append, maximalRuns_space]
    exact ih (fun y hy => h y (List.mem_cons_of_mem _ hy))

theorem maximalRuns_token_space (tok l : List Nat) (h : ∀ x ∈ tok, x ≠ SP) (hne : tok ≠ []) :
    maximalRuns (tok ++ SP :: l) = tok :: maximalRuns l := by
  unfold maximalRuns List.splitOn
  rw [List.splitOnP_first (fun x => x == SP) tok (by simpa using h) SP (by simp)]
  simp [hne]

theorem maximalRuns_token (tok : List Nat) (h : ∀ x ∈ tok, x ≠ SP) (hne : tok ≠ []) :
    maximalRuns tok = [tok] := by
  unfold maximalRuns List.splitOn
  rw [List.splitOnP_eq_single (fun x => x == SP) tok (by simpa using h)]
  simp [hne]

/-- Every line is a run of spaces, then a run of non-spaces, then either nothing or a space
and the rest; the run of non-spaces is empty only when nothing follows it. -/
theorem line_shape (rem : List Nat) :
    ∃ sp tok rest, (∀ x ∈ sp, x = SP) ∧ (∀ x ∈ tok, x ≠ SP) ∧ rem = sp ++ tok ++ rest ∧
      (rest = [] ∨ ∃ r3, rest = SP :: r3) ∧ (tok = [] → rest = []) := by
  induction rem with
  | nil => exact ⟨[], [], [], by simp, by simp, by simp, Or.inl rfl, fun _ => rfl⟩
  | cons x rem ih =>
    obtain ⟨sp, tok, rest, hsp, htok, hrem, hrest, hempty⟩ := ih
    by_cases hx : x = SP
    · exact ⟨x :: sp, tok, rest, by simpa [hx] using hsp, htok, by simp [hrem], hrest, hempty⟩
    · cases sp with
      | nil =>
        refine ⟨[], x :: tok, rest, by simp, ?_, by simp [hrem], hrest, by simp⟩
        intro y hy
        rcases List.mem_cons.mp hy with rfl | hy
        · exact hx
        · exact htok y hy
      | cons y sp =>
        have hy : y = SP := hsp y (List.mem_cons_self _ _)
        refine ⟨[], [x], SP :: (sp ++ tok ++ rest), by simp, by simpa using hx, ?_,
          Or.inr ⟨_, rfl⟩, by simp⟩
        simp [hrem, hy]

/-! ## One turn of the tokenizer loop -/

theorem SP_ne_zero : SP ≠ 0 := by decide

theorem tokLoop_stop_nul (f : Nat) (pre tail : List Nat) (argv : List (Option Nat)) (argc : Nat) :
    tokLoop (f + 1) ⟨pre ++ 0 :: tail, argv, argc, pre.length⟩
      = some ⟨pre ++ 0 :: tail, argv, argc, pre.length⟩ := by
  simp only [tokLoop, getElem?_mid]
  simp

theorem tokLoop_stop_full (f : Nat) (buf : List Nat) (argv : List (Option Nat)) (argc ptr c : Nat)
    (h : buf[ptr]? = some c) (hfull : MAX_ARGS ≤ argc) :
    tokLoop (f + 1) ⟨buf, argv, argc, ptr⟩ = some ⟨buf, argv, argc, ptr⟩ := by
  simp only [tokLoop, h]
  rw [if_neg]
  intro hh
  exact absurd hh.2 (by omega)

theorem tokLoop_break (f : Nat) (pre sp tail : List Nat) (argv : List (Option Nat)) (argc : Nat)
    (hsp : ∀ x ∈ sp, x = SP) (hne : sp ≠ []) (hargc : argc < MAX_ARGS) (hf : sp.length < f + 1) :
    tokLoop (f + 1) ⟨pre ++ sp ++ 0 :: tail, argv, argc, pre.length⟩
      = some ⟨pre ++ sp ++ 0 :: tail, argv, argc, pre.length + sp.length⟩ := by
  have h1 : (pre ++ sp ++ 0 :: tail)[pre.length]? = some SP := by
    cases sp with
    | nil => exact absurd rfl hne
    | cons x sp =>
      have hx : x = SP := hsp x (List.mem_cons_self _ _)
      rw [List.append_assoc, List.cons_append, getElem?_mid, hx]
  have h2 := skipSpaces_run sp pre 0 tail (f + 1) hsp (Ne.symm SP_ne_zero) hf
  have h3 : (pre ++ sp ++ 0 :: tail)[pre.length + sp.length]? = some 0 := by
    rw [← List.length_append, getElem?_mid]
  simp only [tokLoop, h1, h2, h3]
  simp [SP_ne_zero, hargc]

theorem tokLoop_token (f : Nat) (pre sp tok : List Nat) (c2 : Nat) (post : List Nat)
    (argv : List (Option Nat)) (argc : Nat)
    (hsp : ∀ x ∈ sp, x = SP) (htok : ∀ x ∈ tok, x ≠ 0 ∧ x ≠ SP) (hne : tok ≠ [])
    (hc2 : c2 = 0 ∨ c2 = SP) (hargc : argc < MAX_ARGS) (hf : sp.length + tok.length < f + 1) :
    tokLoop (f + 1) ⟨pre ++ sp ++ tok ++ c2 :: post, argv, argc, pre.length⟩
      = tokLoop f ⟨pre ++ sp ++ tok ++ 0 :: post, argv.set argc (some (pre.length + sp.length)),
          argc + 1, pre.length + sp.length + tok.length + (if c2 = 0 then 0 else 1)⟩ := by
  obtain ⟨y, tok1, rfl⟩ : ∃ y tok1, tok = y :: tok1 := by
    cases tok with
    | nil => exact absurd rfl hne
    | cons y tok1 => exact ⟨y, tok1, rfl⟩
  have hy := htok y (List.mem_cons_self _ _)
  have h1 : ∃ c, (pre ++ sp ++ y :: tok1 ++ c2 :: post)[pre.length]? = some c ∧ c ≠ 0 := by
    cases sp with
    | nil =>
      refine ⟨y, ?_, hy.1⟩
      rw [List.append_nil, List.append_assoc, List.cons_append, getElem?_mid]
    | cons x sp =>
      have hx : x = SP := hsp x (List.mem_cons_self _ _)
      refine ⟨SP, ?_, SP_ne_zero⟩
      rw [List.append_assoc, List.append_assoc, List.cons_append, getElem?_mid, hx]
  obtain ⟨c, h1, hc⟩ := h1
  have h2 : skipSpaces (pre ++ sp ++ y :: tok1 ++ c2 :: post) (f + 1) pre.length
      = some (pre.length + sp.length) := by
    have := skipSpaces_run sp pre y (tok1 ++ c2 :: post) (f + 1) hsp hy.2 (by omega)
    simpa using this
  have h3 : (pre ++ sp ++ y :: tok1 ++ c2 :: post)[pre.length + sp.length]? = some y := by
    rw [← List.length_append, List.append_assoc, List.cons_append, getElem?_mid]
  have h4 : scanToken (pre ++ sp ++ y :: tok1 ++ c2 :: post) (f + 1) (pre.length + sp.length)
      = some (pre.length + sp.length + (y :: tok1).length) := by
    have := scanToken_run (y :: tok1) (pre ++ sp) c2 post (f + 1) htok hc2 (by omega)
    simpa using this
  have h5 : (pre ++ sp ++ y :: tok1 ++ c2 :: post)[pre.length + sp.length + (y :: tok1).length]?
      = some c2 := by
    rw [← List.length_append, ← List.length_append, getElem?_mid]
  have h6 : (pre ++ sp ++ y :: tok1 ++ c2 :: post).set
      (pre.length + sp.length + (y :: tok1).length) 0 = pre ++ sp ++ y :: tok1 ++ 0 :: post := by
    rw [← List.length_append, ← List.length_append, set_mid]
  simp only [tokLoop, h1, h2, h3, h4, h5, h6]
  rw [if_pos ⟨hc, hargc⟩, if_neg (by simpa using hy.1)]
  rcases hc2 with rfl | rfl
  · simp
  · simp [SP_ne_zero]

/-! ## The tokenizer loop as a whole -/

theorem TokPost_step (pre sp tok sep rem rem2 tail : List Nat) (argv : List (Option Nat))
    (argc : Nat) (s : TokState)
    (hlen : rem.length = sp.length + tok.length + sep.length + rem2.length)
    (hruns : maximalRuns rem = tok :: maximalRuns rem2)
    (htok : ∀ x ∈ tok, x ≠ 0)
    (hsep : sep = [0] ∨ (sep = [] ∧ rem2 = []))
    (hargc : argc < MAX_ARGS) (hargv : MAX_ARGS < argv.length)
    (h : TokPost (pre ++ sp ++ tok ++ sep) rem2 tail
          (argv.set argc (some (pre.length + sp.length))) (argc + 1) s) :
    TokPost pre rem tail argv argc s := by
  obtain ⟨r, hr, hbuf⟩ := h.buf_eq
  have hargc_s : argc + 1 ≤ s.argc := by
    rw [h.argc_eq]; simp only [MAX_ARGS] at hargc ⊢; omega
  refine ⟨⟨sp ++ tok ++ sep ++ r, ?_, ?_⟩, ?_, ?_, ?_, ?_, ?_⟩
  · simp [hr, hlen]; omega
  · rw [hbuf]; simp
  · rw [h.argc_eq, hruns]; simp only [List.length_cons]; congr 1; omega
  · rw [h.argv_len]; simp
  · intro i hi
    rw [h.argv_old i (by omega), List.getElem?_set_ne (by omega)]
  · intro i hi
    rw [h.argv_rest i hi, List.getElem?_set_ne (by omega)]
  · intro j hj
    cases j with
    | zero =>
      refine ⟨pre.length + sp.length, ?_, ?_⟩
      · rw [Nat.add_zero, h.argv_old argc (by omega), List.getElem?_set_eq_of_lt _ (by omega)]
      · rw [hruns, hbuf]
        simp only [List.getElem?_cons_zero, Option.some.injEq]
        rcases hsep with rfl | ⟨rfl, rfl⟩
        · have e : pre ++ sp ++ tok ++ [0] ++ r ++ 0 :: tail
              = (pre ++ sp) ++ tok ++ 0 :: (r ++ 0 :: tail) := by simp
          rw [e, ← List.length_append, cstr_mid _ _ _ htok]
        · have hr0 : r = [] := List.length_eq_zero.mp (by simpa using hr)
          subst hr0
          have e : pre ++ sp ++ tok ++ [] ++ [] ++ 0 :: tail
              = (pre ++ sp) ++ tok ++ 0 :: tail := by simp
          rw [e, ← List.length_append, cstr_mid _ _ _ htok]
    | succ k =>
      obtain ⟨off, h1, h2⟩ := h.argv_new k (by omega)
      refine ⟨off, ?_, ?_⟩
      · rw [← h1]; congr 1; omega
      · rw [hruns, List.getElem?_cons_succ, h2]

theorem tokLoop_spec : ∀ (f : Nat) (pre rem tail : List Nat) (argv : List (Option Nat))
    (argc : Nat), (∀ x ∈ rem, x ≠ 0) → rem.length < f → argc ≤ MAX_ARGS →
    MAX_ARGS < argv.length →
    ∃ s, tokLoop f ⟨pre ++ rem ++ 0 :: tail, argv, argc, pre.length⟩ = some s ∧
      TokPost pre rem tail argv argc s := by
  intro f
  induction f with
  | zero => intro pre rem tail argv argc _ hf; exact absurd hf (Nat.not_lt_zero _)
  | succ f ih =>
    intro pre rem tail argv argc hrem hf hargc hargv
    by_cases hfull : argc < MAX_ARGS
    swap
    · -- the vector is full: the loop condition fails
      have hread : ∃ c, (pre ++ rem ++ 0 :: tail)[pre.length]? = some c := by
        cases rem with
        | nil => exact ⟨0, by rw [List.append_nil, getElem?_mid]⟩
        | cons x rem => exact ⟨x, by rw [List.append_assoc, List.cons_append, getElem?_mid]⟩
      obtain ⟨c, hc⟩ := hread
      refine ⟨_, tokLoop_stop_full f _ argv argc _ c hc (by omega), ⟨rem, rfl, rfl⟩, ?_, rfl,
        fun _ _ => rfl, fun _ _ => rfl, ?_⟩
      · show argc = min MAX_ARGS (argc + (maximalRuns rem).length); omega
      · intro j hj; exact absurd hj (by show ¬ argc + j < argc; omega)
    · obtain ⟨sp, tok, rest, hsp, htok, hshape, hrest, hempty⟩ := line_shape rem
      by_cases htk : tok = []
      · -- only spaces are left
        have hr : rest = [] := hempty htk
        subst htk; subst hr
        simp only [List.append_nil] at hshape
        subst hshape
        have hruns : maximalRuns rem = [] := by
          have := maximalRuns_spaces rem [] hsp
          rw [List.append_nil, maximalRuns_nil] at this
          exact this
        by_cases hne : rem = []
        · subst hne
          refine ⟨_, by rw [List.append_nil]; exact tokLoop_stop_nul f pre tail argv argc,
            ⟨[], rfl, by simp⟩, ?_, rfl, fun _ _ => rfl, fun _ _ => rfl, ?_⟩
          · show argc = min MAX_ARGS (argc + (maximalRuns []).length)
            rw [hruns]; simp only [List.length_nil]; omega
          · intro j hj; exact absurd hj (by show ¬ argc + j < argc; omega)
        · refine ⟨_, tokLoop_break f pre rem tail argv argc hsp hne hfull hf,
            ⟨rem, rfl, rfl⟩, ?_, rfl, fun _ _ => rfl, fun _ _ => rfl, ?_⟩
          · show argc = min MAX_ARGS (argc + (maximalRuns rem).length)
            rw [hruns]; simp only [List.length_nil]; omega
          · intro j hj; exact absurd hj (by show ¬ argc + j < argc; omega)
      · -- a token starts after the spaces
        have htok0 : ∀ x ∈ tok, x ≠ 0 ∧ x ≠ SP := fun x hx =>
          ⟨hrem x (by rw [hshape]; simp [hx]), htok x hx⟩
        have htl : 0 < tok.length := List.length_pos.mpr htk
        rcases hrest with hr | ⟨r3, hr⟩
        · -- the token ends at the terminator
          subst hr
          simp only [List.append_nil] at hshape
          have hlen : rem.length = sp.length + tok.length := by rw [hshape]; simp
          have hstep := tokLoop_token f pre sp tok 0 tail argv argc hsp htok0 htk (Or.inl rfl)
            hfull (by omega)
          obtain ⟨s, hs, hpost⟩ := ih (pre ++ sp ++ tok) [] tail
            (argv.set argc (some (pre.length + sp.length))) (argc + 1)
            (by simp) (by simp; omega) (by omega) (by simpa using hargv)
          refine ⟨s, ?_, ?_⟩
          · rw [hshape, ← List.append_assoc, hstep, ← hs]
            simp [Nat.add_assoc]
          · refine TokPost_step pre sp tok [] rem [] tail argv argc s (by simp [hlen]) ?_
              (fun x hx => (htok0 x hx).1) (Or.inr ⟨rfl, rfl⟩) hfull hargv (by simpa using hpost)
            rw [hshape, maximalRuns_spaces _ _ hsp, maximalRuns_token _ htok htk, maximalRuns_nil]
        · -- the token ends at a space, which becomes its terminator
          subst hr
          have hlen : rem.length = sp.length + tok.length + 1 + r3.length := by
            rw [hshape]; simp; omega
          have hstep := tokLoop_token f pre sp tok SP (r3 ++ 0 :: tail) argv argc hsp htok0 htk
            (Or.inr rfl) hfull (by omega)
          obtain ⟨s, hs, hpost⟩ := ih (pre ++ sp ++ tok ++ [0]) r3 tail
            (argv.set argc (some (pre.length + sp.length))) (argc + 1)
            (fun x hx => hrem x (by rw [hshape]; simp [hx])) (by omega) (by omega)
            (by simpa using hargv)
          refine ⟨s, ?_, ?_⟩
          · have e : pre ++ rem ++ 0 :: tail = pre ++ sp ++ tok ++ SP :: (r3 ++ 0 :: tail) := by
              rw [hshape]; simp
            rw [e, hstep, ← hs]
            simp [SP_ne_zero, Nat.add_assoc]
          · refine TokPost_step pre sp tok [0] rem r3 tail argv argc s (by simp [hlen]) ?_
              (fun x hx => (htok0 x hx).1) (Or.inl rfl) hfull hargv hpost
            rw [hshape, List.append_assoc, maximalRuns_spaces _ _ hsp,
              maximalRuns_token_space _ _ htok htk]

/-! ## The tokenizer on a line -/

theorem maximalRuns_mem : ∀ (n : Nat) (l : List Nat), l.length ≤ n →
    ∀ t ∈ maximalRuns l, t ≠ [] ∧ ∀ x ∈ t, x ≠ SP := by
  intro n
  induction n with
  | zero =>
    intro l hl t ht
    have : l = [] := List.length_eq_zero.mp (by omega)
    subst this
    rw [maximalRuns_nil] at ht
    exact absurd ht (List.not_mem_nil _)
  | succ n ih =>
    intro l hl t ht
    obtain ⟨sp, tok, rest, hsp, htok, hshape, hrest, hempty⟩ := line_shape l
    by_cases htk : tok = []
    · have hr : rest = [] := hempty htk
      subst htk; subst hr
      rw [hshape, List.append_nil, maximalRuns_spaces _ _ hsp, maximalRuns_nil] at ht
      exact absurd ht (List.not_mem_nil _)
    · rcases hrest with hr | ⟨r3, hr⟩
      · subst hr
        rw [hshape, List.append_nil, maximalRuns_spaces _ _ hsp,
          maximalRuns_token _ htok htk] at ht
        rw [List.mem_singleton.mp ht]
        exact ⟨htk, htok⟩
      · subst hr
        rw [hshape, List.append_assoc, maximalRuns_spaces _ _ hsp,
          maximalRuns_token_space _ _ htok htk] at ht
        rcases List.mem_cons.mp ht with h | h
        · rw [h]; exact ⟨htk, htok⟩
        · refine ih r3 ?_ t h
          have : l.length = sp.length + tok.length + (1 + r3.length) := by
            rw [hshape]; simp; omega
          omega

theorem tokenize_spec (line tail : List Nat) (argv : List (Option Nat))
    (hline : ∀ x ∈ line, x ≠ 0) (hargv : MAX_ARGS < argv.length) :
    ∃ s, tokenize (lineBuf line tail) argv = some s ∧
      s.argc = (specTokens line).length ∧
      s.argv.length = argv.length ∧
      s.argv[s.argc]? = some none ∧
      (∀ j, j < s.argc → ∃ off, s.argv[j]? = some (some off) ∧
        (maximalRuns line)[j]? = some (cstr s.buf off)) ∧
      (∃ rem2, rem2.length = line.length ∧ s.buf = rem2 ++ 0 :: tail) ∧
      (∀ i, s.argc < i → s.argv[i]? = argv[i]?) := by
  obtain ⟨s, hs, hpost⟩ := tokLoop_spec ((lineBuf line tail).length + 1) [] line tail argv 0
    hline (by simp [lineBuf]; omega) (Nat.zero_le _) hargv
  have hargc : s.argc = (specTokens line).length := by
    rw [hpost.argc_eq]; simp [specTokens, Nat.min_comm]
  have hle : s.argc ≤ MAX_ARGS := by
    rw [hpost.argc_eq]; exact Nat.min_le_left _ _
  refine ⟨{ s with argv := s.argv.set s.argc none }, ?_, hargc, ?_, ?_, ?_, ?_, ?_⟩
  · simp only [tokenize]
    simp only [List.nil_append, List.length_nil, lineBuf] at hs
    simp only [lineBuf]
    rw [hs]
  · simp [hpost.argv_len]
  · show (s.argv.set s.argc none)[s.argc]? = some none
    rw [List.getElem?_set_eq_of_lt _ (by rw [hpost.argv_len]; omega)]
  · intro j hj
    obtain ⟨off, h1, h2⟩ := hpost.argv_new j (by simpa using hj)
    refine ⟨off, ?_, h2⟩
    show (s.argv.set s.argc none)[j]? = some (some off)
    rw [List.getElem?_set_ne (by have : j < s.argc := hj; omega)]
    simpa using h1
  · obtain ⟨r, hr, hbuf⟩ := hpost.buf_eq
    exact ⟨r, hr, by simpa using hbuf⟩
  · intro i hi
    show (s.argv.set s.argc none)[i]? = argv[i]?
    rw [List.getElem?_set_ne (by have : s.argc < i := hi; omega)]
    exact hpost.argv_rest i (by have : s.argc < i := hi; omega)

theorem tokens_of_spec (line : List Nat) (s : TokState)
    (hargc : s.argc = (specTokens line).length)
    (hnew : ∀ j, j < s.argc → ∃ off, s.argv[j]? = some (some off) ∧
        (maximalRuns line)[j]? = some (cstr s.buf off)) :
    tokens s = (specTokens line).map some := by
  apply List.ext_getElem?
  intro j
  simp only [tokens, List.getElem?_map, List.getElem?_take, specTokens]
  by_cases hj : j < s.argc
  · obtain ⟨off, h1, h2⟩ := hnew j hj
    have hj2 : j < MAX_ARGS := by
      have : (specTokens line).length ≤ MAX_ARGS := by simp [specTokens]
      omega
    simp [hj, hj2, h1, h2, slotString]
  · have : ¬ j < MAX_ARGS ∨ (maximalRuns line).length ≤ j := by
      rw [hargc] at hj
      simp only [specTokens, List.length_take] at hj
      omega
    rcases this with h | h
    · simp [hj, h]
    · simp [hj, List.getElem?_eq_none h]

/-! ## Running a process -/

theorem bind_run {α β : Type} (p : Proc α) (f : α → Proc β) (rs : List Reply) :
    (p >>= f) rs = match p rs with
      | ⟨t, rs1, .ok a⟩ => (f a rs1).after t
      | ⟨t, rs1, .halt h⟩ => ⟨t, rs1, .halt h⟩ := rfl

theorem pure_run {α : Type} (a : α) (rs : List Reply) :
    (pure a : Proc α) rs = ⟨[], rs, .ok a⟩ := rfl

theorem after_nil {α : Type} (o : Out α) : o.after [] = o := rfl

theorem after_after {α : Type} (t1 t2 : List Event) (o : Out α) :
    (o.after t2).after t1 = o.after (t1 ++ t2) := by
  simp [Out.after]

theorem pure_bind_run {α β : Type} (a : α) (f : α → Proc β) (rs : List Reply) :
    (pure a >>= f) rs = f a rs := rfl

theorem bind_assoc_run {α β γ : Type} (p : Proc α) (f : α → Proc β) (g : β → Proc γ)
    (rs : List Reply) : (p >>= f >>= g) rs = (p >>= fun a => f a >>= g) rs := by
  simp only [bind_run]
  rcases p rs with ⟨t, rs1, a | h⟩
  · simp only []
    rcases f a rs1 with ⟨t2, rs2, b | h2⟩
    · simp [Out.after]
    · simp [Out.after]
  · rfl

theorem syscall_bind_cons {β : Type} (num : Int) (a0 a1 a2 : Arg) (f : Reply → Proc β)
    (r : Reply) (rs : List Reply) :
    (syscall num a0 a1 a2 >>= f) (r :: rs) = (f r rs).after [⟨⟨num, a0, a1, a2⟩, some r⟩] := rfl

theorem syscall_bind_nil {β : Type} (num : Int) (a0 a1 a2 : Arg) (f : Reply → Proc β) :
    (syscall num a0 a1 a2 >>= f) [] = ⟨[⟨⟨num, a0, a1, a2⟩, none⟩], [], .halt .pending⟩ := rfl

theorem strlen_lit (l rest : List Nat) (h : ∀ c ∈ l, c ≠ 0) :
    strlen (l ++ 0 :: rest) = l.length := by
  induction l with
  | nil => simp [strlen]
  | cons x l ih =>
    have hx : x ≠ 0 := h x (List.mem_cons_self _ _)
    simp [strlen, hx, ih (fun y hy => h y (List.mem_cons_of_mem _ hy))]

/-- What `print` does on the memory `l ++ 0 :: rest` with `l` NUL-free: one write of `l`. -/
theorem print_bind_cons {β : Type} (l rest : List Nat) (h : ∀ c ∈ l, c ≠ 0)
    (f : Unit → Proc β) (r : Reply) (rs : List Reply) :
    (print (l ++ 0 :: rest) >>= f) (r :: rs) = (f () rs).after [⟨writeTrap l, some r⟩] := by
  simp only [print, write, strlen_lit l rest h, List.take_left]
  rfl

theorem print_bind_nil {β : Type} (l rest : List Nat) (h : ∀ c ∈ l, c ≠ 0)
    (f : Unit → Proc β) :
    (print (l ++ 0 :: rest) >>= f) [] = ⟨[⟨writeTrap l, none⟩], [], .halt .pending⟩ := by
  simp only [print, write, strlen_lit l rest h, List.take_left]
  rfl

/-- One turn of the reaper loop when `wait` reports no child. -/
theorem initReaper_no_child (shell_pid : Int) (fuel : Nat) (z v : Int) (ry : Reply)
    (rest : List Reply) (hp : 0 < shell_pid) (hz : z ≤ 0) :
    initReaper shell_pid (fuel + 1) (⟨z, v⟩ :: ry :: rest)
      = (initReaper shell_pid fuel rest).after
          [⟨waitTrap, some ⟨z, v⟩⟩, ⟨yieldTrap, some ry⟩] := by
  have h1 : z ≠ shell_pid := by omega
  have h2 : ¬ z > 0 := by omega
  simp only [initReaper, wait, syscall_bind_cons, if_neg h1, if_neg h2, yield, bind_assoc_run,
    pure_bind_run, after_after]
  rfl

/-! ## itoa on a positive number -/

theorem wrap32_id (x : Int) (h0 : -2147483648 ≤ x) (h1 : x < 2147483648) : wrap32 x = x := by
  unfold wrap32; omega

theorem divLoop_spec : ∀ (fuel : Nat) (q r : Int), 0 ≤ r → 0 ≤ q → q + r / 10 < 2147483648 →
    (r / 10).toNat < fuel → divLoop fuel q r = some (q + r / 10, r % 10) := by
  intro fuel
  induction fuel with
  | zero => intro q r _ _ _ hf; exact absurd hf (Nat.not_lt_zero _)
  | succ f ih =>
    intro q r hr hq hb hf
    by_cases h : r ≥ 10
    · have hw : wrap32 (q + 1) = q + 1 := wrap32_id _ (by omega) (by omega)
      simp only [divLoop, if_pos h, hw]
      rw [ih (q + 1) (r - 10) (by omega) (by omega) (by omega) (by omega)]
      congr 2 <;> omega
    · simp only [divLoop, if_neg h]
      congr 2 <;> omega

theorem itoaLoop_spec : ∀ (fuel n : Nat) (temp : List Nat), n < 2147483648 → n < fuel →
    itoaLoop fuel (n : Int) temp = some (temp ++ (Nat.digits 10 n).map (fun d => d + 48)) := by
  intro fuel
  induction fuel with
  | zero => intro n _ _ hf; exact absurd hf (Nat.not_lt_zero _)
  | succ f ih =>
    intro n temp hn hf
    by_cases h : (n : Int) > 0
    · have hpos : 0 < n := by omega
      have hd := divLoop_spec ((n : Int).toNat + 1) 0 n (by omega) (le_refl _) (by omega)
        (by omega)
      simp only [itoaLoop, if_pos h, hd]
      have e1 : (0 : Int) + (n : Int) / 10 = ((n / 10 : Nat) : Int) := by omega
      have e2 : ((n : Int) % 10 + 48).toNat = n % 10 + 48 := by omega
      rw [e1, e2, ih (n / 10) _ (by omega) (by omega), Nat.digits_def' (by norm_num) hpos]
      simp
    · have h0 : n = 0 := by omega
      subst h0
      simp [itoaLoop]

theorem decimal_nonzero (n : Nat) : ∀ c ∈ decimal n, c ≠ 0 := by
  intro c hc
  simp only [decimal, List.mem_map] at hc
  obtain ⟨d, _, rfl⟩ := hc
  omega

/-- On a positive `int`, `itoa` writes the decimal representation and a terminator. -/
theorem itoa_pos (z : Int) (h0 : 0 < z) (h1 : z < 2147483648) :
    itoa z = some (decimal z.toNat ++ [0]) := by
  obtain ⟨n, rfl⟩ : ∃ n : Nat, z = n := ⟨z.toNat, by omega⟩
  have hne : ¬ ((n : Int) = 0) := by omega
  have hnn : ¬ ((n : Int) < 0) := by omega
  simp only [itoa, if_neg hne, if_neg hnn, Int.toNat_ofNat,
    itoaLoop_spec (n + 1) n [] (by omega) (by omega)]
  simp [decimal, hnn]

/-! ## Properties of all events of a run -/

theorem inv_mono {α : Type} {R : Reply → Prop} {Q Q2 : Event → Prop} {p : Proc α}
    (h : ∀ e, Q e → Q2 e) (hp : Proc.Inv R Q p) : Proc.Inv R Q2 p :=
  fun rs hrs => ⟨fun e he => h e ((hp rs hrs).1 e he), (hp rs hrs).2⟩

theorem inv_pure {α : Type} (R : Reply → Prop) (Q : Event → Prop) (a : α) :
    Proc.Inv R Q (pure a : Proc α) :=
  fun _ hrs => ⟨fun _ he => absurd he (List.not_mem_nil _), hrs⟩

theorem inv_stop {α : Type} (R : Reply → Prop) (Q : Event → Prop) (h : Halt) :
    Proc.Inv R Q (stop h : Proc α) :=
  fun _ hrs => ⟨fun _ he => absurd he (List.not_mem_nil _), hrs⟩

theorem inv_bind {α β : Type} {R : Reply → Prop} {Q : Event → Prop} {p : Proc α}
    {f : α → Proc β} (hp : Proc.Inv R Q p) (hf : ∀ a, Proc.Inv R Q (f a)) :
    Proc.Inv R Q (p >>= f) := by
  intro rs hrs
  have h1 := hp rs hrs
  rw [bind_run]
  rcases hpr : p rs with ⟨t, rs1, a | h⟩
  · rw [hpr] at h1
    have h2 := hf a rs1 h1.2
    refine ⟨fun e he => ?_, h2.2⟩
    rcases List.mem_append.mp he with he | he
    · exact h1.1 e he
    · exact h2.1 e he
  · rw [hpr] at h1
    exact h1

theorem inv_syscall (R : Reply → Prop) (nums : List Int) (num : Int) (a0 a1 a2 : Arg)
    (h : num ∈ nums) : Proc.Inv R (Fits R nums) (syscall num a0 a1 a2) := by
  intro rs hrs
  cases rs with
  | nil =>
    refine ⟨fun e he => ?_, fun r hr => absurd hr (List.not_mem_nil _)⟩
    rw [List.mem_singleton.mp he]
    exact ⟨h, fun r hr => by cases hr⟩
  | cons r0 rs =>
    refine ⟨fun e he => ?_, fun r hr => hrs r (List.mem_cons_of_mem _ hr)⟩
    rw [List.mem_singleton.mp he]
    refine ⟨h, fun r hr => ?_⟩
    cases hr
    exact hrs r0 (List.mem_cons_self _ _)

theorem inv_ite {α : Type} {R : Reply → Prop} {Q : Event → Prop} (c : Prop) [Decidable c]
    {p q : Proc α} (hp : Proc.Inv R Q p) (hq : Proc.Inv R Q q) :
    Proc.Inv R Q (if c then p else q) := by
  split
  · exact hp
  · exact hq

theorem inv_write (R : Reply → Prop) (nums : List Int) (h : SYS_WRITE ∈ nums) (fd : Int)
    (buf : List Nat) (n : Nat) : Proc.Inv R (Fits R nums) (write fd buf n) :=
  inv_bind (inv_syscall R nums _ _ _ _ h) (fun _ => inv_pure _ _ _)

theorem inv_print (R : Reply → Prop) (nums : List Int) (h : SYS_WRITE ∈ nums) (str : List Nat) :
    Proc.Inv R (Fits R nums) (print str) :=
  inv_bind (inv_write R nums h _ _ _) (fun _ => inv_pure _ _ _)

theorem inv_puts (R : Reply → Prop) (nums : List Int) (h : SYS_WRITE ∈ nums) (str : List Nat) :
    Proc.Inv R (Fits R nums) (puts str) :=
  inv_bind (inv_print R nums h _) (fun _ => inv_print R nums h _)

theorem inv_exit {α : Type} (R : Reply → Prop) (nums : List Int) (h : SYS_EXIT ∈ nums)
    (code : Int) : Proc.Inv R (Fits R nums) (exit code : Proc α) :=
  inv_bind (inv_syscall R nums _ _ _ _ h) (fun _ => inv_stop _ _ _)

/-- The reaper loop issues only `wait`, `write` and `yield`. -/
theorem initReaper_fits (R : Reply → Prop) (nums : List Int) (hw : SYS_WAIT ∈ nums)
    (hwr : SYS_WRITE ∈ nums) (hy : SYS_YIELD ∈ nums) (shell_pid : Int) :
    ∀ fuel, Proc.Inv R (Fits R nums) (initReaper shell_pid fuel) := by
  intro fuel
  induction fuel with
  | zero => exact inv_stop _ _ _
  | succ f ih =>
    simp only [initReaper]
    refine inv_bind (inv_syscall R nums _ _ _ _ hw) (fun r => ?_)
    refine inv_ite _ (inv_print R nums hwr _) (inv_ite _ ?_ ?_)
    · refine inv_bind (inv_print R nums hwr _) (fun _ => ?_)
      cases itoa r.ret with
      | none => exact inv_stop _ _ _
      | some buf => exact inv_bind (inv_puts R nums hwr _) (fun _ => ih)
    · exact inv_bind (inv_bind (inv_syscall R nums _ _ _ _ hy) (fun _ => inv_pure _ _ _))
        (fun _ => ih)

/-- The loop of `main` issues only `write`, `fork`, `exec`, `exit`, `wait` and `yield`. -/
theorem initLoop_fits (R : Reply → Prop) (nums : List Int) (hw : SYS_WAIT ∈ nums)
    (hwr : SYS_WRITE ∈ nums) (hy : SYS_YIELD ∈ nums) (hf : SYS_FORK ∈ nums)
    (he : SYS_EXEC ∈ nums) (hx : SYS_EXIT ∈ nums) :
    ∀ fuel, Proc.Inv R (Fits R nums) (initLoop fuel) := by
  intro fuel
  induction fuel with
  | zero => exact inv_stop _ _ _
  | succ f ih =>
    simp only [initLoop]
    refine inv_bind (inv_print R nums hwr _) (fun _ => ?_)
    refine inv_bind (inv_bind (inv_syscall R nums _ _ _ _ hf) (fun _ => inv_pure _ _ _))
      (fun pid => ?_)
    refine inv_ite _ ?_ (inv_ite _ ?_ ?_)
    · exact inv_bind (inv_print R nums hwr _) (fun _ => ih)
    · refine inv_bind (inv_bind (inv_syscall R nums _ _ _ _ he) (fun _ => inv_pure _ _ _))
        (fun _ => ?_)
      exact inv_bind (inv_print R nums hwr _) (fun _ => inv_exit R nums hx _)
    · exact inv_bind (initReaper_fits R nums hw hwr hy pid f) (fun _ => ih)

/-! ## init.c, step by step -/

theorem print_lit_bind_cons {β : Type} (s : String) (h : ∀ c ∈ bytes s, c ≠ 0)
    (f : Unit → Proc β) (r : Reply) (rs : List Reply) :
    (print (lit s) >>= f) (r :: rs) = (f () rs).after [⟨printTrap s, some r⟩] :=
  print_bind_cons (bytes s) [] h f r rs

theorem print_lit_bind_nil {β : Type} (s : String) (h : ∀ c ∈ bytes s, c ≠ 0)
    (f : Unit → Proc β) :
    (print (lit s) >>= f) [] = ⟨[⟨printTrap s, none⟩], [], .halt .pending⟩ :=
  print_bind_nil (bytes s) [] h f

theorem print_lit_cons (s : String) (h : ∀ c ∈ bytes s, c ≠ 0) (r : Reply) (rs : List Reply) :
    print (lit s) (r :: rs) = ⟨[⟨printTrap s, some r⟩], rs, .ok ()⟩ := by
  have := print_lit_bind_cons s h (fun _ => pure ()) r rs
  simpa [print, write, bind_assoc_run, pure_bind_run, bind_run, pure_run, Out.after] using this

theorem print_lit_nil (s : String) (h : ∀ c ∈ bytes s, c ≠ 0) :
    print (lit s) [] = ⟨[⟨printTrap s, none⟩], [], .halt .pending⟩ := by
  simp only [print, lit, write, strlen_lit (bytes s) [] h, List.take_left]
  rfl

theorem firstTrap_after {α : Type} (e : Event) (t : List Event) (o : Out α) :
    firstTrap (o.after (e :: t)) = some e.trap := rfl

/-- The reaper loop starts with `wait(&status)`. -/
theorem initReaper_first (shell_pid : Int) (fuel : Nat) (rs : List Reply) :
    firstTrap (initReaper shell_pid (fuel + 1) rs) = some waitTrap := by
  cases rs with
  | nil => rfl
  | cons r rs =>
    simp only [initReaper, wait, syscall_bind_cons]
    rfl

/-- A turn of the loop of `main` starts with the message and `fork()`. -/
theorem initLoop_first (fuel : Nat) (w : Reply) (rs : List Reply) :
    ((initLoop (fuel + 1) (w :: rs)).trace.take 2).map Event.trap
      = [printTrap "INIT: Forking shell...\n", forkTrap] := by
  simp only [initLoop, print_lit_bind_cons "INIT: Forking shell...\n" (by decide), fork,
    bind_assoc_run]
  cases rs with
  | nil => rfl
  | cons r rs =>
    simp only [syscall_bind_cons, after_after]
    rfl

theorem initLoop_fork_failed (fuel : Nat) (w1 rf w2 : Reply) (rest : List Reply)
    (h : rf.ret < 0) :
    initLoop (fuel + 1) (w1 :: rf :: w2 :: rest)
      = (initLoop fuel rest).after
          [⟨printTrap "INIT: Forking shell...\n", some w1⟩, ⟨forkTrap, some rf⟩,
           ⟨printTrap "INIT: Fork failed! Retrying...\n", some w2⟩] := by
  simp only [initLoop, print_lit_bind_cons "INIT: Forking shell...\n" (by decide), fork,
    bind_assoc_run, syscall_bind_cons, pure_bind_run, if_pos h,
    print_lit_bind_cons "INIT: Fork failed! Retrying...\n" (by decide), after_after]
  rfl

theorem initLoop_fork_parent (fuel : Nat) (w1 rf : Reply) (rest : List Reply)
    (h : 0 < rf.ret) :
    initLoop (fuel + 1) (w1 :: rf :: rest)
      = (initFromReaper rf.ret fuel rest).after
          [⟨printTrap "INIT: Forking shell...\n", some w1⟩, ⟨forkTrap, some rf⟩] := by
  have h1 : ¬ rf.ret < 0 := by omega
  have h2 : ¬ rf.ret = 0 := by omega
  simp only [initLoop, print_lit_bind_cons "INIT: Forking shell...\n" (by decide), fork,
    bind_assoc_run, syscall_bind_cons, pure_bind_run, if_neg h1, if_neg h2, after_after]
  rfl

theorem exit_cons {α : Type} (code : Int) (r : Reply) (rs : List Reply) :
    (exit code : Proc α) (r :: rs) = ⟨[⟨exitTrap code, some r⟩], rs, .halt .spin⟩ := rfl

theorem exit_nil {α : Type} (code : Int) :
    (exit code : Proc α) [] = ⟨[⟨exitTrap code, none⟩], [], .halt .pending⟩ := rfl

/-- The run of `exit(code)`: the trap, and no return. -/
theorem exit_run {α : Type} (code : Int) (rs : List Reply) :
    (exit code : Proc α) rs
      = ⟨[⟨exitTrap code, rs.head?⟩], rs.tail,
          .halt (if rs = [] then Halt.pending else Halt.spin)⟩ := by
  cases rs with
  | nil => rfl
  | cons r rs => rfl

theorem initLoop_child (fuel : Nat) (w1 rf re w2 : Reply) (rest : List Reply)
    (h : rf.ret = 0) :
    initLoop (fuel + 1) (w1 :: rf :: re :: w2 :: rest)
      = ⟨[⟨printTrap "INIT: Forking shell...\n", some w1⟩, ⟨forkTrap, some rf⟩,
          ⟨execTrap sh_path init_args, some re⟩, ⟨printTrap "INIT: Exec failed\n", some w2⟩,
          ⟨exitTrap 1, rest.head?⟩], rest.tail,
          .halt (if rest = [] then Halt.pending else Halt.spin)⟩ := by
  have h1 : ¬ rf.ret < 0 := by omega
  simp only [initLoop, print_lit_bind_cons "INIT: Forking shell...\n" (by decide), fork,
    bind_assoc_run, syscall_bind_cons, pure_bind_run, if_neg h1, if_pos h, exec,
    print_lit_bind_cons "INIT: Exec failed\n" (by decide), after_after, exit_run]
  rfl

theorem initReaper_shell_died (shell_pid : Int) (fuel : Nat) (v : Int) (w : Reply)
    (rest : List Reply) :
    initReaper shell_pid (fuel + 1) (⟨shell_pid, v⟩ :: w :: rest)
      = ⟨[⟨waitTrap, some ⟨shell_pid, v⟩⟩,
          ⟨printTrap "INIT: Shell exited. Restarting.\n", some w⟩], rest, .ok ()⟩ := by
  simp only [initReaper, wait, syscall_bind_cons, if_true,
    print_lit_cons "INIT: Shell exited. Restarting.\n" (by decide)]
  rfl

theorem initReaper_orphan (shell_pid : Int) (fuel : Nat) (z v : Int) (w1 w2 w3 : Reply)
    (rest : List Reply) (hz : 0 < z) (hz2 : z < 2147483648) (hne : z ≠ shell_pid) :
    initReaper shell_pid (fuel + 1) (⟨z, v⟩ :: w1 :: w2 :: w3 :: rest)
      = (initReaper shell_pid fuel rest).after
          [⟨waitTrap, some ⟨z, v⟩⟩, ⟨printTrap "INIT: Reaped orphan PID: ", some w1⟩,
           ⟨writeTrap (decimal z.toNat), some w2⟩, ⟨printTrap "\n", some w3⟩] := by
  have hgt : z > 0 := hz
  simp only [initReaper, wait, syscall_bind_cons, if_neg hne, if_pos hgt,
    print_lit_bind_cons "INIT: Reaped orphan PID: " (by decide), itoa_pos z hz hz2, puts,
    bind_assoc_run, print_bind_cons (decimal z.toNat) [] (decimal_nonzero _),
    print_lit_bind_cons "\n" (by decide), after_after]
  rfl

theorem initFromReaper_shell_died (shell_pid : Int) (fuel : Nat) (v : Int) (w : Reply)
    (rest : List Reply) :
    initFromReaper shell_pid (fuel + 1) (⟨shell_pid, v⟩ :: w :: rest)
      = (initLoop (fuel + 1) rest).after [⟨waitTrap, some ⟨shell_pid, v⟩⟩,
          ⟨printTrap "INIT: Shell exited. Restarting.\n", some w⟩] := by
  simp only [initFromReaper, bind_run, initReaper_shell_died]

/-! ## init.c: leaving the reaper loop -/

theorem leftOnDeath_after (p : Int) (t : List Event) (o : Out Unit) (h : LeftOnDeath p o) :
    LeftOnDeath p (o.after t) := by
  intro hres
  obtain ⟨pre, v, w, hpre⟩ := h hres
  exact ⟨t ++ pre, v, w, by simp [Out.after, hpre]⟩

theorem leftOnDeath_bind {α : Type} (p : Int) (q : Proc α) (f : α → Proc Unit)
    (rs : List Reply) (h : ∀ a rs1, LeftOnDeath p (f a rs1)) :
    LeftOnDeath p ((q >>= f) rs) := by
  rw [bind_run]
  rcases q rs with ⟨t, rs1, a | hh⟩
  · exact leftOnDeath_after p t _ (h a rs1)
  · intro hres; cases hres

theorem initReaper_leftOnDeath (p : Int) :
    ∀ (fuel : Nat) (rs : List Reply), LeftOnDeath p (initReaper p fuel rs) := by
  intro fuel
  induction fuel with
  | zero => intro rs hres; cases hres
  | succ f ih =>
    intro rs
    cases rs with
    | nil => intro hres; cases hres
    | cons r rs =>
      simp only [initReaper, wait, syscall_bind_cons]
      by_cases h1 : r.ret = p
      · simp only [if_pos h1]
        cases rs with
        | nil =>
          intro hres
          rw [print_lit_nil _ (by decide)] at hres
          cases hres
        | cons w rest =>
          intro _
          refine ⟨[], r.val, w, ?_⟩
          rw [print_lit_cons _ (by decide)]
          obtain ⟨rr, rv⟩ := r
          simp only at h1
          subst h1
          rfl
      · simp only [if_neg h1]
        apply leftOnDeath_after
        by_cases h2 : r.ret > 0
        · simp only [if_pos h2]
          apply leftOnDeath_bind
          intro _ rs1
          cases itoa r.ret with
          | none => intro hres; cases hres
          | some buf =>
            apply leftOnDeath_bind
            intro _ rs2
            exact ih rs2
        · simp only [if_neg h2]
          apply leftOnDeath_bind
          intro _ rs1
          exact ih rs1

/-! ## init.c: the supervisor does not end -/

theorem bind_never_returns {α β : Type} (p : Proc α) (f : α → Proc β)
    (h : ∀ a rs1 b, (f a rs1).res ≠ .ok b) : ∀ rs b, ((p >>= f) rs).res ≠ .ok b := by
  intro rs b
  rw [bind_run]
  rcases p rs with ⟨t, rs1, a | hh⟩
  · exact h a rs1 b
  · intro hres; cases hres

theorem exit_never_returns {α : Type} (code : Int) (rs : List Reply) (b : α) :
    (exit code : Proc α) rs ≠ ⟨[], [], .ok b⟩ ∧ ((exit code : Proc α) rs).res ≠ .ok b := by
  rw [exit_run]
  constructor
  · intro h; cases h
  · intro h; cases h

theorem initLoop_never_returns : ∀ (fuel : Nat) (rs : List Reply) (b : Unit),
    (initLoop fuel rs).res ≠ .ok b := by
  intro fuel
  induction fuel with
  | zero => intro rs b h; cases h
  | succ f ih =>
    simp only [initLoop]
    refine bind_never_returns _ _ (fun _ => bind_never_returns _ _ (fun pid => ?_))
    intro rs1 b
    split
    · exact bind_never_returns _ _ (fun _ => ih) rs1 b
    · split
      · exact bind_never_returns _ _ (fun _ => bind_never_returns _ _
          (fun _ rs2 b2 => (exit_never_returns 1 rs2 b2).2)) rs1 b
      · exact bind_never_returns _ _ (fun _ => ih) rs1 b

theorem num_ne_exit (t : Trap) (rep : Option Reply) (h : t.num ≠ SYS_EXIT) :
    (⟨t, rep⟩ : Event).trap.num ≠ SYS_EXIT := h

theorem eico_noexit (t : List Event) (h : ∀ e ∈ t, e.trap.num ≠ SYS_EXIT) :
    ExitInChildOnly t := by
  intro pre e post heq hnum
  exact absurd hnum (h e (by rw [heq]; simp))

theorem eico_append (t1 t2 : List Event) (h1 : ∀ e ∈ t1, e.trap.num ≠ SYS_EXIT)
    (h2 : ExitInChildOnly t2) : ExitInChildOnly (t1 ++ t2) := by
  intro pre e post heq hnum
  rcases List.append_eq_append_iff.mp heq with ⟨a, hpre, ht2⟩ | ⟨c, ht1, hc⟩
  · obtain ⟨hpost, he, pre2, r0, r1, r2, hr0, hpre2⟩ := h2 a e post ht2 hnum
    exact ⟨hpost, he, t1 ++ pre2, r0, r1, r2, hr0, by rw [hpre, hpre2]; simp⟩
  · cases c with
    | nil =>
      simp only [List.nil_append] at hc
      simp only [List.append_nil] at ht1
      obtain ⟨hpost, he, pre2, r0, r1, r2, hr0, hpre2⟩ := h2 [] e post (by simp [hc]) hnum
      cases pre2 <;> simp at hpre2
    | cons x c =>
      simp only [List.cons_append, List.cons.injEq] at hc
      exact absurd hnum (h1 e (by rw [ht1, hc.1]; simp))

theorem eico_child (pre2 : List Event) (r0 r1 r2 : Reply) (rep : Option Reply)
    (h0 : r0.ret = 0) (hpre : ∀ e ∈ pre2, e.trap.num ≠ SYS_EXIT) :
    ExitInChildOnly (pre2 ++ [⟨forkTrap, some r0⟩, ⟨execTrap sh_path init_args, some r1⟩,
      ⟨printTrap "INIT: Exec failed\n", some r2⟩, ⟨exitTrap 1, rep⟩]) := by
  intro pre e post heq hnum
  have e1 : pre2 ++ [⟨forkTrap, some r0⟩, ⟨execTrap sh_path init_args, some r1⟩,
      ⟨printTrap "INIT: Exec failed\n", some r2⟩, ⟨exitTrap 1, rep⟩]
      = (pre2 ++ [⟨forkTrap, some r0⟩, ⟨execTrap sh_path init_args, some r1⟩,
      ⟨printTrap "INIT: Exec failed\n", some r2⟩]) ++ [⟨exitTrap 1, rep⟩] := by simp
  rw [e1] at heq
  have hfront : ∀ x ∈ pre2 ++ [⟨forkTrap, some r0⟩, ⟨execTrap sh_path init_args, some r1⟩,
      (⟨printTrap "INIT: Exec failed\n", some r2⟩ : Event)], x.trap.num ≠ SYS_EXIT := by
    intro x hx
    rcases List.mem_append.mp hx with hx | hx
    · exact hpre x hx
    · simp only [List.mem_cons, List.mem_singleton, List.not_mem_nil, or_false] at hx
      rcases hx with rfl | rfl | rfl <;> exact num_ne_exit _ _ (by decide)
  rcases List.append_eq_append_iff.mp heq with ⟨a, hpre2, hlast⟩ | ⟨c, hfr, hc⟩
  · cases a with
    | nil =>
      simp only [List.nil_append, List.cons.injEq] at hlast
      exact ⟨hlast.2.symm, by rw [← hlast.1], pre2, r0, r1, r2, h0, by simpa using hpre2⟩
    | cons x a =>
      have := congrArg List.length hlast
      simp at this
  · cases c with
    | nil =>
      simp only [List.nil_append, List.cons.injEq] at hc
      exact ⟨hc.2, by rw [hc.1], pre2, r0, r1, r2, h0, by simpa using hfr.symm⟩
    | cons x c =>
      simp only [List.cons_append, List.cons.injEq] at hc
      exact absurd hnum (hfront e (by rw [hfr, hc.1]; simp))

theorem noexit_of_fits {α : Type} (nums : List Int) (p : Proc α)
    (hp : Proc.Inv (fun _ => True) (Fits (fun _ => True) nums) p) (hn : SYS_EXIT ∉ nums) :
    ∀ rs, ∀ e ∈ (p rs).trace, e.trap.num ≠ SYS_EXIT := by
  intro rs e he hnum
  have := ((hp rs (fun _ _ => trivial)).1 e he).1
  rw [hnum] at this
  exact hn this

theorem eico_bind_noexit {α β : Type} (p : Proc α) (f : α → Proc β)
    (hp : ∀ rs, ∀ e ∈ (p rs).trace, e.trap.num ≠ SYS_EXIT)
    (hf : ∀ a rs1, ExitInChildOnly (f a rs1).trace) :
    ∀ rs, ExitInChildOnly ((p >>= f) rs).trace := by
  intro rs
  have h1 := hp rs
  rw [bind_run]
  rcases hpr : p rs with ⟨t, rs1, a | hh⟩
  · rw [hpr] at h1
    exact eico_append t _ h1 (hf a rs1)
  · rw [hpr] at h1
    exact eico_noexit t h1

theorem initReaper_noexit (p : Int) (fuel : Nat) :
    ∀ rs, ∀ e ∈ (initReaper p fuel rs).trace, e.trap.num ≠ SYS_EXIT :=
  noexit_of_fits [SYS_WAIT, SYS_WRITE, SYS_YIELD] _
    (initReaper_fits _ _ (by decide) (by decide) (by decide) p fuel) (by decide)

theorem print_noexit (str : List Nat) :
    ∀ rs, ∀ e ∈ (print str rs).trace, e.trap.num ≠ SYS_EXIT :=
  noexit_of_fits [SYS_WRITE] _ (inv_print _ _ (by decide) str) (by decide)

theorem initLoop_exitInChildOnly : ∀ (fuel : Nat) (rs : List Reply),
    ExitInChildOnly (initLoop fuel rs).trace := by
  intro fuel
  induction fuel with
  | zero => intro rs; exact eico_noexit _ (fun e he => absurd he (List.not_mem_nil _))
  | succ f ih =>
    intro rs
    rcases rs with _ | ⟨w1, _ | ⟨rf, rest⟩⟩
    · simp only [initLoop, print_lit_bind_nil "INIT: Forking shell...\n" (by decide)]
      refine eico_noexit _ (fun e he => ?_)
      rw [List.mem_singleton.mp he]; exact num_ne_exit _ _ (by decide)
    · simp only [initLoop, print_lit_bind_cons "INIT: Forking shell...\n" (by decide), fork,
        bind_assoc_run, syscall_bind_nil]
      refine eico_noexit _ (fun e he => ?_)
      simp only [Out.after, List.mem_cons, List.mem_singleton, List.cons_append,
        List.nil_append, List.not_mem_nil, or_false] at he
      rcases he with rfl | rfl <;> exact num_ne_exit _ _ (by decide)
    · have hfront : ∀ e ∈ [(⟨printTrap "INIT: Forking shell...\n", some w1⟩ : Event),
          ⟨forkTrap, some rf⟩], e.trap.num ≠ SYS_EXIT := by
        intro e he
        simp only [List.mem_cons, List.mem_singleton, List.not_mem_nil, or_false] at he
        rcases he with rfl | rfl <;> exact num_ne_exit _ _ (by decide)
      have hstart : ∀ (g : Int → Proc Unit),
          (print (lit "INIT: Forking shell...\n") >>= fun _ => fork >>= g) (w1 :: rf :: rest)
            = (g rf.ret rest).after [⟨printTrap "INIT: Forking shell...\n", some w1⟩,
                ⟨forkTrap, some rf⟩] := by
        intro g
        simp only [print_lit_bind_cons "INIT: Forking shell...\n" (by decide), fork,
          bind_assoc_run, syscall_bind_cons, pure_bind_run, after_after]
        rfl
      by_cases h : rf.ret < 0
      · simp only [initLoop]
        rw [hstart]
        simp only [if_pos h]
        exact eico_append _ _ hfront
          (eico_bind_noexit _ _ (print_noexit _) (fun _ rs1 => ih rs1) rest)
      · by_cases h0 : rf.ret = 0
        · rcases rest with _ | ⟨re, _ | ⟨w2, rest⟩⟩
          · simp only [initLoop]
            rw [hstart]
            simp only [if_neg h, if_pos h0, exec, bind_assoc_run, syscall_bind_nil]
            refine eico_append _ _ hfront (eico_noexit _ (fun e he => ?_))
            rw [List.mem_singleton.mp he]; exact num_ne_exit _ _ (by decide)
          · simp only [initLoop]
            rw [hstart]
            simp only [if_neg h, if_pos h0, exec, bind_assoc_run, syscall_bind_cons,
              pure_bind_run, print_lit_bind_nil "INIT: Exec failed\n" (by decide)]
            refine eico_append _ _ hfront (eico_noexit _ (fun e he => ?_))
            simp only [Out.after, List.mem_cons, List.mem_singleton, List.cons_append,
              List.nil_append, List.not_mem_nil, or_false] at he
            rcases he with rfl | rfl <;> exact num_ne_exit _ _ (by decide)
          · rw [initLoop_child f w1 rf re w2 rest h0]
            exact eico_child [⟨printTrap "INIT: Forking shell...\n", some w1⟩] rf re w2 _ h0
              (fun e he => by rw [List.mem_singleton.mp he]; exact num_ne_exit _ _ (by decide))
        · rw [initLoop_fork_parent f w1 rf rest (by omega)]
          exact eico_append _ _ hfront (eico_bind_noexit _ _ (initReaper_noexit _ _)
            (fun _ rs1 => ih rs1) rest)

/-! ## init.c: the loop budget -/

theorem bounded_zero {α : Type} (p : Proc α) : Proc.Bounded 0 p :=
  fun _ h => absurd h (Nat.not_lt_zero _)

theorem bounded_pure {α : Type} (n : Nat) (a : α) : Proc.Bounded n (pure a : Proc α) :=
  fun _ _ => ⟨fun h => (by cases h), le_refl _⟩

theorem bounded_stop {α : Type} (n : Nat) (h : Halt) (hne : h ≠ .fuel) :
    Proc.Bounded n (stop h : Proc α) :=
  fun _ _ => ⟨fun hh => (by cases hh; exact hne rfl), le_refl _⟩

theorem bounded_bind {α β : Type} {n : Nat} {p : Proc α} {f : α → Proc β}
    (hp : Proc.Bounded n p) (hf : ∀ a, Proc.Bounded n (f a)) : Proc.Bounded n (p >>= f) := by
  intro rs hrs
  have h1 := hp rs hrs
  rw [bind_run]
  rcases hpr : p rs with ⟨t, rs1, a | h⟩
  · rw [hpr] at h1
    have h2 := hf a rs1 (by have := h1.2; simp only at this; omega)
    exact ⟨h2.1, by have := h1.2; have := h2.2; simp only [Out.after] at *; omega⟩
  · rw [hpr] at h1
    simpa using h1

theorem bounded_syscall_bind {β : Type} {n : Nat} (num : Int) (a0 a1 a2 : Arg)
    {f : Reply → Proc β} (hf : ∀ r, Proc.Bounded n (f r)) :
    Proc.Bounded (n + 1) (syscall num a0 a1 a2 >>= f) := by
  intro rs hrs
  cases rs with
  | nil => exact ⟨fun h => (by cases h), le_refl _⟩
  | cons r rs =>
    rw [syscall_bind_cons]
    have h := hf r rs (by simp at hrs; omega)
    exact ⟨h.1, by have := h.2; simp only [Out.after, List.length_cons] at *; omega⟩

theorem bounded_syscall (n : Nat) (num : Int) (a0 a1 a2 : Arg) :
    Proc.Bounded n (syscall num a0 a1 a2) := by
  intro rs _
  cases rs with
  | nil => exact ⟨fun h => (by cases h), le_refl _⟩
  | cons r rs => exact ⟨fun h => (by cases h), by simp [syscall]⟩

theorem bounded_ite {α : Type} {n : Nat} (c : Prop) [Decidable c] {p q : Proc α}
    (hp : Proc.Bounded n p) (hq : Proc.Bounded n q) : Proc.Bounded n (if c then p else q) := by
  split
  · exact hp
  · exact hq

theorem bounded_print (n : Nat) (str : List Nat) : Proc.Bounded n (print str) :=
  bounded_bind (bounded_bind (bounded_syscall n _ _ _ _) (fun _ => bounded_pure n _))
    (fun _ => bounded_pure n _)

theorem bounded_print_bind {β : Type} {n : Nat} (str : List Nat) {f : Unit → Proc β}
    (hf : Proc.Bounded n (f ())) : Proc.Bounded (n + 1) (print str >>= f) := by
  have e : (print str >>= f)
      = (syscall SYS_WRITE (.word STDOUT) (.str (str.take (strlen str))) (.word (strlen str))
          >>= fun _ => f ()) := by
    funext rs
    cases rs <;> rfl
  rw [e]
  exact bounded_syscall_bind _ _ _ _ (fun _ => hf)

theorem bounded_exit {α : Type} (n : Nat) (code : Int) : Proc.Bounded n (exit code : Proc α) :=
  bounded_bind (bounded_syscall n _ _ _ _) (fun _ => bounded_stop n _ (by decide))

theorem initReaper_bounded (p : Int) : ∀ fuel, Proc.Bounded fuel (initReaper p fuel) := by
  intro fuel
  induction fuel with
  | zero => exact bounded_zero _
  | succ f ih =>
    simp only [initReaper, wait]
    refine bounded_syscall_bind _ _ _ _ (fun r => ?_)
    refine bounded_ite _ (bounded_print f _) (bounded_ite _ ?_ ?_)
    · refine bounded_bind (bounded_print f _) (fun _ => ?_)
      cases itoa r.ret with
      | none => exact bounded_stop f _ (by decide)
      | some buf =>
        exact bounded_bind (bounded_bind (bounded_print f _) (fun _ => bounded_print f _))
          (fun _ => ih)
    · exact bounded_bind (bounded_bind (bounded_syscall f _ _ _ _) (fun _ => bounded_pure f _))
        (fun _ => ih)

theorem initLoop_bounded : ∀ fuel, Proc.Bounded fuel (initLoop fuel) := by
  intro fuel
  induction fuel with
  | zero => exact bounded_zero _
  | succ f ih =>
    simp only [initLoop]
    refine bounded_print_bind _ ?_
    refine bounded_bind (bounded_bind (bounded_syscall f _ _ _ _) (fun _ => bounded_pure f _))
      (fun pid => ?_)
    refine bounded_ite _ ?_ (bounded_ite _ ?_ ?_)
    · exact bounded_bind (bounded_print f _) (fun _ => ih)
    · exact bounded_bind
        (bounded_bind (bounded_syscall f _ _ _ _) (fun _ => bounded_pure f _))
        (fun _ => bounded_bind (bounded_print f _) (fun _ => bounded_exit f _))
    · exact bounded_bind (initReaper_bounded pid f) (fun _ => ih)

theorem initMain_bounded (fuel : Nat) : Proc.Bounded (fuel + 1) (initMain fuel) := by
  simp only [initMain]
  exact bounded_print_bind _ (bounded_bind (initLoop_bounded fuel) (fun _ => bounded_pure _ _))

/-! ## init.c: restarting the shell -/

theorem initLoop_failed_turns : ∀ (fs : List (Reply × Reply × Reply)) (fuel : Nat)
    (rest : List Reply), (∀ x ∈ fs, x.2.1.ret < 0) →
    initLoop (fuel + fs.length) (failedTurnReplies fs ++ rest)
      = (initLoop fuel rest).after (failedTurnEvents fs) := by
  intro fs
  induction fs with
  | nil => intro fuel rest _; rfl
  | cons x fs ih =>
    intro fuel rest h
    have e1 : failedTurnReplies (x :: fs) ++ rest
        = x.1 :: x.2.1 :: x.2.2 :: (failedTurnReplies fs ++ rest) := by
      simp [failedTurnReplies]
    have e2 : fuel + (x :: fs).length = (fuel + fs.length) + 1 := by simp; omega
    rw [e1, e2, initLoop_fork_failed _ _ _ _ _ (h x (List.mem_cons_self _ _)),
      ih fuel rest (fun y hy => h y (List.mem_cons_of_mem _ hy)), after_after]
    simp [failedTurnEvents]

theorem initLoop_replies_nonpos (fuel : Nat) (rs : List Reply) (h : ∀ r ∈ rs, r.ret ≤ 0) :
    ∀ e ∈ (initLoop fuel rs).trace, ∀ r, e.reply = some r → r.ret ≤ 0 := by
  intro e he
  exact ((initLoop_fits (fun r => r.ret ≤ 0)
    [SYS_WRITE, SYS_FORK, SYS_EXEC, SYS_EXIT, SYS_WAIT, SYS_YIELD]
    (by decide) (by decide) (by decide) (by decide) (by decide) (by decide) fuel rs h).1 e he).2

theorem trace_bind_pure {α β : Type} (p : Proc α) (b : β) (rs : List Reply) :
    ((p >>= fun _ => (pure b : Proc β)) rs).trace = (p rs).trace := by
  rw [bind_run]
  rcases p rs with ⟨t, rs1, a | hh⟩
  · simp [Out.after, pure_run]
  · rfl

theorem bind_left_never_returns {α β : Type} (p : Proc α) (f : α → Proc β)
    (h : ∀ rs a, (p rs).res ≠ .ok a) : ∀ rs b, ((p >>= f) rs).res ≠ .ok b := by
  intro rs b
  rw [bind_run]
  have := h rs
  rcases hp : p rs with ⟨t, rs1, a | hh⟩
  · rw [hp] at this
    exact absurd rfl (this a)
  · intro hres; cases hres

/-! ## Strings of ulib.c -/

theorem strlen_eq (m : List Nat) : strlen m = (m.takeWhile (fun c => c ≠ 0)).length := by
  induction m with
  | nil => rfl
  | cons x m ih =>
    by_cases hx : x = 0
    · simp [strlen, hx]
    · simp [strlen, hx, List.takeWhile_cons, ih]

theorem take_strlen (m : List Nat) : m.take (strlen m) = m.takeWhile (fun c => c ≠ 0) := by
  induction m with
  | nil => rfl
  | cons x m ih =>
    by_cases hx : x = 0
    · simp [strlen, hx]
    · simp only [strlen, if_pos hx, List.take_succ_cons, ih]
      simp [List.takeWhile_cons, hx]

/-- What `print` does on any memory: one write of the string that starts there. -/
theorem print_mem_bind_cons {β : Type} (m : List Nat) (f : Unit → Proc β) (r : Reply)
    (rs : List Reply) :
    (print m >>= f) (r :: rs)
      = (f () rs).after [⟨writeTrap (m.takeWhile (fun c => c ≠ 0)), some r⟩] := by
  simp only [print, write, take_strlen, bind_assoc_run, syscall_bind_cons, pure_bind_run]
  rw [strlen_eq]
  rfl

theorem takeWhile_lit (s : String) (h : ∀ c ∈ bytes s, c ≠ 0) :
    (lit s).takeWhile (fun c => c ≠ 0) = bytes s :=
  takeWhile_nonzero (bytes s) [] h

/-- The comparison is 0 exactly when the two strings are the same. -/
theorem strcmp_eq_zero_iff : ∀ (m1 m2 : List Nat),
    strcmp m1 m2 = 0 ↔ m1.takeWhile (fun c => c ≠ 0) = m2.takeWhile (fun c => c ≠ 0) := by
  intro m1
  induction m1 with
  | nil =>
    intro m2
    cases m2 with
    | nil => simp [strcmp]
    | cons y m2 =>
      by_cases hy : y = 0
      · simp [strcmp, hy]
      · simp only [strcmp, List.headD_cons, List.takeWhile_nil]
        constructor
        · intro h; omega
        · intro h; simp [List.takeWhile_cons, hy] at h
  | cons x m1 ih =>
    intro m2
    by_cases hc : x ≠ 0 ∧ x = m2.headD 0
    · obtain ⟨hx, hhd⟩ := hc
      cases m2 with
      | nil => simp at hhd; exact absurd hhd hx
      | cons y m2 =>
        simp only [List.headD_cons] at hhd
        subst hhd
        have hcond : x ≠ 0 ∧ x = (x :: m2).headD 0 := ⟨hx, rfl⟩
        rw [strcmp, if_pos hcond, List.tail_cons, ih m2]
        simp [List.takeWhile_cons, hx]
    · simp only [strcmp, if_neg hc]
      cases m2 with
      | nil =>
        simp only [List.headD_nil, List.takeWhile_nil]
        by_cases hx : x = 0
        · simp [hx]
        · constructor
          · intro h; omega
          · intro h; simp [List.takeWhile_cons, hx] at h
      | cons y m2 =>
        simp only [List.headD_cons] at hc ⊢
        by_cases hx : x = 0
        · subst hx
          by_cases hy : y = 0
          · simp [hy]
          · constructor
            · intro h; omega
            · intro h; simp [List.takeWhile_cons, hy] at h
        · have hxy : x ≠ y := fun h => hc ⟨hx, h⟩
          constructor
          · intro h; omega
          · intro h
            by_cases hy : y = 0
            · simp [List.takeWhile_cons, hx, hy] at h
            · simp [List.takeWhile_cons, hx, hy] at h
              exact absurd h.1 hxy

/-! ## sh.c: from the line to the command -/

theorem argvStrings_eq (buf : List Nat) : ∀ (toks : List (List Nat)) (argv : List (Option Nat)),
    (∀ j, j < toks.length → ∃ off, argv[j]? = some (some off) ∧ toks[j]? = some (cstr buf off)) →
    argv[toks.length]? = some none → argvStrings buf argv = toks := by
  intro toks
  induction toks with
  | nil =>
    intro argv _ h0
    cases argv with
    | nil => rfl
    | cons a argv =>
      simp only [List.length_nil, List.getElem?_cons_zero, Option.some.injEq] at h0
      subst h0; rfl
  | cons tk toks ih =>
    intro argv h hend
    obtain ⟨off, h1, h2⟩ := h 0 (by simp)
    cases argv with
    | nil => simp at h1
    | cons a argv =>
      simp only [List.getElem?_cons_zero, Option.some.injEq] at h1 h2
      subst h1
      simp only [argvStrings, ← h2]
      congr 1
      refine ih argv (fun j hj => ?_) (by simpa using hend)
      obtain ⟨o, h3, h4⟩ := h (j + 1) (by simp; omega)
      exact ⟨o, by simpa using h3, by simpa using h4⟩

/-- The tokenizer on a line, in the terms the dispatcher needs. -/
theorem tokenize_line (line tail : List Nat) (argv : List (Option Nat))
    (hline : ∀ x ∈ line, x ≠ 0) (hargv : MAX_ARGS < argv.length) :
    ∃ t, tokenize (lineBuf line tail) argv = some t ∧
      t.argc = (specTokens line).length ∧
      tokens t = (specTokens line).map some ∧
      argvStrings t.buf t.argv = specTokens line ∧
      t.argv[t.argc]? = some none ∧
      t.argv.length = argv.length ∧
      ∀ tok0 toks, specTokens line = tok0 :: toks →
        ∃ off, t.argv[0]? = some (some off) ∧ cstr t.buf off = tok0 := by
  obtain ⟨t, ht, hargc, hlen, hend, hnew, _, _⟩ := tokenize_spec line tail argv hline hargv
  have hnew2 : ∀ j, j < (specTokens line).length →
      ∃ off, t.argv[j]? = some (some off) ∧ (specTokens line)[j]? = some (cstr t.buf off) := by
    intro j hj
    obtain ⟨off, h1, h2⟩ := hnew j (by omega)
    refine ⟨off, h1, ?_⟩
    have hj2 : j < MAX_ARGS := by
      have : (specTokens line).length ≤ MAX_ARGS := by simp [specTokens]
      omega
    simp only [specTokens, List.getElem?_take, if_pos hj2, h2]
  refine ⟨t, ht, hargc, tokens_of_spec line t hargc hnew, ?_, hend, hlen, ?_⟩
  · exact argvStrings_eq t.buf _ _ hnew2 (by rw [← hargc]; exact hend)
  · intro tok0 toks htoks
    obtain ⟨off, h1, h2⟩ := hnew2 0 (by rw [htoks]; simp)
    refine ⟨off, h1, ?_⟩
    rw [htoks] at h2
    simpa using h2.symm

theorem maximalRuns_eq_nil_of_spaces (line : List Nat) (h : ∀ c ∈ line, c = SP) :
    maximalRuns line = [] := by
  have := maximalRuns_spaces line [] h
  rwa [List.append_nil, maximalRuns_nil] at this

theorem maximalRuns_ne_nil (line : List Nat) (c : Nat) (hc : c ∈ line) (hsp : c ≠ SP) :
    maximalRuns line ≠ [] := by
  obtain ⟨sp, tok, rest, hspaces, htok, hshape, hrest, hempty⟩ := line_shape line
  by_cases htk : tok = []
  · have hr : rest = [] := hempty htk
    subst htk; subst hr
    simp only [List.append_nil] at hshape
    subst hshape
    exact absurd (hspaces c hc) hsp
  · rcases hrest with hr | ⟨r3, hr⟩
    · subst hr
      rw [hshape, List.append_nil, maximalRuns_spaces _ _ hspaces, maximalRuns_token _ htok htk]
      simp
    · subst hr
      rw [hshape, List.append_assoc, maximalRuns_spaces _ _ hspaces,
        maximalRuns_token_space _ _ htok htk]
      simp

/-- An empty line: the iteration ends at once (line 47). -/
theorem shDispatch_empty (tail : List Nat) (argv : List (Option Nat)) (rs : List Reply) :
    shDispatch (lineBuf [] tail) argv rs = ⟨[], rs, .ok ⟨lineBuf [] tail, argv⟩⟩ := by
  simp [shDispatch, lineBuf, pure_run]

/-- A line of spaces: the tokenizer finds nothing and the iteration ends (line 76). -/
theorem shDispatch_blank (line tail : List Nat) (argv : List (Option Nat)) (rs : List Reply)
    (hne : line ≠ []) (hsp : ∀ c ∈ line, c = SP) (hargv : MAX_ARGS < argv.length) :
    ∃ t, tokenize (lineBuf line tail) argv = some t ∧ t.argc = 0 ∧
      shDispatch (lineBuf line tail) argv rs = ⟨[], rs, .ok ⟨t.buf, t.argv⟩⟩ := by
  have hline : ∀ x ∈ line, x ≠ 0 := fun x hx => by rw [hsp x hx]; exact SP_ne_zero
  obtain ⟨t, ht, hargc, _⟩ := tokenize_line line tail argv hline hargv
  have h0 : t.argc = 0 := by
    rw [hargc, specTokens, maximalRuns_eq_nil_of_spaces line hsp]; rfl
  refine ⟨t, ht, h0, ?_⟩
  obtain ⟨x, l, rfl⟩ : ∃ x l, line = x :: l := by
    cases line with
    | nil => exact absurd rfl hne
    | cons x l => exact ⟨x, l, rfl⟩
  have hx : x ≠ 0 := hline x (List.mem_cons_self _ _)
  have hb : (lineBuf (x :: l) tail)[0]? = some x := by simp [lineBuf]
  simp only [shDispatch, hb, if_neg hx, ht, if_pos h0]
  rfl

/-- A line with a token: the iteration runs the command of the first token. -/
theorem shDispatch_command (line tail : List Nat) (argv : List (Option Nat))
    (tok0 : List Nat) (toks : List (List Nat))
    (hline : ∀ x ∈ line, x ≠ 0) (hargv : MAX_ARGS < argv.length)
    (htoks : specTokens line = tok0 :: toks) :
    ∃ t off, tokenize (lineBuf line tail) argv = some t ∧
      cstr t.buf off = tok0 ∧ argvStrings t.buf t.argv = tok0 :: toks ∧
      shDispatch (lineBuf line tail) argv = shCommand t off := by
  obtain ⟨t, ht, hargc, _, hstr, _, _, h0⟩ := tokenize_line line tail argv hline hargv
  obtain ⟨off, hoff, hc⟩ := h0 tok0 toks htoks
  refine ⟨t, off, ht, hc, by rw [hstr, htoks], ?_⟩
  obtain ⟨x, l, rfl⟩ : ∃ x l, line = x :: l := by
    cases line with
    | nil => simp [specTokens, maximalRuns_nil] at htoks
    | cons x l => exact ⟨x, l, rfl⟩
  have hx : x ≠ 0 := hline x (List.mem_cons_self _ _)
  have hb : (lineBuf (x :: l) tail)[0]? = some x := by simp [lineBuf]
  have hpos : ¬ t.argc = 0 := by rw [hargc, htoks]; simp
  simp only [shDispatch, hb, if_neg hx, ht, if_neg hpos, hoff]

/-! ## sh.c: the command -/

theorem strcmp_exit_iff (t : TokState) (off : Nat) :
    strcmp (t.buf.drop off) (lit "exit") = 0 ↔ cstr t.buf off = bytes "exit" := by
  rw [strcmp_eq_zero_iff, takeWhile_lit "exit" (by decide)]
  rfl

theorem shCommand_exit (t : TokState) (off : Nat) (rs : List Reply)
    (h : cstr t.buf off = bytes "exit") :
    shCommand t off rs
      = ⟨[⟨exitTrap 0, rs.head?⟩], rs.tail,
          .halt (if rs = [] then Halt.pending else Halt.spin)⟩ := by
  have hc := (strcmp_exit_iff t off).mpr h
  simp only [shCommand, if_pos hc, bind_run, exit_run]

theorem shCommand_other (t : TokState) (off : Nat) (h : cstr t.buf off ≠ bytes "exit") :
    shCommand t off = shSpawn t off := by
  have hc : ¬ strcmp (t.buf.drop off) (lit "exit") = 0 := fun hh =>
    h ((strcmp_exit_iff t off).mp hh)
  funext rs
  simp only [shCommand, if_neg hc, pure_bind_run]

theorem shSpawn_nil (t : TokState) (off : Nat) :
    shSpawn t off [] = ⟨[⟨forkTrap, none⟩], [], .halt .pending⟩ := by
  simp only [shSpawn, fork, bind_assoc_run, syscall_bind_nil]
  rfl

theorem shSpawn_cons (t : TokState) (off : Nat) (rf : Reply) (rest : List Reply) :
    shSpawn t off (rf :: rest)
      = ((shAfterFork t off rf.ret >>= fun _ => (pure ⟨t.buf, t.argv⟩ : Proc ShVars)) rest).after
          [⟨forkTrap, some rf⟩] := by
  simp only [shSpawn, fork, bind_assoc_run, syscall_bind_cons, pure_bind_run]
  rfl

/-- After `fork` the shell issues only `write`, `exec`, `exit` and `wait`. -/
theorem shAfterFork_fits (R : Reply → Prop) (nums : List Int) (hwr : SYS_WRITE ∈ nums)
    (he : SYS_EXEC ∈ nums) (hx : SYS_EXIT ∈ nums) (hw : SYS_WAIT ∈ nums)
    (t : TokState) (off : Nat) (pid : Int) :
    Proc.Inv R (Fits R nums) (shAfterFork t off pid) := by
  simp only [shAfterFork]
  refine inv_ite _ (inv_print R nums hwr _) (inv_ite _ ?_ ?_)
  · refine inv_bind (inv_bind (inv_syscall R nums _ _ _ _ he) (fun _ => inv_pure _ _ _))
      (fun _ => ?_)
    exact inv_bind (inv_print R nums hwr _)
      (fun _ => inv_bind (inv_puts R nums hwr _) (fun _ => inv_exit R nums hx _))
  · exact inv_bind (inv_syscall R nums _ _ _ _ hw) (fun _ => inv_pure _ _ _)

/-- In the process that `fork` returned a non-zero value to (the shell itself), only `write`
and `wait` follow. -/
theorem shAfterFork_parent_fits (R : Reply → Prop) (nums : List Int) (hwr : SYS_WRITE ∈ nums)
    (hw : SYS_WAIT ∈ nums) (t : TokState) (off : Nat) (pid : Int) (hpid : pid ≠ 0) :
    Proc.Inv R (Fits R nums) (shAfterFork t off pid) := by
  simp only [shAfterFork, if_neg hpid]
  refine inv_ite _ (inv_print R nums hwr _) ?_
  exact inv_bind (inv_syscall R nums _ _ _ _ hw) (fun _ => inv_pure _ _ _)

/-- The child of the shell: `exec`, and when it returns the diagnostic and `exit(1)`. -/
theorem shAfterFork_child (t : TokState) (off : Nat) (pid : Int) (re w1 w2 w3 : Reply)
    (rest : List Reply) (hpid : pid = 0) :
    shAfterFork t off pid (re :: w1 :: w2 :: w3 :: rest)
      = ⟨[⟨execTrap (cstr t.buf off) (argvStrings t.buf t.argv), some re⟩,
          ⟨printTrap "sh: command not found: ", some w1⟩,
          ⟨writeTrap (cstr t.buf off), some w2⟩, ⟨printTrap "\n", some w3⟩,
          ⟨exitTrap 1, rest.head?⟩], rest.tail,
          .halt (if rest = [] then Halt.pending else Halt.spin)⟩ := by
  have h1 : ¬ pid < 0 := by omega
  simp only [shAfterFork, if_neg h1, if_pos hpid, exec, bind_assoc_run, syscall_bind_cons,
    pure_bind_run, print_lit_bind_cons "sh: command not found: " (by decide), puts,
    print_mem_bind_cons, print_lit_bind_cons "\n" (by decide), after_after, exit_run]
  rfl

theorem countTraps_cons (num : Int) (e : Event) (t : List Event) :
    countTraps num (e :: t) = (if e.trap.num = num then 1 else 0) + countTraps num t := by
  by_cases h : e.trap.num = num
  · simp [countTraps, h]; omega
  · simp [countTraps, h]

theorem countTraps_eq_zero (num : Int) (t : List Event) (h : ∀ e ∈ t, e.trap.num ≠ num) :
    countTraps num t = 0 := by
  simp only [countTraps, List.length_eq_zero, List.filter_eq_nil_iff]
  intro e he
  simpa using h e he

/-- What the traces of lines 84-108 look like: one `fork`, first; an exit trap only in the
process that `fork` returned 0 to. -/
theorem shSpawn_shape (t : TokState) (off : Nat) (rs : List Reply) :
    firstTrap (shSpawn t off rs) = some forkTrap ∧
    countTraps SYS_FORK (shSpawn t off rs).trace = 1 ∧
    (∀ e ∈ (shSpawn t off rs).trace, e.trap.num = SYS_EXIT →
      ∃ r0, (shSpawn t off rs).trace.head? = some ⟨forkTrap, some r0⟩ ∧ r0.ret = 0) := by
  cases rs with
  | nil =>
    rw [shSpawn_nil]
    refine ⟨rfl, rfl, fun e he hnum => ?_⟩
    rw [List.mem_singleton.mp he] at hnum
    exact absurd hnum (by decide)
  | cons rf rest =>
    rw [shSpawn_cons]
    have htl := shAfterFork_fits (fun _ => True) [SYS_WRITE, SYS_EXEC, SYS_EXIT, SYS_WAIT]
      (by decide) (by decide) (by decide) (by decide) t off rf.ret rest (fun _ _ => trivial)
    refine ⟨rfl, ?_, fun e he hnum => ?_⟩
    · simp only [Out.after, List.cons_append, List.nil_append, trace_bind_pure,
        countTraps_cons]
      rw [countTraps_eq_zero]
      · rfl
      · intro e he hnum
        have := (htl.1 e he).1
        rw [hnum] at this
        exact absurd this (by decide)
    · simp only [Out.after, List.cons_append, List.nil_append, trace_bind_pure,
        List.mem_cons] at he
      rcases he with rfl | he
      · exact absurd hnum (num_ne_exit _ _ (by decide))
      · refine ⟨rf, rfl, ?_⟩
        by_contra hne
        have := ((shAfterFork_parent_fits (fun _ => True) [SYS_WRITE, SYS_WAIT]
          (by decide) (by decide) t off rf.ret hne rest (fun _ _ => trivial)).1 e he).1
        rw [hnum] at this
        exact absurd this (by decide)

/-- The loop of `main` of sh.c starts every turn with the prompt. -/
theorem shLoop_first (fuel : Nat) (v : ShVars) (rs : List Reply) :
    firstTrap (shLoop (fuel + 1) v rs) = some (printTrap "$ ") := by
  cases rs with
  | nil =>
    simp only [shLoop, shIteration, shPrompt, bind_assoc_run,
      print_lit_bind_nil "$ " (by decide)]
    rfl
  | cons r rs =>
    simp only [shLoop, shIteration, shPrompt, bind_assoc_run,
      print_lit_bind_cons "$ " (by decide)]
    rfl

/-- The loop of `readline` issues only `read` and `write`. -/
theorem readlineLoop_fits (R : Reply → Prop) (nums : List Int) (hr : SYS_READ ∈ nums)
    (hw : SYS_WRITE ∈ nums) (max : Nat) :
    ∀ (fuel : Nat) (buf : List Nat) (i : Nat),
      Proc.Inv R (Fits R nums) (readlineLoop max fuel buf i) := by
  intro fuel
  induction fuel with
  | zero => intro buf i; exact inv_stop _ _ _
  | succ f ih =>
    intro buf i
    simp only [readlineLoop, read]
    refine inv_ite _ ?_ (inv_pure _ _ _)
    refine inv_bind (inv_syscall R nums _ _ _ _ hr) (fun r => ?_)
    refine inv_ite _ (inv_pure _ _ _) (inv_ite _ ?_ (inv_ite _ (inv_ite _ ?_ (ih _ _)) ?_))
    · exact inv_bind (inv_write R nums hw _ _ _) (fun _ => inv_pure _ _ _)
    · exact inv_bind (inv_write R nums hw _ _ _) (fun _ => ih _ _)
    · exact inv_bind (inv_write R nums hw _ _ _) (fun _ => ih _ _)

/-- The prompt and `readline` issue only `read` and `write`. -/
theorem shPrompt_fits (R : Reply → Prop) (nums : List Int) (hr : SYS_READ ∈ nums)
    (hw : SYS_WRITE ∈ nums) (fuel : Nat) (v : ShVars) :
    Proc.Inv R (Fits R nums) (shPrompt fuel v) := by
  simp only [shPrompt, readline]
  refine inv_bind (inv_print R nums hw _) (fun _ => ?_)
  exact inv_bind (readlineLoop_fits R nums hr hw _ _ _ _) (fun _ => inv_pure _ _ _)

/-- An iteration whose line is empty or blank consists of the prompt and `readline` only. -/
theorem shIteration_blank (line tail : List Nat) (fuel : Nat) (v : ShVars)
    (rs rs1 : List Reply) (t : List Event) (hsp : ∀ c ∈ line, c = SP)
    (hargv : MAX_ARGS < v.argv.length)
    (hprompt : shPrompt fuel v rs = ⟨t, rs1, .ok (lineBuf line tail)⟩) :
    (∃ v2, shIteration fuel v rs = ⟨t, rs1, .ok v2⟩) ∧
    ∀ e ∈ t, e.trap.num = SYS_READ ∨ e.trap.num = SYS_WRITE := by
  constructor
  · have hd : ∃ v2, shDispatch (lineBuf line tail) v.argv rs1 = ⟨[], rs1, .ok v2⟩ := by
      by_cases hne : line = []
      · subst hne
        exact ⟨_, shDispatch_empty tail v.argv rs1⟩
      · obtain ⟨t2, _, _, h⟩ := shDispatch_blank line tail v.argv rs1 hne hsp hargv
        exact ⟨_, h⟩
    obtain ⟨v2, hv2⟩ := hd
    refine ⟨v2, ?_⟩
    simp only [shIteration, bind_run, hprompt, hv2, Out.after, List.append_nil]
  · intro e he
    have h := (shPrompt_fits (fun _ => True) [SYS_READ, SYS_WRITE] (by decide) (by decide)
      fuel v rs (fun _ _ => trivial)).1 e (by rw [hprompt]; exact he)
    simpa using h.1

/-! # The claims on sh.c -/

theorem exists_line (buf : List Nat) (h : 0 ∈ buf) :
    ∃ line tail, buf = lineBuf line tail ∧ ∀ x ∈ line, x ≠ 0 := by
  induction buf with
  | nil => exact absurd h (List.not_mem_nil _)
  | cons x buf ih =>
    by_cases hx : x = 0
    · exact ⟨[], buf, by simp [lineBuf, hx], by simp⟩
    · have h2 : 0 ∈ buf := by
        rcases List.mem_cons.mp h with h | h
        · exact absurd h.symm hx
        · exact h
      obtain ⟨line, tail, hb, hl⟩ := ih h2
      refine ⟨x :: line, tail, by simp [lineBuf, hb], ?_⟩
      intro y hy
      rcases List.mem_cons.mp hy with rfl | hy
      · exact hx
      · exact hl y hy

/-- C1: for every NUL-free line stored at the front of the buffer with its terminator
(whatever lies behind the terminator, whatever `argv` held before), the tokenizer ends and
the tokens `argv[0..argc-1]`, read as C strings from the buffer it leaves, are the first
`MAX_ARGS` maximal runs of non-space characters of the line, in order (and so is the vector
read up to its null sentinel); the line `"  ls   -la "` gives `["ls", "-la"]`. -/
theorem tokenizer_yields_maximal_runs (line tail : List Nat) (argv : List (Option Nat))
    (hline : ∀ c ∈ line, c ≠ 0) (hargv : argv.length = MAX_ARGS + 1) :
    (∃ t, tokenize (lineBuf line tail) argv = some t ∧
      t.argc = (specTokens line).length ∧ tokens t = (specTokens line).map some ∧
      argvStrings t.buf t.argv = specTokens line) ∧
    (∃ t, tokenize (lineBuf (bytes "  ls   -la ") (List.replicate 52 0)) argv = some t ∧
      tokens t = [some (bytes "ls"), some (bytes "-la")]) := by
  constructor
  · obtain ⟨t, ht, hargc, htok, hstr, _⟩ := tokenize_line line tail argv hline (by omega)
    exact ⟨t, ht, hargc, htok, hstr⟩
  · obtain ⟨t, ht, _, htok, _⟩ := tokenize_line (bytes "  ls   -la ") (List.replicate 52 0)
      argv (by decide) (by omega)
    refine ⟨t, ht, ?_⟩
    rw [htok]
    decide

/-- Witness of `tokenizer_yields_maximal_runs`: the line `"echo  hi"` in a 64-byte buffer. -/
theorem tokenizer_yields_maximal_runs_witness :
    (∀ c ∈ bytes "echo  hi", c ≠ 0) ∧
    (List.replicate 11 (none : Option Nat)).length = MAX_ARGS + 1 ∧
    ((∃ t, tokenize (lineBuf (bytes "echo  hi") (List.replicate 55 0))
          (List.replicate 11 none) = some t ∧
        t.argc = (specTokens (bytes "echo  hi")).length ∧
        tokens t = (specTokens (bytes "echo  hi")).map some ∧
        argvStrings t.buf t.argv = specTokens (bytes "echo  hi")) ∧
      (∃ t, tokenize (lineBuf (bytes "  ls   -la ") (List.replicate 52 0))
          (List.replicate 11 none) = some t ∧
        tokens t = [some (bytes "ls"), some (bytes "-la")])) :=
  ⟨by decide, by decide,
    tokenizer_yields_maximal_runs (bytes "echo  hi") (List.replicate 55 0)
      (List.replicate 11 none) (by decide) (by decide)⟩

/-- C2: for every buffer that holds a terminator (every line `readline` can leave) and
every 11-slot `argv`, the tokenizer ends with `argc ≤ MAX_ARGS`; each `argv[i]`, `i < argc`,
points to a non-empty string without a space; `argv[argc]` is the null pointer, inside the
11 slots; so the vector `exec` is given holds exactly `argc` strings before its sentinel. -/
theorem argv_wellformed (buf : List Nat) (argv : List (Option Nat))
    (hnul : 0 ∈ buf) (hargv : argv.length = MAX_ARGS + 1) :
    ∃ t, tokenize buf argv = some t ∧ t.argc ≤ MAX_ARGS ∧
      (∀ i, i < t.argc → ∃ off, t.argv[i]? = some (some off) ∧
        cstr t.buf off ≠ [] ∧ ∀ c ∈ cstr t.buf off, c ≠ SP) ∧
      t.argv[t.argc]? = some none ∧ t.argv.length = MAX_ARGS + 1 ∧
      (argvStrings t.buf t.argv).length = t.argc := by
  obtain ⟨line, tail, rfl, hline⟩ := exists_line buf hnul
  obtain ⟨t, ht, hargc, hlen, hend, hnew, _, _⟩ :=
    tokenize_spec line tail argv hline (by omega)
  obtain ⟨t2, ht2, _, _, hstr, _⟩ := tokenize_line line tail argv hline (by omega)
  have ht12 : t2 = t := by rw [ht] at ht2; exact (Option.some.inj ht2).symm
  subst ht12
  refine ⟨t2, ht, ?_, ?_, hend, by rw [hlen, hargv], by rw [hstr, hargc]⟩
  · rw [hargc]; simp [specTokens]
  · intro i hi
    obtain ⟨off, h1, h2⟩ := hnew i hi
    have hmem : cstr t2.buf off ∈ maximalRuns line := List.getElem?_mem h2
    exact ⟨off, h1, maximalRuns_mem line.length line (le_refl _) _ hmem⟩

/-- Witness of `argv_wellformed`: the line `"a b"` in a 64-byte buffer. -/
theorem argv_wellformed_witness :
    0 ∈ lineBuf (bytes "a b") (List.replicate 60 0) ∧
    (List.replicate 11 (none : Option Nat)).length = MAX_ARGS + 1 ∧
    ∃ t, tokenize (lineBuf (bytes "a b") (List.replicate 60 0)) (List.replicate 11 none)
        = some t ∧ t.argc ≤ MAX_ARGS ∧
      (∀ i, i < t.argc → ∃ off, t.argv[i]? = some (some off) ∧
        cstr t.buf off ≠ [] ∧ ∀ c ∈ cstr t.buf off, c ≠ SP) ∧
      t.argv[t.argc]? = some none ∧ t.argv.length = MAX_ARGS + 1 ∧
      (argvStrings t.buf t.argv).length = t.argc :=
  ⟨by decide, by decide,
    argv_wellformed (lineBuf (bytes "a b") (List.replicate 60 0)) (List.replicate 11 none)
      (by decide) (by decide)⟩

/-- C3: for a NUL-free line that is empty or holds only spaces the tokenizer yields zero
tokens and the iteration issues no trap after `readline` (no `fork`, `exec`, `wait`, `exit`,
no message) and ends normally, so the whole iteration consists of the prompt and the reads
and echoes of `readline`; a line with a character other than the space yields at least one
token; and every turn of the loop of `main` starts with the prompt. -/
theorem blank_line_ignored (line tail : List Nat) (argv : List (Option Nat))
    (rs : List Reply) (hline : ∀ c ∈ line, c ≠ 0) (hargv : argv.length = MAX_ARGS + 1) :
    ((∀ c ∈ line, c = SP) →
      (∃ t, tokenize (lineBuf line tail) argv = some t ∧ t.argc = 0 ∧ tokens t = []) ∧
      (∃ v, shDispatch (lineBuf line tail) argv rs = ⟨[], rs, .ok v⟩) ∧
      (∀ (fuel : Nat) (buf0 : List Nat) (rs0 rs1 : List Reply) (tr : List Event),
        shPrompt fuel ⟨buf0, argv⟩ rs0 = ⟨tr, rs1, .ok (lineBuf line tail)⟩ →
        (∃ v2, shIteration fuel ⟨buf0, argv⟩ rs0 = ⟨tr, rs1, .ok v2⟩) ∧
        ∀ e ∈ tr, e.trap.num = SYS_READ ∨ e.trap.num = SYS_WRITE)) ∧
    ((∃ c ∈ line, c ≠ SP) →
      ∃ t, tokenize (lineBuf line tail) argv = some t ∧ 1 ≤ t.argc) ∧
    (∀ (n : Nat) (v : ShVars) (rs2 : List Reply),
      firstTrap (shLoop (n + 1) v rs2) = some (printTrap "$ ")) := by
  obtain ⟨t, ht, hargc, htok, _⟩ := tokenize_line line tail argv hline (by omega)
  refine ⟨fun hsp => ?_, fun ⟨c, hc, hne⟩ => ⟨t, ht, ?_⟩, fun n v rs2 => shLoop_first n v rs2⟩
  · have hruns := maximalRuns_eq_nil_of_spaces line hsp
    refine ⟨⟨t, ht, by rw [hargc, specTokens, hruns]; rfl,
      by rw [htok, specTokens, hruns]; rfl⟩, ?_, ?_⟩
    · by_cases hne : line = []
      · subst hne
        exact ⟨_, shDispatch_empty tail argv rs⟩
      · obtain ⟨t2, _, _, h⟩ := shDispatch_blank line tail argv rs hne hsp (by omega)
        exact ⟨_, h⟩
    · intro fuel buf0 rs0 rs1 tr hprompt
      exact shIteration_blank line tail fuel ⟨buf0, argv⟩ rs0 rs1 tr hsp
        (by show MAX_ARGS < argv.length; omega) hprompt
  · rw [hargc]
    have := maximalRuns_ne_nil line c hc hne
    cases hruns : maximalRuns line with
    | nil => exact absurd hruns this
    | cons r rest => simp [specTokens, hruns, MAX_ARGS]

/-- Witness of `blank_line_ignored`: a line of three spaces in a 64-byte buffer. -/
theorem blank_line_ignored_witness :
    (∀ c ∈ bytes "   ", c ≠ 0) ∧
    (List.replicate 11 (none : Option Nat)).length = MAX_ARGS + 1 ∧
    (((∀ c ∈ bytes "   ", c = SP) →
      (∃ t, tokenize (lineBuf (bytes "   ") (List.replicate 60 0)) (List.replicate 11 none)
          = some t ∧ t.argc = 0 ∧ tokens t = []) ∧
      (∃ v, shDispatch (lineBuf (bytes "   ") (List.replicate 60 0)) (List.replicate 11 none) []
          = ⟨[], [], .ok v⟩) ∧
      (∀ (fuel : Nat) (buf0 : List Nat) (rs0 rs1 : List Reply) (tr : List Event),
        shPrompt fuel ⟨buf0, List.replicate 11 none⟩ rs0
          = ⟨tr, rs1, .ok (lineBuf (bytes "   ") (List.replicate 60 0))⟩ →
        (∃ v2, shIteration fuel ⟨buf0, List.replicate 11 none⟩ rs0 = ⟨tr, rs1, .ok v2⟩) ∧
        ∀ e ∈ tr, e.trap.num = SYS_READ ∨ e.trap.num = SYS_WRITE)) ∧
    ((∃ c ∈ bytes "   ", c ≠ SP) →
      ∃ t, tokenize (lineBuf (bytes "   ") (List.replicate 60 0)) (List.replicate 11 none)
          = some t ∧ 1 ≤ t.argc) ∧
    (∀ (n : Nat) (v : ShVars) (rs2 : List Reply),
      firstTrap (shLoop (n + 1) v rs2) = some (printTrap "$ "))) :=
  ⟨by decide, by decide,
    blank_line_ignored (bytes "   ") (List.replicate 60 0) (List.replicate 11 none) []
      (by decide) (by decide)⟩

/-- C4: in an iteration whose line has a first token `tok0`: when `tok0` is "exit" the only
trap of the iteration is `exit(0)` and the process goes no further; for every other `tok0`
the first trap is `fork`, the iteration holds exactly one `fork`, and an exit trap occurs
only in the process that `fork` returned 0 to (the child); so `exit(0)` without a `fork`
happens exactly when `tok0` is "exit". -/
theorem exit_builtin_iff (line tail : List Nat) (argv : List (Option Nat))
    (tok0 : List Nat) (toks : List (List Nat)) (rs : List Reply)
    (hline : ∀ c ∈ line, c ≠ 0) (hargv : argv.length = MAX_ARGS + 1)
    (htoks : specTokens line = tok0 :: toks) :
    (tok0 = bytes "exit" →
      shDispatch (lineBuf line tail) argv rs
        = ⟨[⟨exitTrap 0, rs.head?⟩], rs.tail,
            .halt (if rs = [] then Halt.pending else Halt.spin)⟩) ∧
    (tok0 ≠ bytes "exit" →
      firstTrap (shDispatch (lineBuf line tail) argv rs) = some forkTrap ∧
      countTraps SYS_FORK (shDispatch (lineBuf line tail) argv rs).trace = 1 ∧
      ∀ e ∈ (shDispatch (lineBuf line tail) argv rs).trace, e.trap.num = SYS_EXIT →
        ∃ r0, (shDispatch (lineBuf line tail) argv rs).trace.head? = some ⟨forkTrap, some r0⟩ ∧
          r0.ret = 0) ∧
    (((∃ e ∈ (shDispatch (lineBuf line tail) argv rs).trace, e.trap = exitTrap 0) ∧
        countTraps SYS_FORK (shDispatch (lineBuf line tail) argv rs).trace = 0)
      ↔ tok0 = bytes "exit") := by
  obtain ⟨t, off, _, hc, _, hd⟩ :=
    shDispatch_command line tail argv tok0 toks hline (by omega) htoks
  have hexit : tok0 = bytes "exit" →
      shDispatch (lineBuf line tail) argv rs
        = ⟨[⟨exitTrap 0, rs.head?⟩], rs.tail,
            .halt (if rs = [] then Halt.pending else Halt.spin)⟩ := by
    intro h
    rw [hd, shCommand_exit t off rs (by rw [hc, h])]
  have hother : tok0 ≠ bytes "exit" →
      shDispatch (lineBuf line tail) argv rs = shSpawn t off rs := by
    intro h
    rw [hd, shCommand_other t off (by rw [hc]; exact h)]
  refine ⟨hexit, fun h => ?_, ?_, ?_⟩
  · rw [hother h]; exact shSpawn_shape t off rs
  · rintro ⟨_, hcount⟩
    by_contra h
    rw [hother h, (shSpawn_shape t off rs).2.1] at hcount
    exact absurd hcount (by decide)
  · intro h
    rw [hexit h]
    exact ⟨⟨_, List.mem_singleton_self _, rfl⟩, rfl⟩

/-- Witness of `exit_builtin_iff`: the line `"exit now"` in a 64-byte buffer. -/
theorem exit_builtin_iff_witness :
    (∀ c ∈ bytes "exit now", c ≠ 0) ∧
    (List.replicate 11 (none : Option Nat)).length = MAX_ARGS + 1 ∧
    specTokens (bytes "exit now") = bytes "exit" :: [bytes "now"] ∧
    ((bytes "exit" = bytes "exit" →
      shDispatch (lineBuf (bytes "exit now") (List.replicate 55 0)) (List.replicate 11 none) []
        = ⟨[⟨exitTrap 0, ([] : List Reply).head?⟩], ([] : List Reply).tail,
            .halt (if ([] : List Reply) = [] then Halt.pending else Halt.spin)⟩) ∧
    (bytes "exit" ≠ bytes "exit" →
      firstTrap (shDispatch (lineBuf (bytes "exit now") (List.replicate 55 0))
        (List.replicate 11 none) []) = some forkTrap ∧
      countTraps SYS_FORK (shDispatch (lineBuf (bytes "exit now") (List.replicate 55 0))
        (List.replicate 11 none) []).trace = 1 ∧
      ∀ e ∈ (shDispatch (lineBuf (bytes "exit now") (List.replicate 55 0))
          (List.replicate 11 none) []).trace, e.trap.num = SYS_EXIT →
        ∃ r0, (shDispatch (lineBuf (bytes "exit now") (List.replicate 55 0))
          (List.replicate 11 none) []).trace.head? = some ⟨forkTrap, some r0⟩ ∧ r0.ret = 0) ∧
    (((∃ e ∈ (shDispatch (lineBuf (bytes "exit now") (List.replicate 55 0))
          (List.replicate 11 none) []).trace, e.trap = exitTrap 0) ∧
        countTraps SYS_FORK (shDispatch (lineBuf (bytes "exit now") (List.replicate 55 0))
          (List.replicate 11 none) []).trace = 0)
      ↔ bytes "exit" = bytes "exit")) :=
  ⟨by decide, by decide, by decide,
    exit_builtin_iff (bytes "exit now") (List.replicate 55 0) (List.replicate 11 none)
      (bytes "exit") [bytes "now"] [] (by decide) (by decide) (by decide)⟩

/-! # The claims on init.c -/

/-- C5, as stated, fails: no bound `B` on the number of traps after the `wait` that returned
the shell's pid guarantees that a `fork` has returned a new, distinct pid.  When every later
reply is `-1` (every `fork` fails), the supervisor retries for ever and records nothing,
whatever the loop budget.  And the pid recorded after a restart is the one `fork` returns:
when the kernel hands out 5 again, the shell that replaces shell 5 is recorded as 5. -/
theorem restart_not_bounded :
    (¬ ∃ B : Nat, ∀ (rs : List Reply) (fuel : Nat), B ≤ rs.length → rs.length < fuel →
      RestartedWithin B 5 (initFromReaper 5 (fuel + 1) (⟨5, 0⟩ :: rs)).trace) ∧
    initFromReaper 5 2 [⟨5, 0⟩, ⟨32, 0⟩, ⟨23, 0⟩, ⟨5, 0⟩]
      = (initFromReaper 5 1 []).after (restartEvents 5 0 ⟨32, 0⟩ [] ⟨23, 0⟩ ⟨5, 0⟩) := by
  constructor
  · rintro ⟨B, hB⟩
    have h := hB (List.replicate (B + 1) ⟨-1, 0⟩) (B + 2) (by simp) (by simp)
    rw [List.replicate_succ, initFromReaper_shell_died] at h
    obtain ⟨e, he, htrap, r, hr, hpos, _⟩ := h
    have he2 := List.mem_of_mem_take he
    simp only [Out.after, List.cons_append, List.nil_append, List.drop_succ_cons,
      List.drop_zero, List.mem_cons] at he2
    rcases he2 with rfl | he2
    · simp [printTrap, writeTrap, forkTrap, SYS_WRITE, SYS_FORK] at htrap
    · have := initLoop_replies_nonpos _ _ (fun r hr => by
        rw [List.eq_of_mem_replicate hr]; decide) e he2 r hr
      omega
  · rw [initFromReaper_shell_died 5 1 0 ⟨32, 0⟩,
      initLoop_fork_parent 1 ⟨23, 0⟩ ⟨5, 0⟩ [] (by decide), after_after]
    rfl

/-- C5, amended: when `wait` returns the recorded `shell_pid`, the supervisor leaves the
reaper loop and prints the restart message; every `fork` that fails is followed by the failure
message and another turn; the first `fork` that returns a positive pid ends the restart: the
supervisor continues in the reaper loop with that pid recorded (whatever pid the kernel
chose).  With `k` failed forks this takes exactly `4 + 3 * k` traps, the `wait` included. -/
theorem restart_after_failed_forks (shell_pid : Int) (fuel : Nat) (v : Int) (w0 : Reply)
    (fs : List (Reply × Reply × Reply)) (w1 rf : Reply) (rest : List Reply)
    (hfs : ∀ x ∈ fs, x.2.1.ret < 0) (hq : 0 < rf.ret) :
    initFromReaper shell_pid (fuel + fs.length + 1)
        (⟨shell_pid, v⟩ :: w0 :: (failedTurnReplies fs ++ w1 :: rf :: rest))
      = (initFromReaper rf.ret fuel rest).after (restartEvents shell_pid v w0 fs w1 rf)
    ∧ (restartEvents shell_pid v w0 fs w1 rf).length = 4 + 3 * fs.length := by
  constructor
  · have e : fuel + fs.length + 1 = (fuel + 1) + fs.length := by omega
    rw [initFromReaper_shell_died, e, initLoop_failed_turns fs (fuel + 1) _ hfs,
      initLoop_fork_parent fuel w1 rf rest hq, after_after, after_after]
    rfl
  · have : ∀ l : List (Reply × Reply × Reply), (failedTurnEvents l).length = 3 * l.length := by
      intro l
      induction l with
      | nil => rfl
      | cons x l ih =>
        have e : failedTurnEvents (x :: l)
            = [⟨printTrap "INIT: Forking shell...\n", some x.1⟩, ⟨forkTrap, some x.2.1⟩,
              ⟨printTrap "INIT: Fork failed! Retrying...\n", some x.2.2⟩]
              ++ failedTurnEvents l := by
          simp [failedTurnEvents]
        rw [e, List.length_append, ih]
        simp only [List.length_cons, List.length_nil]
        omega
    simp only [restartEvents, List.length_append, this, List.length_cons, List.length_nil]
    omega

/-- Witness of `restart_after_failed_forks`: shell 5 dies, one `fork` fails, the next
returns 9. -/
theorem restart_after_failed_forks_witness :
    (∀ x ∈ [((⟨23, 0⟩ : Reply), (⟨-1, 0⟩ : Reply), (⟨31, 0⟩ : Reply))], x.2.1.ret < 0) ∧
    (0 : Int) < (⟨9, 0⟩ : Reply).ret ∧
    (initFromReaper 5 (0 + [((⟨23, 0⟩ : Reply), (⟨-1, 0⟩ : Reply), (⟨31, 0⟩ : Reply))].length + 1)
        (⟨5, 0⟩ :: ⟨32, 0⟩ :: (failedTurnReplies [(⟨23, 0⟩, ⟨-1, 0⟩, ⟨31, 0⟩)]
          ++ ⟨23, 0⟩ :: ⟨9, 0⟩ :: []))
      = (initFromReaper (⟨9, 0⟩ : Reply).ret 0 []).after
          (restartEvents 5 0 ⟨32, 0⟩ [(⟨23, 0⟩, ⟨-1, 0⟩, ⟨31, 0⟩)] ⟨23, 0⟩ ⟨9, 0⟩)
    ∧ (restartEvents 5 0 ⟨32, 0⟩ [(⟨23, 0⟩, ⟨-1, 0⟩, ⟨31, 0⟩)] ⟨23, 0⟩ ⟨9, 0⟩).length
        = 4 + 3 * [((⟨23, 0⟩ : Reply), (⟨-1, 0⟩ : Reply), (⟨31, 0⟩ : Reply))].length) :=
  ⟨by decide, by decide,
    restart_after_failed_forks 5 0 0 ⟨32, 0⟩ [(⟨23, 0⟩, ⟨-1, 0⟩, ⟨31, 0⟩)] ⟨23, 0⟩ ⟨9, 0⟩ []
      (by decide) (by decide)⟩

/-- C6: a `wait` result `z` that is positive (a 32-bit `int`) and is not the recorded
`shell_pid` makes the supervisor write "INIT: Reaped orphan PID: ", the decimal digits of `z`
and a newline, and go on in the reaper loop with the same `shell_pid`: no `fork`, and the next
trap is `wait`.  The reaper loop of `shell_pid` is only ever left (so that a later `fork` can
replace the recorded pid) right after a `wait` that returned exactly `shell_pid`. -/
theorem orphan_reaped_shell_kept (shell_pid : Int) (fuel : Nat) (z v : Int) (w1 w2 w3 : Reply)
    (rest : List Reply) (hz : 0 < z) (hz2 : z < 2147483648) (hne : z ≠ shell_pid) :
    initReaper shell_pid (fuel + 2) (⟨z, v⟩ :: w1 :: w2 :: w3 :: rest)
      = (initReaper shell_pid (fuel + 1) rest).after
          [⟨waitTrap, some ⟨z, v⟩⟩, ⟨printTrap "INIT: Reaped orphan PID: ", some w1⟩,
           ⟨writeTrap (decimal z.toNat), some w2⟩, ⟨printTrap "\n", some w3⟩]
    ∧ firstTrap (initReaper shell_pid (fuel + 1) rest) = some waitTrap
    ∧ ∀ (n : Nat) (rs : List Reply), LeftOnDeath shell_pid (initReaper shell_pid n rs) :=
  ⟨initReaper_orphan shell_pid (fuel + 1) z v w1 w2 w3 rest hz hz2 hne,
    initReaper_first shell_pid fuel rest, initReaper_leftOnDeath shell_pid⟩

/-- Witness of `orphan_reaped_shell_kept`: the shell is 5 and `wait` returns the orphan 42. -/
theorem orphan_reaped_shell_kept_witness :
    (0 : Int) < 42 ∧ (42 : Int) < 2147483648 ∧ (42 : Int) ≠ 5 ∧
    (initReaper 5 (0 + 2) (⟨42, 0⟩ :: ⟨25, 0⟩ :: ⟨2, 0⟩ :: ⟨1, 0⟩ :: [])
      = (initReaper 5 (0 + 1) []).after
          [⟨waitTrap, some ⟨42, 0⟩⟩, ⟨printTrap "INIT: Reaped orphan PID: ", some ⟨25, 0⟩⟩,
           ⟨writeTrap (decimal (42 : Int).toNat), some ⟨2, 0⟩⟩, ⟨printTrap "\n", some ⟨1, 0⟩⟩]
    ∧ firstTrap (initReaper 5 (0 + 1) []) = some waitTrap
    ∧ ∀ (n : Nat) (rs : List Reply), LeftOnDeath 5 (initReaper 5 n rs)) :=
  ⟨by decide, by decide, by decide,
    orphan_reaped_shell_kept 5 0 42 0 ⟨25, 0⟩ ⟨2, 0⟩ ⟨1, 0⟩ [] (by decide) (by decide)
      (by decide)⟩

/-- C7: when `fork` returns a negative value the supervisor prints
"INIT: Fork failed! Retrying...\n" and starts the next turn of the loop of `main` (no pid is
recorded, the reaper loop is not entered, no `exec`, `wait` or `exit`); that turn prints its
message and calls `fork` again. -/
theorem fork_failure_retries (fuel : Nat) (w1 rf w2 w3 : Reply) (rest : List Reply)
    (h : rf.ret < 0) :
    initLoop (fuel + 2) (w1 :: rf :: w2 :: w3 :: rest)
      = (initLoop (fuel + 1) (w3 :: rest)).after
          [⟨printTrap "INIT: Forking shell...\n", some w1⟩, ⟨forkTrap, some rf⟩,
           ⟨printTrap "INIT: Fork failed! Retrying...\n", some w2⟩]
    ∧ ((initLoop (fuel + 1) (w3 :: rest)).trace.take 2).map Event.trap
        = [printTrap "INIT: Forking shell...\n", forkTrap] :=
  ⟨initLoop_fork_failed (fuel + 1) w1 rf w2 (w3 :: rest) h, initLoop_first fuel w3 rest⟩

/-- Witness of `fork_failure_retries`: `fork` returns -1. -/
theorem fork_failure_retries_witness :
    (⟨-1, 0⟩ : Reply).ret < 0 ∧
    (initLoop (0 + 2) (⟨23, 0⟩ :: ⟨-1, 0⟩ :: ⟨31, 0⟩ :: ⟨23, 0⟩ :: [])
      = (initLoop (0 + 1) (⟨23, 0⟩ :: [])).after
          [⟨printTrap "INIT: Forking shell...\n", some ⟨23, 0⟩⟩, ⟨forkTrap, some ⟨-1, 0⟩⟩,
           ⟨printTrap "INIT: Fork failed! Retrying...\n", some ⟨31, 0⟩⟩]
    ∧ ((initLoop (0 + 1) (⟨23, 0⟩ :: [])).trace.take 2).map Event.trap
        = [printTrap "INIT: Forking shell...\n", forkTrap]) :=
  ⟨by decide, fork_failure_retries 0 ⟨23, 0⟩ ⟨-1, 0⟩ ⟨31, 0⟩ ⟨23, 0⟩ [] (by decide)⟩

/-- C8: in the reaper loop (where the recorded `shell_pid` is positive) a `wait` result
`z ≤ 0` makes the supervisor call `yield` once and go on in the reaper loop with the same
`shell_pid`, whose next trap is `wait`: no `fork`, no `exit`, the loop is not left. -/
theorem no_children_yield_and_retry (shell_pid : Int) (fuel : Nat) (z v : Int) (ry : Reply)
    (rest : List Reply) (hp : 0 < shell_pid) (hz : z ≤ 0) :
    initReaper shell_pid (fuel + 2) (⟨z, v⟩ :: ry :: rest)
      = (initReaper shell_pid (fuel + 1) rest).after
          [⟨waitTrap, some ⟨z, v⟩⟩, ⟨yieldTrap, some ry⟩]
    ∧ firstTrap (initReaper shell_pid (fuel + 1) rest) = some waitTrap :=
  ⟨initReaper_no_child shell_pid (fuel + 1) z v ry rest hp hz,
    initReaper_first shell_pid fuel rest⟩

/-- Witness of `no_children_yield_and_retry`: the shell is 5 and `wait` returns -1. -/
theorem no_children_yield_and_retry_witness :
    (0 : Int) < 5 ∧ (-1 : Int) ≤ 0 ∧
    (initReaper 5 (0 + 2) (⟨-1, 0⟩ :: ⟨0, 0⟩ :: [])
      = (initReaper 5 (0 + 1) []).after [⟨waitTrap, some ⟨-1, 0⟩⟩, ⟨yieldTrap, some ⟨0, 0⟩⟩]
    ∧ firstTrap (initReaper 5 (0 + 1) []) = some waitTrap) :=
  ⟨by decide, by decide, no_children_yield_and_retry 5 0 (-1) 0 ⟨0, 0⟩ [] (by decide) (by decide)⟩

/-- C9: whatever the kernel replies and however long the run, `main` of init.c never
returns; every exit trap of the run is `exit(1)`, is the last event, and follows a `fork`
that returned 0, the `exec` that returned and the diagnostic; so a run in which no `fork`
returned 0 (the supervisor itself) contains no exit trap.  The loop budget of the model is
no obstacle: with a budget of at least the number of replies the run is never cut short
for lack of budget. -/
theorem supervisor_never_ends (fuel : Nat) (rs : List Reply) :
    (∀ a, (initMain fuel rs).res ≠ .ok a) ∧
    ExitInChildOnly (initMain fuel rs).trace ∧
    ((∀ e ∈ (initMain fuel rs).trace, e.trap = forkTrap → ∀ r, e.reply = some r → r.ret ≠ 0) →
      ∀ e ∈ (initMain fuel rs).trace, e.trap.num ≠ SYS_EXIT) ∧
    (rs.length ≤ fuel → (initMain fuel rs).res ≠ .halt .fuel) := by
  have h2 : ExitInChildOnly (initMain fuel rs).trace := by
    simp only [initMain]
    refine eico_bind_noexit _ _ (print_noexit _) (fun _ rs1 => ?_) rs
    rw [trace_bind_pure]
    exact initLoop_exitInChildOnly fuel rs1
  refine ⟨?_, h2, ?_, ?_⟩
  · intro a
    simp only [initMain]
    exact bind_never_returns _ _
      (fun _ => bind_left_never_returns _ _ (initLoop_never_returns fuel)) rs a
  · intro hparent e he hnum
    obtain ⟨pre, post, hsplit⟩ := List.append_of_mem he
    obtain ⟨_, _, pre2, r0, r1, r2, hr0, hpre⟩ := h2 pre e post hsplit hnum
    exact hparent ⟨forkTrap, some r0⟩ (by rw [hsplit, hpre]; simp) rfl r0 rfl hr0
  · intro hlen
    exact (initMain_bounded fuel rs (by omega)).1

/-! # The claim on both programs -/

/-- C10: in the process that `fork` returned 0 to, init calls `exec` with "sh" and the
vector of "sh" and the null pointer, and
the shell calls `exec(argv[0], argv)` with all the tokens of the line; when `exec` returns,
init prints "INIT: Exec failed\n" and the shell prints "sh: command not found: ", `argv[0]`
and a newline; then each calls `exit(1)`, which is the last trap of the process: it reaches
neither `wait` nor another turn of the loop. -/
theorem exec_failure_exits_child (fuel : Nat) (w1 rf re w2 w3 w4 : Reply) (rest : List Reply)
    (line tail : List Nat) (argv : List (Option Nat)) (tok0 : List Nat)
    (toks : List (List Nat)) (hrf : rf.ret = 0)
    (hline : ∀ c ∈ line, c ≠ 0) (hargv : argv.length = MAX_ARGS + 1)
    (htoks : specTokens line = tok0 :: toks) (hne : tok0 ≠ bytes "exit") :
    initLoop (fuel + 1) (w1 :: rf :: re :: w2 :: rest)
      = ⟨[⟨printTrap "INIT: Forking shell...\n", some w1⟩, ⟨forkTrap, some rf⟩,
          ⟨execTrap (bytes "sh") [bytes "sh"], some re⟩,
          ⟨printTrap "INIT: Exec failed\n", some w2⟩,
          ⟨exitTrap 1, rest.head?⟩], rest.tail,
          .halt (if rest = [] then Halt.pending else Halt.spin)⟩
    ∧ shDispatch (lineBuf line tail) argv (rf :: re :: w2 :: w3 :: w4 :: rest)
      = ⟨[⟨forkTrap, some rf⟩, ⟨execTrap tok0 (tok0 :: toks), some re⟩,
          ⟨printTrap "sh: command not found: ", some w2⟩,
          ⟨writeTrap tok0, some w3⟩, ⟨printTrap "\n", some w4⟩,
          ⟨exitTrap 1, rest.head?⟩], rest.tail,
          .halt (if rest = [] then Halt.pending else Halt.spin)⟩ := by
  constructor
  · exact initLoop_child fuel w1 rf re w2 rest hrf
  · obtain ⟨t, off, _, hc, hstr, hd⟩ :=
      shDispatch_command line tail argv tok0 toks hline (by omega) htoks
    rw [hd, shCommand_other t off (by rw [hc]; exact hne), shSpawn_cons, bind_run,
      shAfterFork_child t off rf.ret re w2 w3 w4 rest hrf, hc, hstr]
    rfl

/-- Witness of `exec_failure_exits_child`: the line `"ls -l"`, and `fork` returns 0. -/
theorem exec_failure_exits_child_witness :
    (⟨0, 0⟩ : Reply).ret = 0 ∧ (∀ c ∈ bytes "ls -l", c ≠ 0) ∧
    (List.replicate 11 (none : Option Nat)).length = MAX_ARGS + 1 ∧
    specTokens (bytes "ls -l") = bytes "ls" :: [bytes "-l"] ∧ bytes "ls" ≠ bytes "exit" ∧
    (initLoop (0 + 1) (⟨23, 0⟩ :: ⟨0, 0⟩ :: ⟨-1, 0⟩ :: ⟨18, 0⟩ :: [])
      = ⟨[⟨printTrap "INIT: Forking shell...\n", some ⟨23, 0⟩⟩, ⟨forkTrap, some ⟨0, 0⟩⟩,
          ⟨execTrap (bytes "sh") [bytes "sh"], some ⟨-1, 0⟩⟩,
          ⟨printTrap "INIT: Exec failed\n", some ⟨18, 0⟩⟩,
          ⟨exitTrap 1, ([] : List Reply).head?⟩], ([] : List Reply).tail,
          .halt (if ([] : List Reply) = [] then Halt.pending else Halt.spin)⟩
    ∧ shDispatch (lineBuf (bytes "ls -l") (List.replicate 58 0)) (List.replicate 11 none)
        (⟨0, 0⟩ :: ⟨-1, 0⟩ :: ⟨18, 0⟩ :: ⟨2, 0⟩ :: ⟨1, 0⟩ :: [])
      = ⟨[⟨forkTrap, some ⟨0, 0⟩⟩, ⟨execTrap (bytes "ls") (bytes "ls" :: [bytes "-l"]),
            some ⟨-1, 0⟩⟩,
          ⟨printTrap "sh: command not found: ", some ⟨18, 0⟩⟩,
          ⟨writeTrap (bytes "ls"), some ⟨2, 0⟩⟩, ⟨printTrap "\n", some ⟨1, 0⟩⟩,
          ⟨exitTrap 1, ([] : List Reply).head?⟩], ([] : List Reply).tail,
          .halt (if ([] : List Reply) = [] then Halt.pending else Halt.spin)⟩) :=
  ⟨by decide, by decide, by decide, by decide, by decide,
    exec_failure_exits_child 0 ⟨23, 0⟩ ⟨0, 0⟩ ⟨-1, 0⟩ ⟨18, 0⟩ ⟨2, 0⟩ ⟨1, 0⟩ []
      (bytes "ls -l") (List.replicate 58 0) (List.replicate 11 none) (bytes "ls") [bytes "-l"]
      (by decide) (by decide) (by decide) (by decide) (by decide)⟩

/-! ## sh.c: a failed fork -/

theorem shAfterFork_failed (t : TokState) (off : Nat) (pid : Int) (w : Reply)
    (rest : List Reply) (h : pid < 0) :
    shAfterFork t off pid (w :: rest)
      = ⟨[⟨printTrap "sh: fork failed\n", some w⟩], rest, .ok ()⟩ := by
  simp only [shAfterFork, if_pos h, print_lit_cons "sh: fork failed\n" (by decide)]

theorem shSpawn_failed (t : TokState) (off : Nat) (rf w : Reply) (rest : List Reply)
    (h : rf.ret < 0) :
    shSpawn t off (rf :: w :: rest)
      = ⟨[⟨forkTrap, some rf⟩, ⟨printTrap "sh: fork failed\n", some w⟩], rest,
          .ok ⟨t.buf, t.argv⟩⟩ := by
  rw [shSpawn_cons, bind_run, shAfterFork_failed t off rf.ret w rest h]
  rfl

theorem shLoop_step (fuel : Nat) (v v1 : ShVars) (rs rs1 : List Reply) (tr : List Event)
    (h : shIteration fuel v rs = ⟨tr, rs1, .ok v1⟩) :
    shLoop (fuel + 1) v rs = (shLoop fuel v1 rs1).after tr := by
  simp only [shLoop, bind_run, h]

theorem shIteration_step (fuel : Nat) (v : ShVars) (rs rs1 : List Reply) (tr : List Event)
    (buf1 : List Nat) (h : shPrompt fuel v rs = ⟨tr, rs1, .ok buf1⟩) :
    shIteration fuel v rs = (shDispatch buf1 v.argv rs1).after tr := by
  simp only [shIteration, bind_run, h]

/-- C11: in an iteration whose first token is not "exit" and whose `fork` returns a negative
value, the shell prints "sh: fork failed\n" and the iteration ends normally: its traps after
`readline` are exactly `fork` and that `write` (no `exec`, `wait` or `exit`), and the loop of
`main` goes on with its next turn, which starts with the prompt. -/
theorem shell_fork_failure_continues (line tail : List Nat) (argv : List (Option Nat))
    (tok0 : List Nat) (toks : List (List Nat)) (rf w : Reply) (rest : List Reply)
    (hline : ∀ c ∈ line, c ≠ 0) (hargv : argv.length = MAX_ARGS + 1)
    (htoks : specTokens line = tok0 :: toks) (hne : tok0 ≠ bytes "exit") (h : rf.ret < 0) :
    (∃ v, shDispatch (lineBuf line tail) argv (rf :: w :: rest)
        = ⟨[⟨forkTrap, some rf⟩, ⟨printTrap "sh: fork failed\n", some w⟩], rest, .ok v⟩) ∧
    (∀ (fuel : Nat) (buf0 : List Nat) (rs0 : List Reply) (tr : List Event),
      shPrompt (fuel + 1) ⟨buf0, argv⟩ rs0 = ⟨tr, rf :: w :: rest, .ok (lineBuf line tail)⟩ →
      ∃ v, shLoop (fuel + 2) ⟨buf0, argv⟩ rs0
        = (shLoop (fuel + 1) v rest).after
            (tr ++ [⟨forkTrap, some rf⟩, ⟨printTrap "sh: fork failed\n", some w⟩])) ∧
    (∀ (n : Nat) (v : ShVars) (rs2 : List Reply),
      firstTrap (shLoop (n + 1) v rs2) = some (printTrap "$ ")) := by
  obtain ⟨t, off, _, hc, _, hd⟩ :=
    shDispatch_command line tail argv tok0 toks hline (by omega) htoks
  have hrun : shDispatch (lineBuf line tail) argv (rf :: w :: rest)
      = ⟨[⟨forkTrap, some rf⟩, ⟨printTrap "sh: fork failed\n", some w⟩], rest,
          .ok ⟨t.buf, t.argv⟩⟩ := by
    rw [hd, shCommand_other t off (by rw [hc]; exact hne), shSpawn_failed t off rf w rest h]
  refine ⟨⟨_, hrun⟩, ?_, fun n v rs2 => shLoop_first n v rs2⟩
  intro fuel buf0 rs0 tr hprompt
  refine ⟨⟨t.buf, t.argv⟩, ?_⟩
  have hit := shIteration_step (fuel + 1) ⟨buf0, argv⟩ rs0 _ tr _ hprompt
  rw [hrun] at hit
  rw [shLoop_step (fuel + 1) ⟨buf0, argv⟩ ⟨t.buf, t.argv⟩ rs0 rest
    (tr ++ [⟨forkTrap, some rf⟩, ⟨printTrap "sh: fork failed\n", some w⟩]) (by rw [hit]; rfl)]

/-- Witness of `shell_fork_failure_continues`: the line `"ls -l"`, and `fork` returns -1. -/
theorem shell_fork_failure_continues_witness :
    (∀ c ∈ bytes "ls -l", c ≠ 0) ∧
    (List.replicate 11 (none : Option Nat)).length = MAX_ARGS + 1 ∧
    specTokens (bytes "ls -l") = bytes "ls" :: [bytes "-l"] ∧ bytes "ls" ≠ bytes "exit" ∧
    (⟨-1, 0⟩ : Reply).ret < 0 ∧
    ((∃ v, shDispatch (lineBuf (bytes "ls -l") (List.replicate 58 0)) (List.replicate 11 none)
          (⟨-1, 0⟩ :: ⟨16, 0⟩ :: [])
        = ⟨[⟨forkTrap, some ⟨-1, 0⟩⟩, ⟨printTrap "sh: fork failed\n", some ⟨16, 0⟩⟩], [],
            .ok v⟩) ∧
    (∀ (fuel : Nat) (buf0 : List Nat) (rs0 : List Reply) (tr : List Event),
      shPrompt (fuel + 1) ⟨buf0, List.replicate 11 none⟩ rs0
        = ⟨tr, ⟨-1, 0⟩ :: ⟨16, 0⟩ :: [], .ok (lineBuf (bytes "ls -l") (List.replicate 58 0))⟩ →
      ∃ v, shLoop (fuel + 2) ⟨buf0, List.replicate 11 none⟩ rs0
        = (shLoop (fuel + 1) v []).after
            (tr ++ [⟨forkTrap, some ⟨-1, 0⟩⟩,
              ⟨printTrap "sh: fork failed\n", some ⟨16, 0⟩⟩])) ∧
    (∀ (n : Nat) (v : ShVars) (rs2 : List Reply),
      firstTrap (shLoop (n + 1) v rs2) = some (printTrap "$ "))) :=
  ⟨by decide, by decide, by decide, by decide, by decide,
    shell_fork_failure_continues (bytes "ls -l") (List.replicate 58 0) (List.replicate 11 none)
      (bytes "ls") [bytes "-l"] ⟨-1, 0⟩ ⟨16, 0⟩ [] (by decide) (by decide) (by decide)
      (by decide) (by decide)⟩

/-! ## syscall.c: the wrappers -/

theorem syscall_run (num : Int) (a0 a1 a2 : Arg) (rs : List Reply) :
    syscall num a0 a1 a2 rs
      = ⟨[⟨⟨num, a0, a1, a2⟩, rs.head?⟩], rs.tail,
          match rs.head? with
          | some r => .ok r
          | none => .halt .pending⟩ := by
  cases rs <;> rfl

theorem syscall_ret_run (num : Int) (a0 a1 a2 : Arg) (rs : List Reply) :
    (syscall num a0 a1 a2 >>= fun r => (pure r.ret : Proc Int)) rs
      = ⟨[⟨⟨num, a0, a1, a2⟩, rs.head?⟩], rs.tail,
          match rs.head? with
          | some r => .ok r.ret
          | none => .halt .pending⟩ := by
  cases rs <;> rfl

/-- C13: the table is read=63, write=64, exit=93, yield=124, getpid=172, fork=220, exec=221,
wait=260, with `STDIN` 0 and `STDOUT` 1; on every list of replies each wrapper issues exactly
one trap, with its number from the table, its own arguments in the order of its declaration
in a0, a1, a2 and 0 in every register it does not use; when the trap returns, the wrapper
returns the result register (for `read` and `wait` the reply, whose `ret` is that register);
`exit` returns in no case. -/
theorem wrappers_issue_one_trap (fd n code : Int) (buf path : List Nat) (len : Nat)
    (argv : List (List Nat)) (status : Arg) (rs : List Reply) :
    ([SYS_READ, SYS_WRITE, SYS_EXIT, SYS_YIELD, SYS_GETPID, SYS_FORK, SYS_EXEC, SYS_WAIT]
        = [63, 64, 93, 124, 172, 220, 221, 260] ∧ STDIN = 0 ∧ STDOUT = 1) ∧
    read fd n rs
      = ⟨[⟨⟨63, .word fd, .cell, .word n⟩, rs.head?⟩], rs.tail,
          match rs.head? with
          | some r => .ok r
          | none => .halt .pending⟩ ∧
    write fd buf len rs
      = ⟨[⟨⟨64, .word fd, .str (buf.take len), .word len⟩, rs.head?⟩], rs.tail,
          match rs.head? with
          | some r => .ok r.ret
          | none => .halt .pending⟩ ∧
    (exit code : Proc Unit) rs
      = ⟨[⟨⟨93, .word code, .word 0, .word 0⟩, rs.head?⟩], rs.tail,
          .halt (if rs = [] then Halt.pending else Halt.spin)⟩ ∧
    yield rs
      = ⟨[⟨⟨124, .word 0, .word 0, .word 0⟩, rs.head?⟩], rs.tail,
          match rs.head? with
          | some r => .ok r.ret
          | none => .halt .pending⟩ ∧
    getpid rs
      = ⟨[⟨⟨172, .word 0, .word 0, .word 0⟩, rs.head?⟩], rs.tail,
          match rs.head? with
          | some r => .ok r.ret
          | none => .halt .pending⟩ ∧
    fork rs
      = ⟨[⟨⟨220, .word 0, .word 0, .word 0⟩, rs.head?⟩], rs.tail,
          match rs.head? with
          | some r => .ok r.ret
          | none => .halt .pending⟩ ∧
    exec path argv rs
      = ⟨[⟨⟨221, .str path, .vec argv, .word 0⟩, rs.head?⟩], rs.tail,
          match rs.head? with
          | some r => .ok r.ret
          | none => .halt .pending⟩ ∧
    wait status rs
      = ⟨[⟨⟨260, status, .word 0, .word 0⟩, rs.head?⟩], rs.tail,
          match rs.head? with
          | some r => .ok r
          | none => .halt .pending⟩ :=
  ⟨⟨rfl, rfl, rfl⟩, syscall_run _ _ _ _ rs, syscall_ret_run _ _ _ _ rs, exit_run code rs,
    syscall_ret_run _ _ _ _ rs, syscall_ret_run _ _ _ _ rs, syscall_ret_run _ _ _ _ rs,
    syscall_ret_run _ _ _ _ rs, syscall_run _ _ _ _ rs⟩

/-! ## ulib.c: strcmp -/

theorem precedes_iff_lt : ∀ (a b : List Nat), precedes a b = true ↔ a < b := by
  intro a
  induction a with
  | nil =>
    intro b
    cases b with
    | nil => simp [precedes]
    | cons y b => simp only [precedes, true_iff]; exact List.Lex.nil
  | cons x a ih =>
    intro b
    cases b with
    | nil => simp [precedes]
    | cons y b =>
      simp only [precedes]
      by_cases hlt : x < y
      · simp only [if_pos hlt, true_iff]
        exact List.Lex.rel hlt
      · simp only [if_neg hlt]
        by_cases heq : x = y
        · subst heq
          simp only [if_true]
          rw [ih b]
          constructor
          · intro h
            exact List.Lex.cons h
          · intro h
            cases h with
            | cons h => exact h
            | rel h => exact absurd h (lt_irrefl _)
        · simp only [if_neg heq]
          constructor
          · intro h; cases h
          · intro h
            cases h with
            | cons h => exact absurd rfl heq
            | rel h => exact absurd h hlt

/-- What `strcmp` computes on two terminated strings: 0 when they are equal, and otherwise
the difference of the bytes at the first place where they differ (the terminator counts as
a byte of the string). -/
theorem strcmp_spec : ∀ (a b ra rb : List Nat), (∀ c ∈ a, c ≠ 0) → (∀ c ∈ b, c ≠ 0) →
    (a = b ∧ strcmp (a ++ 0 :: ra) (b ++ 0 :: rb) = 0) ∨
    (a ≠ b ∧ ∃ k, (a ++ [0]).take k = (b ++ [0]).take k ∧
      (a ++ [0]).getD k 0 ≠ (b ++ [0]).getD k 0 ∧
      strcmp (a ++ 0 :: ra) (b ++ 0 :: rb)
        = ((a ++ [0]).getD k 0 : Int) - ((b ++ [0]).getD k 0 : Int) ∧
      (strcmp (a ++ 0 :: ra) (b ++ 0 :: rb) < 0 ↔ precedes a b = true)) := by
  intro a
  induction a with
  | nil =>
    intro b ra rb _ hb
    cases b with
    | nil => left; exact ⟨rfl, by simp [strcmp]⟩
    | cons y b =>
      right
      have hy : y ≠ 0 := hb y (List.mem_cons_self _ _)
      refine ⟨by simp, 0, by simp, by simpa using Ne.symm hy, ?_, ?_⟩
      · simp [strcmp]
      · simp [strcmp, precedes]; omega
  | cons x a ih =>
    intro b ra rb ha hb
    have hx : x ≠ 0 := ha x (List.mem_cons_self _ _)
    cases b with
    | nil =>
      right
      refine ⟨by simp, 0, by simp, by simpa using hx, ?_, ?_⟩
      · simp [strcmp, hx]
      · simp [strcmp, precedes, hx]
    | cons y b =>
      have hy : y ≠ 0 := hb y (List.mem_cons_self _ _)
      by_cases hxy : x = y
      · subst hxy
        have hcond : x ≠ 0 ∧ x = ((x :: b) ++ 0 :: rb).headD 0 := ⟨hx, rfl⟩
        have hstep : strcmp ((x :: a) ++ 0 :: ra) ((x :: b) ++ 0 :: rb)
            = strcmp (a ++ 0 :: ra) (b ++ 0 :: rb) := by
          rw [List.cons_append, strcmp, if_pos hcond]
          rfl
        rw [hstep]
        rcases ih b ra rb (fun c hc => ha c (List.mem_cons_of_mem _ hc))
          (fun c hc => hb c (List.mem_cons_of_mem _ hc)) with ⟨heq, h0⟩ | ⟨hne, k, h1, h2, h3, h4⟩
        · left; exact ⟨by rw [heq], h0⟩
        · right
          refine ⟨by simpa using hne, k + 1, by simpa using h1, by simpa using h2, ?_, ?_⟩
          · simpa using h3
          · simpa [precedes] using h4
      · right
        have hcond : ¬ (x ≠ 0 ∧ x = ((y :: b) ++ 0 :: rb).headD 0) := by
          simp only [List.cons_append, List.headD_cons]
          exact fun h => hxy h.2
        have hstep : strcmp ((x :: a) ++ 0 :: ra) ((y :: b) ++ 0 :: rb) = (x : Int) - (y : Int) := by
          rw [List.cons_append, strcmp, if_neg hcond]
          rfl
        rw [hstep]
        refine ⟨fun h => hxy (List.cons.inj h).1, 0, by simp, by simpa using hxy, by simp, ?_⟩
        simp only [precedes]
        by_cases hlt : x < y
        · simp [hlt]
        · simp [hlt, hxy]


/-- C16: for NUL-terminated strings `a` and `b` (NUL-free bytes followed by the terminator,
with anything behind it), `strcmp` is 0 exactly when `a = b`; otherwise it is the byte of `a`
minus the byte of `b` at the first place `k` where the terminated strings differ, and it is
negative exactly when `a` precedes `b` lexicographically (a proper prefix precedes). -/
theorem strcmp_bytewise (a b ra rb : List Nat) (ha : ∀ c ∈ a, c ≠ 0) (hb : ∀ c ∈ b, c ≠ 0) :
    (strcmp (a ++ 0 :: ra) (b ++ 0 :: rb) = 0 ↔ a = b) ∧
    (a ≠ b → ∃ k, (a ++ [0]).take k = (b ++ [0]).take k ∧
      (a ++ [0]).getD k 0 ≠ (b ++ [0]).getD k 0 ∧
      strcmp (a ++ 0 :: ra) (b ++ 0 :: rb)
        = ((a ++ [0]).getD k 0 : Int) - ((b ++ [0]).getD k 0 : Int)) ∧
    (strcmp (a ++ 0 :: ra) (b ++ 0 :: rb) < 0 ↔ precedes a b = true) ∧
    (precedes a b = true ↔ a < b) := by
  have hirr : ∀ l : List Nat, precedes l l = false := by
    intro l
    induction l with
    | nil => rfl
    | cons x l ih => simp [precedes, ih]
  rcases strcmp_spec a b ra rb ha hb with ⟨heq, h0⟩ | ⟨hne, k, h1, h2, h3, h4⟩
  · refine ⟨⟨fun _ => heq, fun _ => h0⟩, fun h => absurd heq h, ?_, precedes_iff_lt a b⟩
    rw [h0, heq, hirr]
    simp
  · refine ⟨⟨fun h => ?_, fun h => absurd h hne⟩, fun _ => ⟨k, h1, h2, h3⟩, h4,
      precedes_iff_lt a b⟩
    rw [h3] at h
    exact absurd (by omega) h2

/-- Witness of `strcmp_bytewise`: "exi" against "exit". -/
theorem strcmp_bytewise_witness :
    (∀ c ∈ bytes "exi", c ≠ 0) ∧ (∀ c ∈ bytes "exit", c ≠ 0) ∧
    ((strcmp (bytes "exi" ++ 0 :: []) (bytes "exit" ++ 0 :: []) = 0
        ↔ bytes "exi" = bytes "exit") ∧
    (bytes "exi" ≠ bytes "exit" → ∃ k, (bytes "exi" ++ [0]).take k = (bytes "exit" ++ [0]).take k ∧
      (bytes "exi" ++ [0]).getD k 0 ≠ (bytes "exit" ++ [0]).getD k 0 ∧
      strcmp (bytes "exi" ++ 0 :: []) (bytes "exit" ++ 0 :: [])
        = ((bytes "exi" ++ [0]).getD k 0 : Int) - ((bytes "exit" ++ [0]).getD k 0 : Int)) ∧
    (strcmp (bytes "exi" ++ 0 :: []) (bytes "exit" ++ 0 :: []) < 0
        ↔ precedes (bytes "exi") (bytes "exit") = true) ∧
    (precedes (bytes "exi") (bytes "exit") = true ↔ bytes "exi" < bytes "exit")) :=
  ⟨by decide, by decide, strcmp_bytewise (bytes "exi") (bytes "exit") [] [] (by decide)
    (by decide)⟩

/-! ## ulib.c: atoi -/

theorem wrap32_mul10 (res d : Int) :
    wrap32 (wrap32 (shl32 res 3 + shl32 res 1) + d) = wrap32 (res * 10 + d) := by
  simp only [shl32]
  norm_num
  unfold wrap32
  omega

theorem wrap32_neg_wrap32 (x : Int) : wrap32 (-(wrap32 x)) = wrap32 (-x) := by
  unfold wrap32; omega

/-- The value the loop of `atoi` has after a run of digits, started from `v`. -/
theorem atoiLoop_digits : ∀ (ds rest : List Nat) (v : Nat),
    (∀ c ∈ ds, 48 ≤ c ∧ c ≤ 57) → ¬ (48 ≤ rest.headD 0 ∧ rest.headD 0 ≤ 57) →
    atoiLoop (ds ++ rest) (wrap32 (v : Int))
      = wrap32 ((ds.foldl (fun acc c => acc * 10 + (c - 48)) v : Nat) : Int) := by
  intro ds
  induction ds with
  | nil =>
    intro rest v _ hrest
    cases rest with
    | nil => rfl
    | cons c rest =>
      simp only [List.headD_cons] at hrest
      simp only [List.nil_append, atoiLoop, List.foldl_nil]
      rw [if_neg]
      exact fun h => hrest ⟨h.1, h.2⟩
  | cons c ds ih =>
    intro rest v hds hrest
    have hc := hds c (List.mem_cons_self _ _)
    have hcond : c ≥ 48 ∧ c ≤ 57 := ⟨hc.1, hc.2⟩
    have e : wrap32 (wrap32 (v : Int) * 10 + ((c : Int) - 48))
        = wrap32 ((v * 10 + (c - 48) : Nat) : Int) := by
      unfold wrap32; omega
    simp only [List.cons_append, atoiLoop, if_pos hcond, List.foldl_cons, wrap32_mul10, e]
    exact ih rest _ (fun x hx => hds x (List.mem_cons_of_mem _ hx)) hrest

theorem wrap32_zero : wrap32 0 = 0 := by decide

theorem atoi_digits (ds rest : List Nat) (hds : ∀ c ∈ ds, 48 ≤ c ∧ c ≤ 57)
    (hrest : ¬ (48 ≤ rest.headD 0 ∧ rest.headD 0 ≤ 57)) (hhead : (ds ++ rest).headD 0 ≠ 45) :
    atoi (ds ++ rest) = wrap32 (digitValue ds) := by
  have h := atoiLoop_digits ds rest 0 hds hrest
  simp only [Nat.cast_zero, wrap32_zero] at h
  simp only [atoi, hhead, decide_False, Bool.false_eq_true, if_false, h, digitValue]
  simp

theorem atoi_minus_digits (ds rest : List Nat) (hds : ∀ c ∈ ds, 48 ≤ c ∧ c ≤ 57)
    (hrest : ¬ (48 ≤ rest.headD 0 ∧ rest.headD 0 ≤ 57)) :
    atoi (45 :: (ds ++ rest)) = wrap32 (-(digitValue ds : Int)) := by
  have h := atoiLoop_digits ds rest 0 hds hrest
  simp only [Nat.cast_zero, wrap32_zero] at h
  simp only [atoi, List.headD_cons, decide_True, if_true, List.tail_cons, h, digitValue,
    wrap32_neg_wrap32]
  simp

theorem shl_sum_mod (res d : Int) :
    (shl32 res 3 + shl32 res 1 + d) % 4294967296 = (res * 10 + d) % 4294967296 := by
  simp only [shl32]
  norm_num
  unfold wrap32
  omega

theorem wrap32_of_lt (n : Nat) (h : n < 2147483648) : wrap32 (n : Int) = n := by
  unfold wrap32; omega

theorem wrap32_neg_of_le (n : Nat) (h : n ≤ 2147483648) : wrap32 (-(n : Int)) = -(n : Int) := by
  unfold wrap32; omega

/-- Claim C18. In `atoi` the statement `res = (temp << 3) + (temp << 1) + d` computes
`res * 10 + d` modulo 2^32, for every `res` and `d`. Hence, for a run `ds` of decimal digits
followed by memory `rest` that does not begin with a digit: `atoi` of `ds` is the value of the
digits when that value is below 2^31; `atoi` of a minus sign and `ds` is the negated value when
the value is at most 2^31; the bytes from the first non-digit on have no influence; and with no
digit at all the result is 0, with or without the sign. -/
theorem atoi_parses_decimal (ds rest : List Nat) (hds : ∀ c ∈ ds, 48 ≤ c ∧ c ≤ 57)
    (hrest : ¬ (48 ≤ rest.headD 0 ∧ rest.headD 0 ≤ 57)) :
    (∀ res d : Int,
      (shl32 res 3 + shl32 res 1 + d) % 4294967296 = (res * 10 + d) % 4294967296) ∧
    (∀ (c : Nat) (str : List Nat) (res : Int), 48 ≤ c → c ≤ 57 →
      atoiLoop (c :: str) res = atoiLoop str (wrap32 (res * 10 + ((c : Int) - 48)))) ∧
    ((ds ++ rest).headD 0 ≠ 45 → digitValue ds < 2147483648 →
      atoi (ds ++ rest) = (digitValue ds : Int)) ∧
    (digitValue ds ≤ 2147483648 → atoi (45 :: (ds ++ rest)) = -(digitValue ds : Int)) ∧
    (rest.headD 0 ≠ 45 → atoi rest = 0) ∧
    atoi (45 :: rest) = 0 := by
  refine ⟨shl_sum_mod, ?_, ?_, ?_, ?_, ?_⟩
  · intro c str res h1 h2
    have hcond : c ≥ 48 ∧ c ≤ 57 := ⟨h1, h2⟩
    simp only [atoiLoop, if_pos hcond, wrap32_mul10]
  · intro hhead hfit
    rw [atoi_digits ds rest hds hrest hhead, wrap32_of_lt _ hfit]
  · intro hfit
    rw [atoi_minus_digits ds rest hds hrest, wrap32_neg_of_le _ hfit]
  · intro hhead
    have h := atoi_digits [] rest (by simp) hrest (by simpa using hhead)
    simpa [digitValue, wrap32_zero] using h
  · have h := atoi_minus_digits [] rest (by simp) hrest
    simpa [digitValue, wrap32_zero] using h

/-- Witness of `atoi_parses_decimal`: the digits "2147483648" followed by "abc". -/
theorem atoi_parses_decimal_witness :
    (∀ c ∈ bytes "2147483648", 48 ≤ c ∧ c ≤ 57) ∧
    ¬ (48 ≤ (bytes "abc").headD 0 ∧ (bytes "abc").headD 0 ≤ 57) ∧
    ((∀ res d : Int,
      (shl32 res 3 + shl32 res 1 + d) % 4294967296 = (res * 10 + d) % 4294967296) ∧
    (∀ (c : Nat) (str : List Nat) (res : Int), 48 ≤ c → c ≤ 57 →
      atoiLoop (c :: str) res = atoiLoop str (wrap32 (res * 10 + ((c : Int) - 48)))) ∧
    ((bytes "2147483648" ++ bytes "abc").headD 0 ≠ 45 →
      digitValue (bytes "2147483648") < 2147483648 →
      atoi (bytes "2147483648" ++ bytes "abc") = (digitValue (bytes "2147483648") : Int)) ∧
    (digitValue (bytes "2147483648") ≤ 2147483648 →
      atoi (45 :: (bytes "2147483648" ++ bytes "abc"))
        = -(digitValue (bytes "2147483648") : Int)) ∧
    ((bytes "abc").headD 0 ≠ 45 → atoi (bytes "abc") = 0) ∧
    atoi (45 :: bytes "abc") = 0) :=
  ⟨by decide, by decide,
    atoi_parses_decimal (bytes "2147483648") (bytes "abc") (by decide) (by decide)⟩

/-! ## ulib.c: itoa on every `int`, and the way back through atoi -/

/-- On a negative `int` other than the least one, `itoa` writes a minus sign, the decimal
representation of the absolute value and a terminator. -/
theorem itoa_neg (z : Int) (h0 : z < 0) (h1 : -2147483648 < z) :
    itoa z = some (45 :: decimal z.natAbs ++ [0]) := by
  obtain ⟨n, rfl⟩ : ∃ n : Nat, z = -(n : Int) := ⟨z.natAbs, by omega⟩
  have hne : ¬ (-(n : Int) = 0) := by omega
  have hw : wrap32 (- -(n : Int)) = (n : Int) := by unfold wrap32; omega
  simp only [itoa, if_neg hne, if_pos h0, hw, Int.toNat_ofNat,
    itoaLoop_spec (n + 1) n [] (by omega) (by omega)]
  simp [decimal, h0]

/-- On every `int` but the least one, `itoa` writes the canonical decimal representation and
a terminator. -/
theorem itoa_canonical (z : Int) (h1 : -2147483648 < z) (h2 : z < 2147483648) :
    itoa z = some (canonical z ++ [0]) := by
  by_cases h0 : z = 0
  · subst h0; rfl
  · by_cases hn : z < 0
    · rw [itoa_neg z hn h1]
      simp [canonical, h0, hn]
    · rw [itoa_pos z (by omega) h2]
      have e : z.toNat = z.natAbs := by omega
      simp [canonical, h0, hn, e]

theorem digitValue_reverse_digits (L : List Nat) :
    digitValue ((L.reverse).map (fun d => d + 48)) = Nat.ofDigits 10 L := by
  induction L with
  | nil => rfl
  | cons x L ih =>
    simp only [digitValue] at ih
    simp only [digitValue, List.reverse_cons, List.map_append, List.map_cons, List.map_nil,
      List.foldl_append, List.foldl_cons, List.foldl_nil, ih, Nat.ofDigits_cons]
    omega

/-- The value of the decimal representation of `n` is `n`. -/
theorem digitValue_decimal (n : Nat) : digitValue (decimal n) = n := by
  rw [decimal, digitValue_reverse_digits, Nat.ofDigits_digits]

/-- The decimal representation consists of digits. -/
theorem decimal_digits (n : Nat) : ∀ c ∈ decimal n, 48 ≤ c ∧ c ≤ 57 := by
  intro c hc
  simp only [decimal, List.mem_map, List.mem_reverse] at hc
  obtain ⟨d, hd, rfl⟩ := hc
  have := Nat.digits_lt_base (by norm_num : 1 < 10) hd
  omega

theorem headD_digits_ne_minus (ds rest : List Nat) (hds : ∀ c ∈ ds, 48 ≤ c ∧ c ≤ 57)
    (hrest : rest.headD 0 ≠ 45) : (ds ++ rest).headD 0 ≠ 45 := by
  cases ds with
  | nil => simpa using hrest
  | cons c ds =>
    have := hds c (List.mem_cons_self _ _)
    simp only [List.cons_append, List.headD_cons]
    omega

/-- On every `int` but the least one, `atoi` reads back what `itoa` writes. -/
theorem atoi_itoa (z : Int) (h1 : -2147483648 < z) (h2 : z < 2147483648) :
    (itoa z).map atoi = some z := by
  by_cases h0 : z = 0
  · subst h0; rfl
  · by_cases hn : z < 0
    · rw [itoa_neg z hn h1]
      simp only [Option.map_some', List.cons_append]
      rw [atoi_minus_digits _ [0] (decimal_digits _) (by decide), digitValue_decimal,
        wrap32_neg_of_le _ (by omega)]
      congr 1
      omega
    · rw [itoa_pos z (by omega) h2]
      simp only [Option.map_some']
      rw [atoi_digits _ [0] (decimal_digits _) (by decide)
        (headD_digits_ne_minus _ _ (decimal_digits _) (by decide)), digitValue_decimal,
        wrap32_of_lt _ (by omega)]
      congr 1
      omega

theorem canonical_min : canonical (-2147483648) = bytes "-2147483648" := by
  simp only [canonical]
  norm_num [decimal]
  decide

/-- Claim C15 at the least `int`. There `num = -num` wraps back to -2147483648, the loop
`while (num > 0)` is not entered, and `itoa` writes only the sign and the terminator, not the
canonical representation "-2147483648". -/
theorem itoa_least_int_writes_sign_only :
    itoa (-2147483648) = some (bytes "-" ++ [0]) ∧
    canonical (-2147483648) = bytes "-2147483648" ∧
    itoa (-2147483648) ≠ some (canonical (-2147483648) ++ [0]) ∧
    wrap32 (-(-2147483648)) = -2147483648 ∧
    itoaLoop 1 (-2147483648) [] = some [] := by
  refine ⟨by decide, canonical_min, ?_, by decide, by decide⟩
  rw [canonical_min]
  decide

/-- Claim C19 at the least `int`. What `itoa` writes for -2147483648 is the string "-", and
`atoi` of that string is 0, not -2147483648. -/
theorem atoi_itoa_least_int_is_zero :
    (itoa (-2147483648)).map atoi = some 0 ∧
    (itoa (-2147483648)).map atoi ≠ some (-2147483648) ∧
    atoi (bytes "-2147483648" ++ [0]) = -2147483648 := by
  refine ⟨by decide, by decide, ?_⟩
  have h := atoi_minus_digits (bytes "2147483648") [0] (by decide) (by decide)
  have hv : digitValue (bytes "2147483648") = 2147483648 := by decide
  rw [hv] at h
  exact h.trans (by decide)

/-! ## sh.c: readline -/

theorem write_bind_cons {β : Type} (buf : List Nat) (n : Nat) (f : Int → Proc β) (r : Reply)
    (rs : List Reply) :
    (write STDOUT buf n >>= f) (r :: rs)
      = (f r.ret rs).after [⟨⟨SYS_WRITE, .word STDOUT, .str (buf.take n), .word n⟩, some r⟩] := by
  simp only [write, bind_assoc_run, syscall_bind_cons, pure_bind_run]

theorem write_bind_nil {β : Type} (buf : List Nat) (n : Nat) (f : Int → Proc β) :
    (write STDOUT buf n >>= f) []
      = ⟨[⟨⟨SYS_WRITE, .word STDOUT, .str (buf.take n), .word n⟩, none⟩], [],
          .halt .pending⟩ := by
  simp only [write, bind_assoc_run, syscall_bind_nil]

/-- The loop of `readline` ends when `i` has reached `max - 1`. -/
theorem readlineLoop_full (max fuel : Nat) (buf : List Nat) (i : Nat) (rs : List Reply)
    (h : ¬ (i + 1 < max)) :
    readlineLoop max (fuel + 1) buf i rs = ⟨[], rs, .ok (buf, i)⟩ := by
  simp only [readlineLoop, if_neg h]
  rfl

/-- The loop of `readline` blocks in `read` when no reply comes. -/
theorem readlineLoop_blocked (max fuel : Nat) (buf : List Nat) (i : Nat) (h : i + 1 < max) :
    readlineLoop max (fuel + 1) buf i [] = ⟨[⟨readTrap, none⟩], [], .halt .pending⟩ := by
  simp only [readlineLoop, if_pos h, read, syscall_bind_nil]
  rfl

/-- The loop of `readline` ends when `read` fails. -/
theorem readlineLoop_failed (max fuel : Nat) (buf : List Nat) (i : Nat) (r : Reply)
    (rs : List Reply) (h : i + 1 < max) (hr : r.ret < 1) :
    readlineLoop max (fuel + 1) buf i (r :: rs) = ⟨[⟨readTrap, some r⟩], rs, .ok (buf, i)⟩ := by
  simp only [readlineLoop, if_pos h, read, syscall_bind_cons, if_pos hr]
  rfl

/-- The loop of `readline` ends at CR or LF, after the echo of a newline. -/
theorem readlineLoop_newline (max fuel : Nat) (buf : List Nat) (i : Nat) (r : Reply)
    (rs : List Reply) (h : i + 1 < max) (hr : ¬ r.ret < 1)
    (hc : r.val.toNat % 256 = 13 ∨ r.val.toNat % 256 = 10) :
    readlineLoop max (fuel + 1) buf i (r :: rs)
      = ⟨[⟨readTrap, some r⟩, ⟨printTrap "\n", rs.head?⟩], rs.tail,
          match rs.head? with
          | some _ => .ok (buf, i)
          | none => .halt .pending⟩ := by
  simp only [readlineLoop, if_pos h, read, syscall_bind_cons, if_neg hr, if_pos hc]
  cases rs with
  | nil => simp only [write_bind_nil]; rfl
  | cons w rs => simp only [write_bind_cons]; rfl

/-- A backspace with `i > 0`: the visual backspace is written and `i` goes down by one. -/
theorem readlineLoop_backspace (max fuel : Nat) (buf : List Nat) (i : Nat) (r w : Reply)
    (rs : List Reply) (h : i + 1 < max) (hr : ¬ r.ret < 1)
    (hn : ¬ (r.val.toNat % 256 = 13 ∨ r.val.toNat % 256 = 10))
    (hc : r.val.toNat % 256 = 127 ∨ r.val.toNat % 256 = 8) (hi : i > 0) :
    readlineLoop max (fuel + 1) buf i (r :: w :: rs)
      = (readlineLoop max fuel buf (i - 1) rs).after
          [⟨readTrap, some r⟩, ⟨writeTrap (bytes "\x08 \x08"), some w⟩] := by
  simp only [readlineLoop, if_pos h, read, syscall_bind_cons, if_neg hr, if_neg hn, if_pos hc,
    if_pos hi, write_bind_cons, after_after]
  rfl

/-- A backspace with `i = 0` is ignored. -/
theorem readlineLoop_backspace_zero (max fuel : Nat) (buf : List Nat) (r : Reply)
    (rs : List Reply) (h : 0 + 1 < max) (hr : ¬ r.ret < 1)
    (hn : ¬ (r.val.toNat % 256 = 13 ∨ r.val.toNat % 256 = 10))
    (hc : r.val.toNat % 256 = 127 ∨ r.val.toNat % 256 = 8) :
    readlineLoop max (fuel + 1) buf 0 (r :: rs)
      = (readlineLoop max fuel buf 0 rs).after [⟨readTrap, some r⟩] := by
  simp only [readlineLoop, if_pos h, read, syscall_bind_cons, if_neg hr, if_neg hn, if_pos hc,
    gt_iff_lt, lt_self_iff_false, if_false]
  rfl

/-- An ordinary character is echoed and stored at `buf[i]`, and `i` goes up by one. -/
theorem readlineLoop_store (max fuel : Nat) (buf : List Nat) (i : Nat) (r w : Reply)
    (rs : List Reply) (h : i + 1 < max) (hr : ¬ r.ret < 1)
    (hn : ¬ (r.val.toNat % 256 = 13 ∨ r.val.toNat % 256 = 10))
    (hc : ¬ (r.val.toNat % 256 = 127 ∨ r.val.toNat % 256 = 8)) :
    readlineLoop max (fuel + 1) buf i (r :: w :: rs)
      = (readlineLoop max fuel (buf.set i (r.val.toNat % 256)) (i + 1) rs).after
          [⟨readTrap, some r⟩, ⟨writeTrap [r.val.toNat % 256], some w⟩] := by
  simp only [readlineLoop, if_pos h, read, syscall_bind_cons, if_neg hr, if_neg hn, if_neg hc,
    write_bind_cons, after_after]
  rfl

/-- After a successful `read` of a character that is echoed (any character but a backspace
at `i = 0`), the loop of `readline` blocks in the `write` of the echo when no reply comes. -/
theorem readlineLoop_echo_blocked (max fuel : Nat) (buf : List Nat) (i : Nat) (r : Reply)
    (h : i + 1 < max) (hr : ¬ r.ret < 1)
    (hc : (r.val.toNat % 256 = 127 ∨ r.val.toNat % 256 = 8) → i > 0) :
    ∃ s, readlineLoop max (fuel + 1) buf i [r]
      = ⟨[⟨readTrap, some r⟩, ⟨writeTrap s, none⟩], [], .halt .pending⟩ := by
  simp only [readlineLoop, if_pos h, read, syscall_bind_cons, if_neg hr]
  by_cases hn : r.val.toNat % 256 = 13 ∨ r.val.toNat % 256 = 10
  · simp only [if_pos hn, write_bind_nil]
    exact ⟨bytes "\n", rfl⟩
  · by_cases hb : r.val.toNat % 256 = 127 ∨ r.val.toNat % 256 = 8
    · simp only [if_neg hn, if_pos hb, if_pos (hc hb), write_bind_nil]
      exact ⟨bytes "\x08 \x08", rfl⟩
    · simp only [if_neg hn, if_neg hb, write_bind_nil]
      exact ⟨[r.val.toNat % 256], rfl⟩

theorem reads_read_cons (r : Reply) (t : List Event) :
    reads (⟨readTrap, some r⟩ :: t) = r :: reads t := by
  simp [reads, readTrap]

theorem reads_write_cons (s : List Nat) (w : Option Reply) (t : List Event) :
    reads (⟨writeTrap s, w⟩ :: t) = reads t := by
  simp [reads, writeTrap, SYS_WRITE, SYS_READ]

theorem reads_append (a b : List Event) : reads (a ++ b) = reads a ++ reads b := by
  simp [reads, List.filterMap_append]

theorem reads_read_write (r : Reply) (s : List Nat) (w : Option Reply) :
    reads [⟨readTrap, some r⟩, ⟨writeTrap s, w⟩] = [r] := by
  simp [reads, readTrap, writeTrap, SYS_WRITE, SYS_READ]

theorem reads_read (r : Reply) : reads [⟨readTrap, some r⟩] = [r] := by
  simp [reads, readTrap]

theorem take_set_succ (buf : List Nat) (i c : Nat) (h : i < buf.length) :
    (buf.set i c).take (i + 1) = buf.take i ++ [c] := by
  induction buf generalizing i with
  | nil => exact absurd h (Nat.not_lt_zero _)
  | cons x buf ih =>
    cases i with
    | zero => rfl
    | succ i =>
      simp only [List.set_cons_succ, List.take_succ_cons, List.cons_append]
      rw [ih i (by simpa using h)]

theorem dropLast_take_pred (buf : List Nat) (i : Nat) (h : i ≤ buf.length) :
    (buf.take i).dropLast = buf.take (i - 1) := by
  rw [List.dropLast_eq_take, List.take_take, List.length_take]
  congr 1
  omega

theorem replies_append (a b : List Event) : replies (a ++ b) = replies a ++ replies b := by
  simp [replies, List.filterMap_append]

theorem getLast?_append_some {α : Type} (a b : List α) (e : α) (h : b.getLast? = some e) :
    (a ++ b).getLast? = some e := by
  rw [List.getLast?_append, h]
  rfl

theorem failed_is_last_cons (r : Reply) (input : List Reply) (hr : ¬ r.ret < 1)
    (h : ∀ pre x more, input = pre ++ x :: more → x.ret < 1 → more = []) :
    ∀ pre x more, r :: input = pre ++ x :: more → x.ret < 1 → more = [] := by
  intro pre x more heq hx
  cases pre with
  | nil =>
    simp only [List.nil_append, List.cons.injEq] at heq
    rw [heq.1] at hr
    exact absurd hx hr
  | cons p pre =>
    simp only [List.cons_append, List.cons.injEq] at heq
    exact h pre x more heq.2 hx

theorem failed_is_last_single (r : Reply) :
    ∀ pre x more, [r] = pre ++ x :: more → x.ret < 1 → more = [] := by
  intro pre x more heq _
  cases pre with
  | nil =>
    simp only [List.nil_append, List.cons.injEq] at heq
    exact heq.2.symm
  | cons p pre =>
    simp only [List.cons_append, List.cons.injEq] at heq
    exact absurd heq.2 (by simp)

/-- A turn of the loop of `readline` that has read the character of `r` (no failure, no CR or
LF) and goes on: what holds of the rest of the run holds of the run. -/
theorem loopPost_after (max : Nat) (buf buf0 : List Nat) (i i0 : Nat) (r : Reply)
    (rs rs0 : List Reply) (o : Out (List Nat × Nat)) (t : List Event)
    (hlen : buf.length = buf0.length) (hdrop : buf.drop (max - 1) = buf0.drop (max - 1))
    (hreads : reads t = [r]) (hrep : replies t ++ rs = rs0) (hr : ¬ r.ret < 1)
    (hn : ¬ (r.val.toNat % 256 = 13 ∨ r.val.toNat % 256 = 10))
    (hline : ∀ input, refLine max (r :: input) (buf0.take i0) = refLine max input (buf.take i))
    (h : LoopPost max buf i rs o) : LoopPost max buf0 i0 rs0 (o.after t) := by
  obtain ⟨hacc, h⟩ := h
  have er : reads (o.after t).trace = r :: reads o.trace := by
    simp only [Out.after, reads_append, hreads, List.singleton_append]
  refine ⟨?_, ?_⟩
  · simp only [Out.after, replies_append, List.append_assoc, hacc, hrep]
  rcases h with ⟨h1, h2, h3, h4⟩ | ⟨buf1, j, h1, h2, h3, h4, h5, h6⟩
  · refine Or.inl ⟨h1, h2, ?_, ?_⟩
    · intro x hx
      rw [er] at hx
      rcases List.mem_cons.mp hx with rfl | hx
      · exact hr
      · exact h3 x hx
    · rcases h4 with ⟨g1, g2, g3⟩ | ⟨s, g⟩
      · refine Or.inl ⟨getLast?_append_some t o.trace _ g1, ?_, ?_⟩
        · intro x hx
          rw [er] at hx
          rcases List.mem_cons.mp hx with rfl | hx
          · exact ⟨fun e => hn (Or.inl e), fun e => hn (Or.inr e)⟩
          · exact g2 x hx
        · rw [er, hline]
          exact g3
      · exact Or.inr ⟨s, getLast?_append_some t o.trace _ g⟩
  · refine Or.inr ⟨buf1, j, h1, h2, h3.trans hlen, h4.trans hdrop, fun more => ?_, ?_⟩
    · rw [er, List.cons_append, hline]
      exact h5 more
    · rw [er]
      exact failed_is_last_cons r _ hr h6

/-- The loop of `readline` against the reference line. -/
theorem readlineLoop_spec (max : Nat) : ∀ (fuel : Nat) (buf : List Nat) (i : Nat)
    (rs : List Reply), i + 1 ≤ max → max ≤ buf.length → rs.length < fuel →
    LoopPost max buf i rs (readlineLoop max fuel buf i rs) := by
  intro fuel
  induction fuel with
  | zero => intro _ _ rs _ _ hf; exact absurd hf (Nat.not_lt_zero _)
  | succ f ih =>
    intro buf i rs hi hmax hf
    have hlen : (buf.take i).length = i := by rw [List.length_take]; omega
    by_cases h : i + 1 < max
    swap
    · rw [readlineLoop_full max f buf i rs h]
      refine ⟨rfl, Or.inr ⟨buf, i, rfl, hi, rfl, rfl, fun more => ?_, ?_⟩⟩
      · cases more with
        | nil => rfl
        | cons r more =>
          have hfull : (buf.take i).length + 1 ≥ max := by omega
          simp only [reads, List.filterMap_nil, List.nil_append, refLine, if_pos hfull]
      · intro pre r more heq
        exact absurd heq (by simp [reads])
    have hroom : ¬ ((buf.take i).length + 1 ≥ max) := by omega
    cases rs with
    | nil =>
      rw [readlineLoop_blocked max f buf i h]
      refine ⟨rfl, Or.inl ⟨rfl, rfl, fun r hr => absurd hr (by simp [reads, readTrap]),
        Or.inl ⟨rfl, fun r hr => absurd hr (by simp [reads, readTrap]), ?_⟩⟩⟩
      have e : reads [(⟨readTrap, none⟩ : Event)] = [] := by simp [reads, readTrap]
      rw [e]
      simp only [refLine, hlen]
      exact h
    | cons r rs =>
      by_cases hr : r.ret < 1
      · rw [readlineLoop_failed max f buf i r rs h hr]
        refine ⟨rfl, Or.inr ⟨buf, i, rfl, hi, rfl, rfl, fun more => ?_, ?_⟩⟩
        · simp only [reads_read_cons, reads, List.filterMap_nil, List.cons_append,
            List.nil_append, refLine, if_neg hroom, if_pos hr]
        · rw [reads_read]
          exact failed_is_last_single r
      by_cases hn : r.val.toNat % 256 = 13 ∨ r.val.toNat % 256 = 10
      · rw [readlineLoop_newline max f buf i r rs h hr hn]
        cases rs with
        | nil =>
          refine ⟨rfl, Or.inl ⟨rfl, rfl, ?_, Or.inr ⟨bytes "\n", rfl⟩⟩⟩
          intro x hx
          have e : reads [⟨readTrap, some r⟩, ⟨printTrap "\n", ([] : List Reply).head?⟩] = [r] :=
            reads_read_write r (bytes "\n") none
          rw [e, List.mem_singleton] at hx
          rw [hx]
          exact hr
        | cons w rs =>
          refine ⟨rfl, Or.inr ⟨buf, i, rfl, hi, rfl, rfl, fun more => ?_, ?_⟩⟩
          · simp only [reads_read_cons, printTrap, reads_write_cons, reads, List.filterMap_nil,
              List.cons_append, List.nil_append, refLine, if_neg hroom, if_neg hr, if_pos hn]
          · have e : reads [⟨readTrap, some r⟩, ⟨printTrap "\n", (w :: rs).head?⟩] = [r] :=
              reads_read_write r (bytes "\n") (some w)
            rw [e]
            exact failed_is_last_single r
      have echo_blocked : ((r.val.toNat % 256 = 127 ∨ r.val.toNat % 256 = 8) → i > 0) →
          LoopPost max buf i [r] (readlineLoop max (f + 1) buf i [r]) := by
        intro hc
        obtain ⟨s, hs⟩ := readlineLoop_echo_blocked max f buf i r h hr hc
        rw [hs]
        refine ⟨rfl, Or.inl ⟨rfl, rfl, ?_, Or.inr ⟨s, rfl⟩⟩⟩
        intro x hx
        rw [reads_read_write, List.mem_singleton] at hx
        rw [hx]
        exact hr
      by_cases hb : r.val.toNat % 256 = 127 ∨ r.val.toNat % 256 = 8
      · by_cases hpos : i > 0
        · cases rs with
          | nil => exact echo_blocked (fun _ => hpos)
          | cons w rs =>
            rw [readlineLoop_backspace max f buf i r w rs h hr hn hb hpos]
            refine loopPost_after max buf buf (i - 1) i r rs _ _ _ rfl rfl
              (reads_read_write r _ _) rfl hr hn (fun more => ?_)
              (ih buf (i - 1) rs (by omega) hmax
                (by simp only [List.length_cons] at hf; omega))
            simp only [refLine, if_neg hroom, if_neg hr, if_neg hn, if_pos hb,
              dropLast_take_pred buf i (by omega)]
        · have hz : i = 0 := by omega
          subst hz
          rw [readlineLoop_backspace_zero max f buf r rs h hr hn hb]
          refine loopPost_after max buf buf 0 0 r rs _ _ _ rfl rfl (reads_read r) rfl hr hn
            (fun more => ?_)
            (ih buf 0 rs hi hmax (by simp only [List.length_cons] at hf; omega))
          simp only [refLine, if_neg hroom, if_neg hr, if_neg hn, if_pos hb]
          simp only [List.take_zero, List.dropLast_nil]
      · cases rs with
        | nil => exact echo_blocked (fun hb2 => absurd hb2 hb)
        | cons w rs =>
          rw [readlineLoop_store max f buf i r w rs h hr hn hb]
          refine loopPost_after max (buf.set i (r.val.toNat % 256)) buf (i + 1) i r rs _ _ _
            (List.length_set _ _ _) (List.drop_set_of_lt _ _ (by omega))
            (reads_read_write r _ _) rfl hr hn (fun more => ?_)
            (ih _ (i + 1) rs (by omega) (by rw [List.length_set]; exact hmax)
              (by simp only [List.length_cons] at hf; omega))
          simp only [refLine, if_neg hroom, if_neg hr, if_neg hn, if_neg hb,
            take_set_succ buf i _ (by omega)]

theorem take_set_self (buf : List Nat) (i c : Nat) : (buf.set i c).take i = buf.take i := by
  induction buf generalizing i with
  | nil => simp
  | cons x buf ih =>
    cases i with
    | zero => rfl
    | succ i => simp only [List.set_cons_succ, List.take_succ_cons, ih]

theorem takeWhile_append_zero (a b : List Nat) :
    (a ++ 0 :: b).takeWhile (fun c => c ≠ 0) = a.takeWhile (fun c => c ≠ 0) := by
  induction a with
  | nil => simp
  | cons x a ih =>
    by_cases hx : x = 0
    · simp [List.takeWhile_cons, hx]
    · simp only [List.cons_append, List.takeWhile_cons, ih]

/-- A buffer with a NUL at index `j` holds the C string of its first `j` bytes. -/
theorem cstr_of_terminator (buf : List Nat) (j : Nat) (h : buf[j]? = some 0) :
    cstr buf 0 = (buf.take j).takeWhile (fun c => c ≠ 0) := by
  have hj : j < buf.length := by
    rcases Nat.lt_or_ge j buf.length with h1 | h1
    · exact h1
    · rw [List.getElem?_eq_none h1] at h; cases h
  have e : buf = buf.take j ++ 0 :: buf.drop (j + 1) := by
    have h0 : buf[j] = 0 := by
      rw [List.getElem?_eq_getElem hj] at h
      exact Option.some.inj h
    conv_lhs => rw [← List.take_append_drop j buf, List.drop_eq_getElem_cons hj, h0]
  unfold cstr
  rw [List.drop_zero]
  conv_lhs => rw [e]
  exact takeWhile_append_zero _ _

/-- The reference line holds no CR, LF or backspace byte beyond those it started with. -/
theorem refLine_clean (max : Nat) : ∀ (input : List Reply) (line : List Nat),
    ∀ c ∈ refLine max input line, c ∈ line ∨ (c ≠ 13 ∧ c ≠ 10 ∧ c ≠ 127 ∧ c ≠ 8) := by
  intro input
  induction input with
  | nil => intro line c hc; exact Or.inl hc
  | cons r input ih =>
    intro line c hc
    simp only [refLine] at hc
    split_ifs at hc with h1 h2 h3 h4
    · exact Or.inl hc
    · exact Or.inl hc
    · exact Or.inl hc
    · rcases ih _ c hc with h | h
      · exact Or.inl (List.mem_of_mem_dropLast h)
      · exact Or.inr h
    · rcases ih _ c hc with h | h
      · rcases List.mem_append.mp h with h | h
        · exact Or.inl h
        · rw [List.mem_singleton.mp h]
          exact Or.inr ⟨fun e => h3 (Or.inl e), fun e => h3 (Or.inr e),
            fun e => h4 (Or.inl e), fun e => h4 (Or.inr e)⟩
      · exact Or.inr h

/-- The reference line ends at a failed read: what the stream holds from there on has no
influence. -/
theorem refLine_failed (max : Nat) (r : Reply) (hr : r.ret < 1) :
    ∀ (pre more : List Reply) (line : List Nat),
      refLine max (pre ++ r :: more) line = refLine max pre line := by
  intro pre
  induction pre with
  | nil =>
    intro more line
    simp only [List.nil_append, refLine, if_pos hr, ite_self]
  | cons p pre ih =>
    intro more line
    rw [List.cons_append]
    simp only [refLine, ih]

theorem readline_run (fuel max : Nat) (buf : List Nat) (rs : List Reply) :
    readline fuel buf max rs
      = match readlineLoop max fuel buf 0 rs with
        | ⟨t, rs1, .ok (buf1, i)⟩ => ⟨t, rs1, .ok (buf1.set i 0)⟩
        | ⟨t, rs1, .halt h⟩ => ⟨t, rs1, .halt h⟩ := by
  simp only [readline, bind_run]
  rcases readlineLoop max fuel buf 0 rs with ⟨t, rs1, ⟨buf1, i⟩ | h⟩
  · simp [pure_run, Out.after]
  · rfl

/-- The function `readline` against the reference line: with a buffer of at least `max ≥ 1`
bytes and a budget above the number of replies, the replies of the traps and the replies left
over are `rs`, and the call either is blocked for want of a reply or returns a buffer of the
same size that differs from `buf` at indices below `max` only, with a NUL at an index
`j ≤ max - 1` and the reference line of the received input in front of it; a failed `read` is
the last `read`. -/
theorem readline_spec (fuel max : Nat) (buf : List Nat) (rs : List Reply) (h1 : 1 ≤ max)
    (h2 : max ≤ buf.length) (hf : rs.length < fuel) :
    replies (readline fuel buf max rs).trace ++ (readline fuel buf max rs).rest = rs ∧
    (Blocked max [] (readline fuel buf max rs) ∨
      ∃ buf2 j, (readline fuel buf max rs).res = .ok buf2 ∧ j + 1 ≤ max ∧
        buf2.length = buf.length ∧ buf2.drop max = buf.drop max ∧ buf2[j]? = some 0 ∧
        (∀ more, refLine max (reads (readline fuel buf max rs).trace ++ more) [] = buf2.take j) ∧
        (∀ pre r more, reads (readline fuel buf max rs).trace = pre ++ r :: more → r.ret < 1 →
          more = [])) := by
  have h := readlineLoop_spec max fuel buf 0 rs h1 h2 hf
  rw [readline_run]
  rcases hloop : readlineLoop max fuel buf 0 rs with ⟨t, rs1, ⟨buf1, i⟩ | hh⟩
  · rw [hloop] at h
    obtain ⟨hacc, h⟩ := h
    refine ⟨hacc, ?_⟩
    rcases h with ⟨h3, _⟩ | ⟨b, j, h3, h4, h5, h6, h7, h8⟩
    · cases h3
    · simp only [Res.ok.injEq, Prod.mk.injEq] at h3
      obtain ⟨hb, hj⟩ := h3
      subst hb
      subst hj
      refine Or.inr ⟨buf1.set i 0, i, rfl, h4, by rw [List.length_set, h5], ?_, ?_, ?_, h8⟩
      · rw [List.drop_set_of_lt _ _ (by omega)]
        have e : ∀ l : List Nat, l.drop max = (l.drop (max - 1)).drop 1 := by
          intro l
          rw [List.drop_drop]
          congr 1
          omega
        rw [e buf1, e buf, h6]
      · rw [List.getElem?_set_eq_of_lt]
        omega
      · intro more
        rw [take_set_self]
        simpa using h7 more
  · rw [hloop] at h
    obtain ⟨hacc, h⟩ := h
    refine ⟨hacc, ?_⟩
    rcases h with ⟨h3, h4, h5, h6⟩ | ⟨b, j, h3, _⟩
    · have hp : hh = Halt.pending := by simpa using h3
      subst hp
      have hb : Blocked max [] (⟨t, rs1, .halt .pending⟩ : Out (List Nat)) :=
        ⟨rfl, h4, h5, by simpa using h6⟩
      exact Or.inl hb
    · cases h3

theorem cstr_set_zero (buf : List Nat) (h : 1 ≤ buf.length) : cstr (buf.set 0 0) 0 = [] := by
  cases buf with
  | nil => exact absurd h (by decide)
  | cons x buf => simp [cstr]

theorem readline_res_cases (fuel max : Nat) (buf : List Nat) (rs : List Reply) (h1 : 1 ≤ max)
    (h2 : max ≤ buf.length) (hf : rs.length < fuel) :
    (readline fuel buf max rs).res = .halt .pending ∨
      ∃ buf2, (readline fuel buf max rs).res = .ok buf2 := by
  rcases (readline_spec fuel max buf rs h1 h2 hf).2 with ⟨h, _⟩ | ⟨buf2, _, h, _⟩
  · exact Or.inl h
  · exact Or.inr ⟨buf2, h⟩

/-- Claim C14 as stated fails: `read` delivers the character a, its echo is written, and the
next `read` fails.  The line `readline` produces is "a", not the empty string. -/
theorem readline_failure_keeps_stored_line :
    readline 4 (List.replicate 8 0) 8 [⟨1, 97⟩, ⟨1, 0⟩, ⟨0, 0⟩]
      = ⟨[⟨readTrap, some ⟨1, 97⟩⟩, ⟨writeTrap [97], some ⟨1, 0⟩⟩, ⟨readTrap, some ⟨0, 0⟩⟩], [],
          .ok (97 :: List.replicate 7 0)⟩ ∧
    cstr (97 :: List.replicate 7 0) 0 = bytes "a" ∧
    cstr (97 :: List.replicate 7 0) 0 ≠ [] := by
  decide

/-- Claim C14, amended. With a buffer of at least `max ≥ 1` bytes (and a budget above the
number of replies) `readline` returns or is blocked in a trap, and the replies of its traps
with the replies left over are the replies given.  It is blocked only when no reply is left:
its last trap has no reply, and no `read` has failed.  So whenever a `read` fails, `readline`
returns: the failed `read` is its last `read`, the buffer holds a NUL at an index `j ≤ max - 1`
behind the reference line of the input received before the failure, that is the characters
stored until then, and the produced line is their C string.  Whenever `readline` returns, the
produced line is null-terminated.  The line is the empty string when the first `read` fails.
The loop obeys its equations at every state: it returns at the limit, at a failed `read` and
at CR or LF, a backspace takes the last stored character away if there is one, any other
character is stored at `buf[i]`; and `readline` stores the NUL at the index the loop
returns. -/
theorem readline_on_read_failure (fuel max : Nat) (buf : List Nat) (rs : List Reply)
    (h1 : 1 ≤ max) (h2 : max ≤ buf.length) (hf : rs.length < fuel) :
    (((readline fuel buf max rs).res = .halt .pending ∨
      ∃ buf2, (readline fuel buf max rs).res = .ok buf2) ∧
    replies (readline fuel buf max rs).trace ++ (readline fuel buf max rs).rest = rs ∧
    ((readline fuel buf max rs).res = .halt .pending →
      (readline fuel buf max rs).rest = [] ∧
      (∃ tp, (readline fuel buf max rs).trace.getLast? = some ⟨tp, none⟩) ∧
      ∀ r ∈ reads (readline fuel buf max rs).trace, ¬ r.ret < 1) ∧
    (∀ pre r more, reads (readline fuel buf max rs).trace = pre ++ r :: more → r.ret < 1 →
      more = [] ∧
      ∃ buf2 j, (readline fuel buf max rs).res = .ok buf2 ∧ j + 1 ≤ max ∧ buf2[j]? = some 0 ∧
        buf2.take j = refLine max pre [] ∧
        cstr buf2 0 = (refLine max pre []).takeWhile (fun c => c ≠ 0)) ∧
    (∀ buf2, (readline fuel buf max rs).res = .ok buf2 →
      ∃ j, j + 1 ≤ max ∧ buf2[j]? = some 0 ∧
        cstr buf2 0 = (buf2.take j).takeWhile (fun c => c ≠ 0) ∧
        ∀ pre r more, reads (readline fuel buf max rs).trace = pre ++ r :: more → r.ret < 1 →
          buf2.take j = refLine max pre []) ∧
    (2 ≤ max → ∀ r rest, rs = r :: rest → r.ret < 1 →
      readline fuel buf max rs = ⟨[⟨readTrap, some r⟩], rest, .ok (buf.set 0 0)⟩ ∧
      cstr (buf.set 0 0) 0 = []) ∧
    (∀ (f : Nat) (b : List Nat) (i : Nat) (rest : List Reply), ¬ i + 1 < max →
      readlineLoop max (f + 1) b i rest = ⟨[], rest, .ok (b, i)⟩) ∧
    (∀ (f : Nat) (b : List Nat) (i : Nat) (r : Reply) (rest : List Reply), i + 1 < max →
      r.ret < 1 →
      readlineLoop max (f + 1) b i (r :: rest) = ⟨[⟨readTrap, some r⟩], rest, .ok (b, i)⟩) ∧
    (∀ (f : Nat) (b : List Nat) (i : Nat) (r w : Reply) (rest : List Reply), i + 1 < max →
      ¬ r.ret < 1 → (r.val.toNat % 256 = 13 ∨ r.val.toNat % 256 = 10) →
      readlineLoop max (f + 1) b i (r :: w :: rest)
        = ⟨[⟨readTrap, some r⟩, ⟨printTrap "\n", some w⟩], rest, .ok (b, i)⟩) ∧
    (∀ (f : Nat) (b : List Nat) (i : Nat) (r w : Reply) (rest : List Reply), i + 1 < max →
      ¬ r.ret < 1 → ¬ (r.val.toNat % 256 = 13 ∨ r.val.toNat % 256 = 10) →
      (r.val.toNat % 256 = 127 ∨ r.val.toNat % 256 = 8) → i > 0 →
      readlineLoop max (f + 1) b i (r :: w :: rest)
        = (readlineLoop max f b (i - 1) rest).after
            [⟨readTrap, some r⟩, ⟨writeTrap (bytes "\x08 \x08"), some w⟩]) ∧
    (∀ (f : Nat) (b : List Nat) (r : Reply) (rest : List Reply), 0 + 1 < max →
      ¬ r.ret < 1 → ¬ (r.val.toNat % 256 = 13 ∨ r.val.toNat % 256 = 10) →
      (r.val.toNat % 256 = 127 ∨ r.val.toNat % 256 = 8) →
      readlineLoop max (f + 1) b 0 (r :: rest)
        = (readlineLoop max f b 0 rest).after [⟨readTrap, some r⟩]) ∧
    (∀ (f : Nat) (b : List Nat) (i : Nat) (r w : Reply) (rest : List Reply), i + 1 < max →
      ¬ r.ret < 1 → ¬ (r.val.toNat % 256 = 13 ∨ r.val.toNat % 256 = 10) →
      ¬ (r.val.toNat % 256 = 127 ∨ r.val.toNat % 256 = 8) →
      readlineLoop max (f + 1) b i (r :: w :: rest)
        = (readlineLoop max f (b.set i (r.val.toNat % 256)) (i + 1) rest).after
            [⟨readTrap, some r⟩, ⟨writeTrap [r.val.toNat % 256], some w⟩]) ∧
    (∀ (t : List Event) (rs1 : List Reply) (b : List Nat) (i : Nat),
      readlineLoop max fuel buf 0 rs = ⟨t, rs1, .ok (b, i)⟩ →
      readline fuel buf max rs = ⟨t, rs1, .ok (b.set i 0)⟩)) := by
  have hs := readline_spec fuel max buf rs h1 h2 hf
  refine ⟨readline_res_cases fuel max buf rs h1 h2 hf, hs.1, ?_, ?_, ?_, ?_,
    fun f b i rest h => readlineLoop_full max f b i rest h,
    fun f b i r rest h hr => readlineLoop_failed max f b i r rest h hr,
    fun f b i r w rest h hr hn => readlineLoop_newline max f b i r (w :: rest) h hr hn,
    fun f b i r w rest h hr hn hb hi => readlineLoop_backspace max f b i r w rest h hr hn hb hi,
    fun f b r rest h hr hn hb => readlineLoop_backspace_zero max f b r rest h hr hn hb,
    fun f b i r w rest h hr hn hb => readlineLoop_store max f b i r w rest h hr hn hb,
    fun t rs1 b i h => by rw [readline_run, h]⟩
  · intro hp
    rcases hs.2 with ⟨_, hrest, hgood, hcls⟩ | ⟨b, j, h, _⟩
    · refine ⟨hrest, ?_, hgood⟩
      rcases hcls with ⟨g, _⟩ | ⟨s, g⟩
      · exact ⟨_, g⟩
      · exact ⟨_, g⟩
    · rw [h] at hp; cases hp
  · intro pre r more hreads hr
    rcases hs.2 with ⟨_, _, hgood, _⟩ | ⟨b, j, h, hj, _, _, hz, hl, hlast⟩
    · exact absurd hr (hgood r (by rw [hreads]; simp))
    · have hm := hlast pre r more hreads hr
      refine ⟨hm, b, j, h, hj, hz, ?_⟩
      have hline : b.take j = refLine max pre [] := by
        have := hl []
        rw [List.append_nil, hreads, refLine_failed max r hr] at this
        exact this.symm
      exact ⟨hline, by rw [cstr_of_terminator _ _ hz, hline]⟩
  · intro buf2 hres
    rcases hs.2 with ⟨h, _⟩ | ⟨b, j, h, hj, _, _, hz, hl, _⟩
    · rw [h] at hres; cases hres
    · rw [h] at hres
      obtain rfl := Res.ok.inj hres
      refine ⟨j, hj, hz, cstr_of_terminator _ _ hz, ?_⟩
      intro pre r more hreads hr
      have := hl []
      rw [List.append_nil, hreads, refLine_failed max r hr] at this
      exact this.symm
  · intro hmax r rest hrs hr
    subst hrs
    obtain ⟨f, rfl⟩ : ∃ f, fuel = f + 1 := ⟨fuel - 1, by omega⟩
    refine ⟨?_, cstr_set_zero buf (by omega)⟩
    rw [readline_run, readlineLoop_failed max f buf 0 r rest (by omega) hr]

/-- Witness of `readline_on_read_failure`: the character a, its echo, and a failed `read`;
the run returns the line "a". -/
theorem readline_on_read_failure_witness :
    1 ≤ 8 ∧ 8 ≤ (List.replicate 8 0).length ∧
    ([⟨1, 97⟩, ⟨1, 0⟩, ⟨0, 0⟩] : List Reply).length < 4 ∧
    (readline 4 (List.replicate 8 0) 8 [⟨1, 97⟩, ⟨1, 0⟩, ⟨0, 0⟩]).res
      = .ok (97 :: List.replicate 7 0) ∧
    reads (readline 4 (List.replicate 8 0) 8 [⟨1, 97⟩, ⟨1, 0⟩, ⟨0, 0⟩]).trace
      = [⟨1, 97⟩, ⟨0, 0⟩] ∧
    (((readline 4 (List.replicate 8 0) 8 ([⟨1, 97⟩, ⟨1, 0⟩, ⟨0, 0⟩] : List Reply)).res = .halt
        .pending ∨
      ∃ buf2, (readline 4 (List.replicate 8 0) 8 ([⟨1, 97⟩, ⟨1, 0⟩, ⟨0, 0⟩] : List Reply)).res = .ok
          buf2) ∧
    replies (readline 4 (List.replicate 8 0) 8 ([⟨1, 97⟩, ⟨1, 0⟩, ⟨0, 0⟩] : List Reply)).trace ++
        (readline 4 (List.replicate 8 0) 8 ([⟨1, 97⟩, ⟨1, 0⟩, ⟨0, 0⟩] : List Reply)).rest =
        ([⟨1, 97⟩, ⟨1, 0⟩, ⟨0, 0⟩] : List Reply) ∧
    ((readline 4 (List.replicate 8 0) 8 ([⟨1, 97⟩, ⟨1, 0⟩, ⟨0, 0⟩] : List Reply)).res = .halt
        .pending →
      (readline 4 (List.replicate 8 0) 8 ([⟨1, 97⟩, ⟨1, 0⟩, ⟨0, 0⟩] : List Reply)).rest = [] ∧
      (∃ tp, (readline 4 (List.replicate 8 0) 8 ([⟨1, 97⟩, ⟨1, 0⟩, ⟨0, 0⟩] : List
          Reply)).trace.getLast? = some ⟨tp, none⟩) ∧
      ∀ r ∈ reads (readline 4 (List.replicate 8 0) 8 ([⟨1, 97⟩, ⟨1, 0⟩, ⟨0, 0⟩] : List
          Reply)).trace, ¬ r.ret < 1) ∧
    (∀ pre r more, reads (readline 4 (List.replicate 8 0) 8 ([⟨1, 97⟩, ⟨1, 0⟩, ⟨0, 0⟩] : List
        Reply)).trace = pre ++ r :: more → r.ret < 1 →
      more = [] ∧
      ∃ buf2 j, (readline 4 (List.replicate 8 0) 8 ([⟨1, 97⟩, ⟨1, 0⟩, ⟨0, 0⟩] : List Reply)).res =
          .ok buf2 ∧ j + 1 ≤ 8 ∧ buf2[j]? = some 0 ∧
        buf2.take j = refLine 8 pre [] ∧
        cstr buf2 0 = (refLine 8 pre []).takeWhile (fun c => c ≠ 0)) ∧
    (∀ buf2, (readline 4 (List.replicate 8 0) 8 ([⟨1, 97⟩, ⟨1, 0⟩, ⟨0, 0⟩] : List Reply)).res = .ok
        buf2 →
      ∃ j, j + 1 ≤ 8 ∧ buf2[j]? = some 0 ∧
        cstr buf2 0 = (buf2.take j).takeWhile (fun c => c ≠ 0) ∧
        ∀ pre r more, reads (readline 4 (List.replicate 8 0) 8 ([⟨1, 97⟩, ⟨1, 0⟩, ⟨0, 0⟩] : List
            Reply)).trace = pre ++ r :: more → r.ret < 1 →
          buf2.take j = refLine 8 pre []) ∧
    (2 ≤ 8 → ∀ r rest, ([⟨1, 97⟩, ⟨1, 0⟩, ⟨0, 0⟩] : List Reply) = r :: rest → r.ret < 1 →
      readline 4 (List.replicate 8 0) 8 ([⟨1, 97⟩, ⟨1, 0⟩, ⟨0, 0⟩] : List Reply) = ⟨[⟨readTrap, some
          r⟩], rest, .ok ((List.replicate 8 0).set 0 0)⟩ ∧
      cstr ((List.replicate 8 0).set 0 0) 0 = []) ∧
    (∀ (f : Nat) (b : List Nat) (i : Nat) (rest : List Reply), ¬ i + 1 < 8 →
      readlineLoop 8 (f + 1) b i rest = ⟨[], rest, .ok (b, i)⟩) ∧
    (∀ (f : Nat) (b : List Nat) (i : Nat) (r : Reply) (rest : List Reply), i + 1 < 8 →
      r.ret < 1 →
      readlineLoop 8 (f + 1) b i (r :: rest) = ⟨[⟨readTrap, some r⟩], rest, .ok (b, i)⟩) ∧
    (∀ (f : Nat) (b : List Nat) (i : Nat) (r w : Reply) (rest : List Reply), i + 1 < 8 →
      ¬ r.ret < 1 → (r.val.toNat % 256 = 13 ∨ r.val.toNat % 256 = 10) →
      readlineLoop 8 (f + 1) b i (r :: w :: rest)
        = ⟨[⟨readTrap, some r⟩, ⟨printTrap "\n", some w⟩], rest, .ok (b, i)⟩) ∧
    (∀ (f : Nat) (b : List Nat) (i : Nat) (r w : Reply) (rest : List Reply), i + 1 < 8 →
      ¬ r.ret < 1 → ¬ (r.val.toNat % 256 = 13 ∨ r.val.toNat % 256 = 10) →
      (r.val.toNat % 256 = 127 ∨ r.val.toNat % 256 = 8) → i > 0 →
      readlineLoop 8 (f + 1) b i (r :: w :: rest)
        = (readlineLoop 8 f b (i - 1) rest).after
            [⟨readTrap, some r⟩, ⟨writeTrap (bytes "\x08 \x08"), some w⟩]) ∧
    (∀ (f : Nat) (b : List Nat) (r : Reply) (rest : List Reply), 0 + 1 < 8 →
      ¬ r.ret < 1 → ¬ (r.val.toNat % 256 = 13 ∨ r.val.toNat % 256 = 10) →
      (r.val.toNat % 256 = 127 ∨ r.val.toNat % 256 = 8) →
      readlineLoop 8 (f + 1) b 0 (r :: rest)
        = (readlineLoop 8 f b 0 rest).after [⟨readTrap, some r⟩]) ∧
    (∀ (f : Nat) (b : List Nat) (i : Nat) (r w : Reply) (rest : List Reply), i + 1 < 8 →
      ¬ r.ret < 1 → ¬ (r.val.toNat % 256 = 13 ∨ r.val.toNat % 256 = 10) →
      ¬ (r.val.toNat % 256 = 127 ∨ r.val.toNat % 256 = 8) →
      readlineLoop 8 (f + 1) b i (r :: w :: rest)
        = (readlineLoop 8 f (b.set i (r.val.toNat % 256)) (i + 1) rest).after
            [⟨readTrap, some r⟩, ⟨writeTrap [r.val.toNat % 256], some w⟩]) ∧
    (∀ (t : List Event) (rs1 : List Reply) (b : List Nat) (i : Nat),
      readlineLoop 8 4 (List.replicate 8 0) 0 ([⟨1, 97⟩, ⟨1, 0⟩, ⟨0, 0⟩] : List Reply) =
          ⟨t, rs1, .ok (b, i)⟩ →
      readline 4 (List.replicate 8 0) 8 ([⟨1, 97⟩, ⟨1, 0⟩, ⟨0, 0⟩] : List Reply) = ⟨t, rs1, .ok
          (b.set i 0)⟩)) :=
  ⟨by decide, by decide, by decide, by decide, by decide,
    readline_on_read_failure 4 8 (List.replicate 8 0) [⟨1, 97⟩, ⟨1, 0⟩, ⟨0, 0⟩] (by decide)
      (by decide) (by decide)⟩

/-- Claim C20. With `max ≥ 1` and a buffer of at least `max` bytes (and a budget above the
number of replies) `readline` returns or is blocked in a trap, and the replies of its traps
with the replies left over are the replies given.  It is blocked only when no reply is left
and its last trap has no reply; that trap is a `read` only while no `read` has failed, no CR
or LF has been received and the reference line of the input received is shorter than
`max - 1`; otherwise it is the `write` of an echo.  So `readline` returns at a failed `read`,
at CR or LF and at the limit of `max - 1` characters, unless it waits for the reply to an
echo.  When it returns, the buffer has kept its size and its bytes from index `max` on; it
holds a NUL at an index `j ≤ max - 1`; the `j` bytes in front of it are the reference line of
the input the call has received, whatever input might follow; these bytes hold no CR, LF, 127
or 8; and the C string in the buffer is their part before the first NUL byte.  The loop
obeys its equations at every state: it returns at the limit, at a failed `read` and at CR or
LF, a backspace takes the last stored character away if there is one, any other character is
stored at `buf[i]`; and `readline` stores the NUL at the index the loop returns. -/
theorem readline_bounded_reference (fuel max : Nat) (buf : List Nat) (rs : List Reply)
    (h1 : 1 ≤ max) (h2 : max ≤ buf.length) (hf : rs.length < fuel) :
    (((readline fuel buf max rs).res = .halt .pending ∨
      ∃ buf2, (readline fuel buf max rs).res = .ok buf2) ∧
    replies (readline fuel buf max rs).trace ++ (readline fuel buf max rs).rest = rs ∧
    ((readline fuel buf max rs).res = .halt .pending →
      (readline fuel buf max rs).rest = [] ∧
      (((readline fuel buf max rs).trace.getLast? = some ⟨readTrap, none⟩ ∧
          (∀ r ∈ reads (readline fuel buf max rs).trace,
            ¬ r.ret < 1 ∧ r.val.toNat % 256 ≠ 13 ∧ r.val.toNat % 256 ≠ 10) ∧
          (refLine max (reads (readline fuel buf max rs).trace) []).length + 1 < max) ∨
        ∃ s, (readline fuel buf max rs).trace.getLast? = some ⟨writeTrap s, none⟩)) ∧
    (((∃ r ∈ reads (readline fuel buf max rs).trace,
          r.ret < 1 ∨ r.val.toNat % 256 = 13 ∨ r.val.toNat % 256 = 10) ∨
        max ≤ (refLine max (reads (readline fuel buf max rs).trace) []).length + 1) →
      (∀ s, (readline fuel buf max rs).trace.getLast? ≠ some ⟨writeTrap s, none⟩) →
      ∃ buf2, (readline fuel buf max rs).res = .ok buf2) ∧
    (∀ buf2, (readline fuel buf max rs).res = .ok buf2 →
      buf2.length = buf.length ∧ buf2.drop max = buf.drop max ∧
      ∃ j, j ≤ max - 1 ∧ buf2[j]? = some 0 ∧
        (∀ more,
          buf2.take j = refLine max (reads (readline fuel buf max rs).trace ++ more) []) ∧
        (∀ c ∈ buf2.take j, c ≠ 13 ∧ c ≠ 10 ∧ c ≠ 127 ∧ c ≠ 8) ∧
        cstr buf2 0 = (buf2.take j).takeWhile (fun c => c ≠ 0)) ∧
    (∀ (f : Nat) (b : List Nat) (i : Nat) (rest : List Reply), ¬ i + 1 < max →
      readlineLoop max (f + 1) b i rest = ⟨[], rest, .ok (b, i)⟩) ∧
    (∀ (f : Nat) (b : List Nat) (i : Nat) (r : Reply) (rest : List Reply), i + 1 < max →
      r.ret < 1 →
      readlineLoop max (f + 1) b i (r :: rest) = ⟨[⟨readTrap, some r⟩], rest, .ok (b, i)⟩) ∧
    (∀ (f : Nat) (b : List Nat) (i : Nat) (r w : Reply) (rest : List Reply), i + 1 < max →
      ¬ r.ret < 1 → (r.val.toNat % 256 = 13 ∨ r.val.toNat % 256 = 10) →
      readlineLoop max (f + 1) b i (r :: w :: rest)
        = ⟨[⟨readTrap, some r⟩, ⟨printTrap "\n", some w⟩], rest, .ok (b, i)⟩) ∧
    (∀ (f : Nat) (b : List Nat) (i : Nat) (r w : Reply) (rest : List Reply), i + 1 < max →
      ¬ r.ret < 1 → ¬ (r.val.toNat % 256 = 13 ∨ r.val.toNat % 256 = 10) →
      (r.val.toNat % 256 = 127 ∨ r.val.toNat % 256 = 8) → i > 0 →
      readlineLoop max (f + 1) b i (r :: w :: rest)
        = (readlineLoop max f b (i - 1) rest).after
            [⟨readTrap, some r⟩, ⟨writeTrap (bytes "\x08 \x08"), some w⟩]) ∧
    (∀ (f : Nat) (b : List Nat) (r : Reply) (rest : List Reply), 0 + 1 < max →
      ¬ r.ret < 1 → ¬ (r.val.toNat % 256 = 13 ∨ r.val.toNat % 256 = 10) →
      (r.val.toNat % 256 = 127 ∨ r.val.toNat % 256 = 8) →
      readlineLoop max (f + 1) b 0 (r :: rest)
        = (readlineLoop max f b 0 rest).after [⟨readTrap, some r⟩]) ∧
    (∀ (f : Nat) (b : List Nat) (i : Nat) (r w : Reply) (rest : List Reply), i + 1 < max →
      ¬ r.ret < 1 → ¬ (r.val.toNat % 256 = 13 ∨ r.val.toNat % 256 = 10) →
      ¬ (r.val.toNat % 256 = 127 ∨ r.val.toNat % 256 = 8) →
      readlineLoop max (f + 1) b i (r :: w :: rest)
        = (readlineLoop max f (b.set i (r.val.toNat % 256)) (i + 1) rest).after
            [⟨readTrap, some r⟩, ⟨writeTrap [r.val.toNat % 256], some w⟩]) ∧
    (∀ (t : List Event) (rs1 : List Reply) (b : List Nat) (i : Nat),
      readlineLoop max fuel buf 0 rs = ⟨t, rs1, .ok (b, i)⟩ →
      readline fuel buf max rs = ⟨t, rs1, .ok (b.set i 0)⟩)) := by
  have hs := readline_spec fuel max buf rs h1 h2 hf
  refine ⟨readline_res_cases fuel max buf rs h1 h2 hf, hs.1, ?_, ?_, ?_,
    fun f b i rest h => readlineLoop_full max f b i rest h,
    fun f b i r rest h hr => readlineLoop_failed max f b i r rest h hr,
    fun f b i r w rest h hr hn => readlineLoop_newline max f b i r (w :: rest) h hr hn,
    fun f b i r w rest h hr hn hb hi => readlineLoop_backspace max f b i r w rest h hr hn hb hi,
    fun f b r rest h hr hn hb => readlineLoop_backspace_zero max f b r rest h hr hn hb,
    fun f b i r w rest h hr hn hb => readlineLoop_store max f b i r w rest h hr hn hb,
    fun t rs1 b i h => by rw [readline_run, h]⟩
  · intro hp
    rcases hs.2 with ⟨_, hrest, hgood, hcls⟩ | ⟨b, j, h, _⟩
    · refine ⟨hrest, ?_⟩
      rcases hcls with ⟨g1, g2, g3⟩ | ⟨s, g⟩
      · exact Or.inl ⟨g1, fun r hr => ⟨hgood r hr, (g2 r hr).1, (g2 r hr).2⟩, g3⟩
      · exact Or.inr ⟨s, g⟩
    · rw [h] at hp; cases hp
  · intro hstop hnw
    rcases hs.2 with ⟨_, _, hgood, hcls⟩ | ⟨b, j, h, _⟩
    · rcases hcls with ⟨g1, g2, g3⟩ | ⟨s, g⟩
      · rcases hstop with ⟨r, hr, hc | hc | hc⟩ | hlim
        · exact absurd hc (hgood r hr)
        · exact absurd hc (g2 r hr).1
        · exact absurd hc (g2 r hr).2
        · omega
      · exact absurd g (hnw s)
    · exact ⟨b, h⟩
  · intro buf2 hres
    rcases hs.2 with ⟨h, _⟩ | ⟨b, j, h, hj, hlen, hd, hz, hl, _⟩
    · rw [h] at hres; cases hres
    · rw [h] at hres
      obtain rfl := Res.ok.inj hres
      refine ⟨hlen, hd, j, by omega, hz, fun more => (hl more).symm, ?_,
        cstr_of_terminator _ _ hz⟩
      intro c hc
      rw [← hl []] at hc
      rcases refLine_clean max _ [] c hc with h | h
      · exact absurd h (List.not_mem_nil _)
      · exact h

/-- Witness of `readline_bounded_reference`: the input a, b, backspace, c and CR, with the
replies to the echoes in between; the run returns the line "ac". -/
theorem readline_bounded_reference_witness :
    1 ≤ 8 ∧ 8 ≤ (List.replicate 8 0).length ∧
    ([⟨1, 97⟩, ⟨1, 0⟩, ⟨1, 98⟩, ⟨1, 0⟩, ⟨1, 127⟩, ⟨3, 0⟩, ⟨1, 99⟩, ⟨1, 0⟩, ⟨1, 13⟩, ⟨1, 0⟩]
      : List Reply).length < 11 ∧
    readline 11 (List.replicate 8 0) 8
        [⟨1, 97⟩, ⟨1, 0⟩, ⟨1, 98⟩, ⟨1, 0⟩, ⟨1, 127⟩, ⟨3, 0⟩, ⟨1, 99⟩, ⟨1, 0⟩, ⟨1, 13⟩, ⟨1, 0⟩]
      = ⟨[⟨readTrap, some ⟨1, 97⟩⟩, ⟨writeTrap [97], some ⟨1, 0⟩⟩,
          ⟨readTrap, some ⟨1, 98⟩⟩, ⟨writeTrap [98], some ⟨1, 0⟩⟩,
          ⟨readTrap, some ⟨1, 127⟩⟩, ⟨writeTrap (bytes "\x08 \x08"), some ⟨3, 0⟩⟩,
          ⟨readTrap, some ⟨1, 99⟩⟩, ⟨writeTrap [99], some ⟨1, 0⟩⟩,
          ⟨readTrap, some ⟨1, 13⟩⟩, ⟨printTrap "\n", some ⟨1, 0⟩⟩], [],
          .ok [97, 99, 0, 0, 0, 0, 0, 0]⟩ ∧
    (((readline 11 (List.replicate 8 0) 8 ([⟨1, 97⟩, ⟨1, 0⟩, ⟨1, 98⟩, ⟨1, 0⟩, ⟨1, 127⟩, ⟨3, 0⟩,
        ⟨1, 99⟩, ⟨1, 0⟩, ⟨1, 13⟩, ⟨1, 0⟩] : List Reply)).res = .halt .pending ∨
      ∃ buf2, (readline 11 (List.replicate 8 0) 8 ([⟨1, 97⟩, ⟨1, 0⟩, ⟨1, 98⟩, ⟨1, 0⟩, ⟨1, 127⟩,
          ⟨3, 0⟩, ⟨1, 99⟩, ⟨1, 0⟩, ⟨1, 13⟩, ⟨1, 0⟩] : List Reply)).res = .ok buf2) ∧
    replies (readline 11 (List.replicate 8 0) 8 ([⟨1, 97⟩, ⟨1, 0⟩, ⟨1, 98⟩, ⟨1, 0⟩, ⟨1, 127⟩,
        ⟨3, 0⟩, ⟨1, 99⟩, ⟨1, 0⟩, ⟨1, 13⟩, ⟨1, 0⟩] : List Reply)).trace ++ (readline 11
        (List.replicate 8 0) 8 ([⟨1, 97⟩, ⟨1, 0⟩, ⟨1, 98⟩, ⟨1, 0⟩, ⟨1, 127⟩, ⟨3, 0⟩, ⟨1, 99⟩,
        ⟨1, 0⟩, ⟨1, 13⟩, ⟨1, 0⟩] : List Reply)).rest = ([⟨1, 97⟩, ⟨1, 0⟩, ⟨1, 98⟩, ⟨1, 0⟩, ⟨1, 127⟩,
        ⟨3, 0⟩, ⟨1, 99⟩, ⟨1, 0⟩, ⟨1, 13⟩, ⟨1, 0⟩] : List Reply) ∧
    ((readline 11 (List.replicate 8 0) 8 ([⟨1, 97⟩, ⟨1, 0⟩, ⟨1, 98⟩, ⟨1, 0⟩, ⟨1, 127⟩, ⟨3, 0⟩,
        ⟨1, 99⟩, ⟨1, 0⟩, ⟨1, 13⟩, ⟨1, 0⟩] : List Reply)).res = .halt .pending →
      (readline 11 (List.replicate 8 0) 8 ([⟨1, 97⟩, ⟨1, 0⟩, ⟨1, 98⟩, ⟨1, 0⟩, ⟨1, 127⟩, ⟨3, 0⟩,
          ⟨1, 99⟩, ⟨1, 0⟩, ⟨1, 13⟩, ⟨1, 0⟩] : List Reply)).rest = [] ∧
      (((readline 11 (List.replicate 8 0) 8 ([⟨1, 97⟩, ⟨1, 0⟩, ⟨1, 98⟩, ⟨1, 0⟩, ⟨1, 127⟩, ⟨3, 0⟩,
          ⟨1, 99⟩, ⟨1, 0⟩, ⟨1, 13⟩, ⟨1, 0⟩] : List Reply)).trace.getLast? = some ⟨readTrap, none⟩ ∧
          (∀ r ∈ reads (readline 11 (List.replicate 8 0) 8 ([⟨1, 97⟩, ⟨1, 0⟩, ⟨1, 98⟩, ⟨1, 0⟩,
              ⟨1, 127⟩, ⟨3, 0⟩, ⟨1, 99⟩, ⟨1, 0⟩, ⟨1, 13⟩, ⟨1, 0⟩] : List Reply)).trace,
            ¬ r.ret < 1 ∧ r.val.toNat % 256 ≠ 13 ∧ r.val.toNat % 256 ≠ 10) ∧
          (refLine 8 (reads (readline 11 (List.replicate 8 0) 8 ([⟨1, 97⟩, ⟨1, 0⟩, ⟨1, 98⟩, ⟨1, 0⟩,
              ⟨1, 127⟩, ⟨3, 0⟩, ⟨1, 99⟩, ⟨1, 0⟩, ⟨1, 13⟩, ⟨1, 0⟩] : List Reply)).trace) []).length +
              1 < 8) ∨
        ∃ s, (readline 11 (List.replicate 8 0) 8 ([⟨1, 97⟩, ⟨1, 0⟩, ⟨1, 98⟩, ⟨1, 0⟩, ⟨1, 127⟩,
            ⟨3, 0⟩, ⟨1, 99⟩, ⟨1, 0⟩, ⟨1, 13⟩, ⟨1, 0⟩] : List Reply)).trace.getLast? = some
            ⟨writeTrap s, none⟩)) ∧
    (((∃ r ∈ reads (readline 11 (List.replicate 8 0) 8 ([⟨1, 97⟩, ⟨1, 0⟩, ⟨1, 98⟩, ⟨1, 0⟩, ⟨1, 127⟩,
        ⟨3, 0⟩, ⟨1, 99⟩, ⟨1, 0⟩, ⟨1, 13⟩, ⟨1, 0⟩] : List Reply)).trace,
          r.ret < 1 ∨ r.val.toNat % 256 = 13 ∨ r.val.toNat % 256 = 10) ∨
        8 ≤ (refLine 8 (reads (readline 11 (List.replicate 8 0) 8 ([⟨1, 97⟩, ⟨1, 0⟩, ⟨1, 98⟩,
            ⟨1, 0⟩, ⟨1, 127⟩, ⟨3, 0⟩, ⟨1, 99⟩, ⟨1, 0⟩, ⟨1, 13⟩, ⟨1, 0⟩] : List Reply)).trace)
            []).length + 1) →
      (∀ s, (readline 11 (List.replicate 8 0) 8 ([⟨1, 97⟩, ⟨1, 0⟩, ⟨1, 98⟩, ⟨1, 0⟩, ⟨1, 127⟩,
          ⟨3, 0⟩, ⟨1, 99⟩, ⟨1, 0⟩, ⟨1, 13⟩, ⟨1, 0⟩] : List Reply)).trace.getLast? ≠ some ⟨writeTrap
          s, none⟩) →
      ∃ buf2, (readline 11 (List.replicate 8 0) 8 ([⟨1, 97⟩, ⟨1, 0⟩, ⟨1, 98⟩, ⟨1, 0⟩, ⟨1, 127⟩,
          ⟨3, 0⟩, ⟨1, 99⟩, ⟨1, 0⟩, ⟨1, 13⟩, ⟨1, 0⟩] : List Reply)).res = .ok buf2) ∧
    (∀ buf2, (readline 11 (List.replicate 8 0) 8 ([⟨1, 97⟩, ⟨1, 0⟩, ⟨1, 98⟩, ⟨1, 0⟩, ⟨1, 127⟩,
        ⟨3, 0⟩, ⟨1, 99⟩, ⟨1, 0⟩, ⟨1, 13⟩, ⟨1, 0⟩] : List Reply)).res = .ok buf2 →
      buf2.length = (List.replicate 8 0).length ∧ buf2.drop 8 = (List.replicate 8 0).drop 8 ∧
      ∃ j, j ≤ 8 - 1 ∧ buf2[j]? = some 0 ∧
        (∀ more,
          buf2.take j = refLine 8 (reads (readline 11 (List.replicate 8 0) 8 ([⟨1, 97⟩, ⟨1, 0⟩,
              ⟨1, 98⟩, ⟨1, 0⟩, ⟨1, 127⟩, ⟨3, 0⟩, ⟨1, 99⟩, ⟨1, 0⟩, ⟨1, 13⟩, ⟨1, 0⟩] : List
              Reply)).trace ++ more) []) ∧
        (∀ c ∈ buf2.take j, c ≠ 13 ∧ c ≠ 10 ∧ c ≠ 127 ∧ c ≠ 8) ∧
        cstr buf2 0 = (buf2.take j).takeWhile (fun c => c ≠ 0)) ∧
    (∀ (f : Nat) (b : List Nat) (i : Nat) (rest : List Reply), ¬ i + 1 < 8 →
      readlineLoop 8 (f + 1) b i rest = ⟨[], rest, .ok (b, i)⟩) ∧
    (∀ (f : Nat) (b : List Nat) (i : Nat) (r : Reply) (rest : List Reply), i + 1 < 8 →
      r.ret < 1 →
      readlineLoop 8 (f + 1) b i (r :: rest) = ⟨[⟨readTrap, some r⟩], rest, .ok (b, i)⟩) ∧
    (∀ (f : Nat) (b : List Nat) (i : Nat) (r w : Reply) (rest : List Reply), i + 1 < 8 →
      ¬ r.ret < 1 → (r.val.toNat % 256 = 13 ∨ r.val.toNat % 256 = 10) →
      readlineLoop 8 (f + 1) b i (r :: w :: rest)
        = ⟨[⟨readTrap, some r⟩, ⟨printTrap "\n", some w⟩], rest, .ok (b, i)⟩) ∧
    (∀ (f : Nat) (b : List Nat) (i : Nat) (r w : Reply) (rest : List Reply), i + 1 < 8 →
      ¬ r.ret < 1 → ¬ (r.val.toNat % 256 = 13 ∨ r.val.toNat % 256 = 10) →
      (r.val.toNat % 256 = 127 ∨ r.val.toNat % 256 = 8) → i > 0 →
      readlineLoop 8 (f + 1) b i (r :: w :: rest)
        = (readlineLoop 8 f b (i - 1) rest).after
            [⟨readTrap, some r⟩, ⟨writeTrap (bytes "\x08 \x08"), some w⟩]) ∧
    (∀ (f : Nat) (b : List Nat) (r : Reply) (rest : List Reply), 0 + 1 < 8 →
      ¬ r.ret < 1 → ¬ (r.val.toNat % 256 = 13 ∨ r.val.toNat % 256 = 10) →
      (r.val.toNat % 256 = 127 ∨ r.val.toNat % 256 = 8) →
      readlineLoop 8 (f + 1) b 0 (r :: rest)
        = (readlineLoop 8 f b 0 rest).after [⟨readTrap, some r⟩]) ∧
    (∀ (f : Nat) (b : List Nat) (i : Nat) (r w : Reply) (rest : List Reply), i + 1 < 8 →
      ¬ r.ret < 1 → ¬ (r.val.toNat % 256 = 13 ∨ r.val.toNat % 256 = 10) →
      ¬ (r.val.toNat % 256 = 127 ∨ r.val.toNat % 256 = 8) →
      readlineLoop 8 (f + 1) b i (r :: w :: rest)
        = (readlineLoop 8 f (b.set i (r.val.toNat % 256)) (i + 1) rest).after
            [⟨readTrap, some r⟩, ⟨writeTrap [r.val.toNat % 256], some w⟩]) ∧
    (∀ (t : List Event) (rs1 : List Reply) (b : List Nat) (i : Nat),
      readlineLoop 8 11 (List.replicate 8 0) 0 ([⟨1, 97⟩, ⟨1, 0⟩, ⟨1, 98⟩, ⟨1, 0⟩, ⟨1, 127⟩, ⟨3, 0⟩,
          ⟨1, 99⟩, ⟨1, 0⟩, ⟨1, 13⟩, ⟨1, 0⟩] : List Reply) = ⟨t, rs1, .ok (b, i)⟩ →
      readline 11 (List.replicate 8 0) 8 ([⟨1, 97⟩, ⟨1, 0⟩, ⟨1, 98⟩, ⟨1, 0⟩, ⟨1, 127⟩, ⟨3, 0⟩,
          ⟨1, 99⟩, ⟨1, 0⟩, ⟨1, 13⟩, ⟨1, 0⟩] : List Reply) = ⟨t, rs1, .ok (b.set i 0)⟩)) :=
  ⟨by decide, by decide, by decide, by decide,
    readline_bounded_reference 11 8 (List.replicate 8 0)
      [⟨1, 97⟩, ⟨1, 0⟩, ⟨1, 98⟩, ⟨1, 0⟩, ⟨1, 127⟩, ⟨3, 0⟩, ⟨1, 99⟩, ⟨1, 0⟩, ⟨1, 13⟩, ⟨1, 0⟩]
      (by decide) (by decide) (by decide)⟩

/-! ## usertests.c: exitwait -/

theorem print_cstr_bind_cons {β : Type} (m : List Nat) (f : Unit → Proc β) (r : Reply)
    (rs : List Reply) :
    (print m >>= f) (r :: rs) = (f () rs).after [⟨writeTrap (cstr m 0), some r⟩] :=
  print_mem_bind_cons m f r rs

theorem exit_bind_run {α β : Type} (code : Int) (f : α → Proc β) (rs : List Reply) :
    ((exit code : Proc α) >>= f) rs
      = ⟨[⟨exitTrap code, rs.head?⟩], rs.tail,
          .halt (if rs = [] then Halt.pending else Halt.spin)⟩ := by
  rw [bind_run, exit_run]

/-- The loop of `exitwait` is left when `i` has reached 50. -/
theorem exitwaitLoop_done (s : List Nat) (fuel : Nat) (i : Int) (rs : List Reply)
    (h : ¬ i < 50) : exitwaitLoop s (fuel + 1) i rs = ⟨[], rs, .ok ()⟩ := by
  simp only [exitwaitLoop, if_neg h]
  rfl

/-- The loop of `exitwait` blocks in `fork` when no reply comes. -/
theorem exitwaitLoop_blocked (s : List Nat) (fuel : Nat) (i : Int) (h : i < 50) :
    exitwaitLoop s (fuel + 1) i [] = ⟨[⟨forkTrap, none⟩], [], .halt .pending⟩ := by
  simp only [exitwaitLoop, if_pos h, fork, bind_assoc_run, syscall_bind_nil]
  rfl

/-- The child branch: `fork` returned 0 and the child calls `exit(i)`. -/
theorem exitwaitLoop_child (s : List Nat) (fuel : Nat) (i : Int) (rf : Reply)
    (rs : List Reply) (h : i < 50) (h0 : rf.ret = 0) :
    exitwaitLoop s (fuel + 1) i (rf :: rs)
      = ⟨[⟨forkTrap, some rf⟩, ⟨exitTrap i, rs.head?⟩], rs.tail,
          .halt (if rs = [] then Halt.pending else Halt.spin)⟩ := by
  have h1 : ¬ rf.ret < 0 := by omega
  have h2 : ¬ rf.ret ≠ 0 := fun hne => hne h0
  simp only [exitwaitLoop, if_pos h, fork, bind_assoc_run, syscall_bind_cons, pure_bind_run,
    if_neg h1, if_neg h2, exit_bind_run]
  rfl

/-- A failed `fork`: the diagnostic and `exit(1)`. -/
theorem exitwaitLoop_fork_failed (s : List Nat) (fuel : Nat) (i : Int) (rf w1 w2 : Reply)
    (rs : List Reply) (h : i < 50) (h0 : rf.ret < 0) :
    exitwaitLoop s (fuel + 1) i (rf :: w1 :: w2 :: rs)
      = ⟨[⟨forkTrap, some rf⟩, ⟨writeTrap (cstr s 0), some w1⟩,
          ⟨printTrap ": fork failed\n", some w2⟩, ⟨exitTrap 1, rs.head?⟩], rs.tail,
          .halt (if rs = [] then Halt.pending else Halt.spin)⟩ := by
  simp only [exitwaitLoop, if_pos h, fork, bind_assoc_run, syscall_bind_cons, pure_bind_run,
    if_pos h0, print_cstr_bind_cons, print_lit_bind_cons ": fork failed\n" (by decide),
    after_after,
    exit_bind_run]
  rfl

/-- An accepted iteration: `wait` returned the pid of `fork` and stored the status `i`; the
loop goes on with `i + 1`. -/
theorem exitwaitLoop_accepted (s : List Nat) (fuel : Nat) (i : Int) (rf rw : Reply)
    (rs : List Reply) (h : i < 50) (h0 : 0 < rf.ret) (hpid : rw.ret = rf.ret)
    (hst : rw.val = i) :
    exitwaitLoop s (fuel + 1) i (rf :: rw :: rs)
      = (exitwaitLoop s fuel (i + 1) rs).after
          [⟨forkTrap, some rf⟩, ⟨waitTrap, some rw⟩] := by
  have h1 : ¬ rf.ret < 0 := by omega
  have h2 : rf.ret ≠ 0 := by omega
  simp only [exitwaitLoop, if_pos h, fork, wait, bind_assoc_run, syscall_bind_cons,
    pure_bind_run, if_neg h1, ne_eq, h2, not_false_eq_true, if_true, hpid, hst,
    not_true_eq_false, if_false, after_after]
  rfl

/-- The parent blocks in `wait` when no reply comes. -/
theorem exitwaitLoop_wait_blocked (s : List Nat) (fuel : Nat) (i : Int) (rf : Reply)
    (h : i < 50) (h0 : 0 < rf.ret) :
    exitwaitLoop s (fuel + 1) i [rf]
      = ⟨[⟨forkTrap, some rf⟩, ⟨waitTrap, none⟩], [], .halt .pending⟩ := by
  have h1 : ¬ rf.ret < 0 := by omega
  have h2 : rf.ret ≠ 0 := by omega
  simp only [exitwaitLoop, if_pos h, fork, wait, bind_assoc_run, syscall_bind_cons,
    pure_bind_run, if_neg h1, ne_eq, h2, not_false_eq_true, if_true, syscall_bind_nil]
  rfl

/-- A wrong pid from `wait`: the diagnostic and `exit(1)`. -/
theorem exitwaitLoop_wrong_pid (s : List Nat) (fuel : Nat) (i : Int) (rf rw w1 w2 : Reply)
    (rs : List Reply) (h : i < 50) (h0 : 0 < rf.ret) (hpid : rw.ret ≠ rf.ret) :
    exitwaitLoop s (fuel + 1) i (rf :: rw :: w1 :: w2 :: rs)
      = ⟨[⟨forkTrap, some rf⟩, ⟨waitTrap, some rw⟩, ⟨writeTrap (cstr s 0), some w1⟩,
          ⟨printTrap ": wait wrong pid\n", some w2⟩, ⟨exitTrap 1, rs.head?⟩], rs.tail,
          .halt (if rs = [] then Halt.pending else Halt.spin)⟩ := by
  have h1 : ¬ rf.ret < 0 := by omega
  have h2 : rf.ret ≠ 0 := by omega
  simp only [exitwaitLoop, if_pos h, fork, wait, bind_assoc_run, syscall_bind_cons,
    pure_bind_run, if_neg h1, ne_eq, h2, not_false_eq_true, if_true, hpid,
    print_cstr_bind_cons, print_lit_bind_cons ": wait wrong pid\n" (by decide), after_after,
    exit_bind_run]
  rfl

theorem print_int_bind_cons {β : Type} (n : Int) (b : List Nat) (hb : itoa n = some b)
    (f : Unit → Proc β) (r : Reply) (rs : List Reply) :
    (print_int n >>= f) (r :: rs) = (f () rs).after [⟨writeTrap (cstr b 0), some r⟩] := by
  have p : print_int n = print b := by simp only [print_int, hb]
  rw [p, print_cstr_bind_cons]

/-- A wrong status from `wait`: the diagnostic with both numbers and `exit(1)`. -/
theorem exitwaitLoop_wrong_status (s : List Nat) (fuel : Nat) (i : Int)
    (rf rw w1 w2 w3 w4 w5 w6 : Reply) (rs : List Reply) (bi bx : List Nat) (h : i < 50)
    (h0 : 0 < rf.ret) (hpid : rw.ret = rf.ret) (hst : rw.val ≠ i) (hbi : itoa i = some bi)
    (hbx : itoa rw.val = some bx) :
    exitwaitLoop s (fuel + 1) i (rf :: rw :: w1 :: w2 :: w3 :: w4 :: w5 :: w6 :: rs)
      = ⟨[⟨forkTrap, some rf⟩, ⟨waitTrap, some rw⟩, ⟨writeTrap (cstr s 0), some w1⟩,
          ⟨printTrap ": wait wrong exit status. Expected ", some w2⟩,
          ⟨writeTrap (cstr bi 0), some w3⟩, ⟨printTrap " got ", some w4⟩,
          ⟨writeTrap (cstr bx 0), some w5⟩, ⟨printTrap "\n", some w6⟩,
          ⟨exitTrap 1, rs.head?⟩], rs.tail,
          .halt (if rs = [] then Halt.pending else Halt.spin)⟩ := by
  have h1 : ¬ rf.ret < 0 := by omega
  have h2 : rf.ret ≠ 0 := by omega
  have h3 : i ≠ rw.val := fun e => hst e.symm
  simp only [exitwaitLoop, if_pos h, fork, wait, bind_assoc_run, syscall_bind_cons,
    pure_bind_run, if_neg h1, ne_eq, h2, not_false_eq_true, if_true, hpid, not_true_eq_false,
    if_false, h3, after_after]
  rw [print_cstr_bind_cons,
    print_lit_bind_cons ": wait wrong exit status. Expected " (by decide),
    print_int_bind_cons i bi hbi, print_lit_bind_cons " got " (by decide),
    print_int_bind_cons rw.val bx hbx, print_lit_bind_cons "\n" (by decide), exit_bind_run]
  rfl

theorem after_res {α : Type} (o : Out α) (t : List Event) : (o.after t).res = o.res := rfl

theorem exit_bind_never_returns {α β : Type} (code : Int) (f : α → Proc β) :
    ∀ rs b, ((exit code >>= f) rs).res ≠ .ok b :=
  bind_left_never_returns _ _ (fun rs a => (exit_never_returns code rs a).2)

/-- After a failed `fork` the loop of `exitwait` does not return. -/
theorem exitwaitLoop_fork_failed_res (s : List Nat) (fuel : Nat) (i : Int) (rf : Reply)
    (rs : List Reply) (h : i < 50) (h0 : rf.ret < 0) :
    (exitwaitLoop s (fuel + 1) i (rf :: rs)).res ≠ .ok () := by
  simp only [exitwaitLoop, if_pos h, fork, bind_assoc_run, syscall_bind_cons, pure_bind_run,
    if_pos h0, after_res]
  exact bind_never_returns _ _ (fun _ => bind_never_returns _ _
    (fun _ => exit_bind_never_returns 1 _)) rs ()

/-- After a `wait` that returned another pid or stored another status the loop of `exitwait`
does not return. -/
theorem exitwaitLoop_rejected_res (s : List Nat) (fuel : Nat) (i : Int) (rf rw : Reply)
    (rs : List Reply) (h : i < 50) (h0 : 0 < rf.ret)
    (hrej : ¬ (rw.ret = rf.ret ∧ rw.val = i)) :
    (exitwaitLoop s (fuel + 1) i (rf :: rw :: rs)).res ≠ .ok () := by
  have h1 : ¬ rf.ret < 0 := by omega
  have h2 : rf.ret ≠ 0 := by omega
  simp only [exitwaitLoop, if_pos h, fork, wait, bind_assoc_run, syscall_bind_cons,
    pure_bind_run, if_neg h1, ne_eq, h2, not_false_eq_true, if_true, after_res]
  by_cases hpid : rw.ret = rf.ret
  · have h3 : ¬ i = rw.val := fun e => hrej ⟨hpid, e.symm⟩
    simp only [hpid, not_true_eq_false, if_false, pure_bind_run, h3, not_false_eq_true,
      if_true]
    exact bind_never_returns _ _ (fun _ => bind_never_returns _ _ (fun _ =>
      bind_never_returns _ _ (fun _ => bind_never_returns _ _ (fun _ =>
      bind_never_returns _ _ (fun _ => bind_never_returns _ _
      (fun _ => exit_bind_never_returns 1 _)))))) rs ()
  · simp only [hpid, not_false_eq_true, if_true]
    exact bind_never_returns _ _ (fun _ => bind_never_returns _ _
      (fun _ => exit_bind_never_returns 1 _)) rs ()

/-- A run of accepted iterations: the loop of `exitwait` issues `fork` and `wait` for each
of them and goes on behind them. -/
theorem exitwaitLoop_accepted_prefix (s : List Nat) :
    ∀ (ps : List (Reply × Reply)) (i : Int) (fuel : Nat) (rest : List Reply),
      acceptedFrom i ps = true → i + ps.length ≤ 50 →
      exitwaitLoop s (fuel + ps.length) i (pairReplies ps ++ rest)
        = (exitwaitLoop s fuel (i + ps.length) rest).after (pairEvents ps) := by
  intro ps
  induction ps with
  | nil =>
    intro i fuel rest _ _
    simp [pairReplies, pairEvents, Out.after]
  | cons p ps ih =>
    intro i fuel rest hacc hlen
    obtain ⟨rf, rw⟩ := p
    simp only [acceptedFrom, Bool.and_eq_true, decide_eq_true_eq] at hacc
    obtain ⟨⟨⟨h0, hpid⟩, hst⟩, hps⟩ := hacc
    simp only [List.length_cons, Nat.cast_add, Nat.cast_one] at hlen
    have hi : i < 50 := by omega
    have e := exitwaitLoop_accepted s (fuel + ps.length) i rf rw (pairReplies ps ++ rest) hi h0
      hpid hst
    have e2 := ih (i + 1) fuel rest hps (by omega)
    have e3 : i + 1 + (ps.length : Int) = i + ((ps.length + 1 : Nat) : Int) := by
      push_cast; omega
    rw [e3] at e2
    simp only [pairReplies, pairEvents, List.cons_append, List.length_cons]
    rw [show fuel + (ps.length + 1) = fuel + ps.length + 1 from rfl, e, e2, after_after]
    rfl

/-- When the loop of `exitwait` returns, all its iterations from `i` on were accepted. -/
theorem exitwaitLoop_ok (s : List Nat) : ∀ (fuel : Nat) (i : Int) (rs : List Reply),
    (exitwaitLoop s fuel i rs).res = .ok () →
    ∃ ps, acceptedFrom i ps = true ∧ (i < 50 → i + ps.length = 50) ∧
      rs = pairReplies ps ++ (exitwaitLoop s fuel i rs).rest ∧
      (exitwaitLoop s fuel i rs).trace = pairEvents ps := by
  intro fuel
  induction fuel with
  | zero => intro i rs h; cases h
  | succ f ih =>
    intro i rs hres
    by_cases hi : i < 50
    swap
    · rw [exitwaitLoop_done s f i rs hi]
      exact ⟨[], rfl, fun h => absurd h hi, rfl, rfl⟩
    cases rs with
    | nil => rw [exitwaitLoop_blocked s f i hi] at hres; cases hres
    | cons rf rs =>
      by_cases h0 : rf.ret < 0
      · exact absurd hres (exitwaitLoop_fork_failed_res s f i rf rs hi h0)
      by_cases hz : rf.ret = 0
      · rw [exitwaitLoop_child s f i rf rs hi hz] at hres; cases hres
      have hpos : 0 < rf.ret := by omega
      cases rs with
      | nil => rw [exitwaitLoop_wait_blocked s f i rf hi hpos] at hres; cases hres
      | cons rw rs =>
        by_cases hacc : rw.ret = rf.ret ∧ rw.val = i
        swap
        · exact absurd hres (exitwaitLoop_rejected_res s f i rf rw rs hi hpos hacc)
        have e := exitwaitLoop_accepted s f i rf rw rs hi hpos hacc.1 hacc.2
        rw [e] at hres ⊢
        obtain ⟨ps, h1, h2, h3, h4⟩ := ih (i + 1) rs hres
        refine ⟨(rf, rw) :: ps, ?_, fun _ => ?_, ?_, ?_⟩
        · simp [acceptedFrom, hpos, hacc.1, hacc.2, h1]
        · by_cases hnext : i + 1 < 50
          · have := h2 hnext
            simp only [List.length_cons, Nat.cast_add, Nat.cast_one]
            omega
          · cases f with
            | zero => cases hres
            | succ f2 =>
              rw [exitwaitLoop_done s f2 (i + 1) rs hnext] at h4
              cases ps with
              | nil => simp only [List.length_cons, List.length_nil]; omega
              | cons p ps => obtain ⟨a, b⟩ := p; cases h4
        · simp only [pairReplies, List.cons_append, Out.after]
          rw [← h3]
        · simp only [pairEvents, Out.after, h4]
          rfl

theorem print_cstr_bind_nil {β : Type} (m : List Nat) (f : Unit → Proc β) :
    (print m >>= f) [] = ⟨[⟨writeTrap (cstr m 0), none⟩], [], .halt .pending⟩ := by
  simp only [print, write, take_strlen, bind_assoc_run, syscall_bind_nil]
  rw [strlen_eq]
  rfl

/-- The function `exitwait` after its heading: the loop, and behind it the two prints of the
verdict. -/
theorem exitwait_run (s : List Nat) (h1 h2 h3 : Reply) (rs : List Reply) :
    exitwait s (h1 :: h2 :: h3 :: rs)
      = ((exitwaitLoop s 51 0 >>= fun _ => do print s; print (lit ": OK\n")) rs).after
          (headingEvents s h1 h2 h3) := by
  simp only [exitwait, bind_assoc_run, print_lit_bind_cons "\n--- Test: " (by decide),
    print_cstr_bind_cons, print_lit_bind_cons " ---\n" (by decide), after_after]
  rfl

/-- The function `exitwait` returns only on at least three replies to its heading. -/
theorem exitwait_heading (s : List Nat) (rs : List Reply) (h : (exitwait s rs).res = .ok ()) :
    ∃ h1 h2 h3 rs1, rs = h1 :: h2 :: h3 :: rs1 := by
  rcases rs with _ | ⟨h1, _ | ⟨h2, _ | ⟨h3, rs1⟩⟩⟩
  · simp only [exitwait, bind_assoc_run, print_lit_bind_nil "\n--- Test: " (by decide)] at h
    cases h
  · simp only [exitwait, bind_assoc_run, print_lit_bind_cons "\n--- Test: " (by decide),
      print_cstr_bind_nil, after_res] at h
    cases h
  · simp only [exitwait, bind_assoc_run, print_lit_bind_cons "\n--- Test: " (by decide),
      print_cstr_bind_cons, print_lit_bind_nil " ---\n" (by decide), after_res] at h
    cases h
  · exact ⟨h1, h2, h3, rs1, rfl⟩

/-- The verdict `print(s); print(": OK\n");` on its two replies. -/
theorem verdict_run (s : List Nat) (w1 w2 : Reply) (rest : List Reply) :
    (do print s; print (lit ": OK\n") : Proc Unit) (w1 :: w2 :: rest)
      = ⟨[⟨writeTrap (cstr s 0), some w1⟩, ⟨printTrap ": OK\n", some w2⟩], rest, .ok ()⟩ := by
  simp only [print_cstr_bind_cons, print_lit_cons ": OK\n" (by decide)]
  rfl

/-- The verdict returns only on two replies. -/
theorem verdict_ok (s : List Nat) (rs : List Reply)
    (h : ((do print s; print (lit ": OK\n") : Proc Unit) rs).res = .ok ()) :
    ∃ w1 w2 rest, rs = w1 :: w2 :: rest := by
  rcases rs with _ | ⟨w1, _ | ⟨w2, rest⟩⟩
  · simp only [print_cstr_bind_nil] at h
    cases h
  · simp only [print_cstr_bind_cons, print_lit_nil ": OK\n" (by decide), after_res] at h
    cases h
  · exact ⟨w1, w2, rest, rfl⟩

/-- All 50 iterations accepted: `exitwait` prints the verdict and returns. -/
theorem exitwait_all_accepted (s : List Nat) (ps : List (Reply × Reply)) (h1 h2 h3 w1 w2 : Reply)
    (rest : List Reply) (hacc : acceptedFrom 0 ps = true) (hlen : ps.length = 50) :
    exitwait s (h1 :: h2 :: h3 :: (pairReplies ps ++ w1 :: w2 :: rest))
      = ⟨headingEvents s h1 h2 h3 ++ pairEvents ps
          ++ [⟨writeTrap (cstr s 0), some w1⟩, ⟨printTrap ": OK\n", some w2⟩], rest,
          .ok ()⟩ := by
  have e := exitwaitLoop_accepted_prefix s ps 0 1 (w1 :: w2 :: rest) hacc (by omega)
  rw [hlen] at e
  rw [exitwait_run, bind_run, show (51 : Nat) = 1 + 50 from rfl, e,
    exitwaitLoop_done s 0 _ _ (by norm_num)]
  simp only [Out.after, List.append_nil, verdict_run, List.append_assoc]

/-- An accepted prefix of fewer than 50 iterations and then an iteration in which the loop
halts: `exitwait` halts there, and the verdict is not printed. -/
theorem exitwait_after_prefix (s : List Nat) (ps : List (Reply × Reply)) (h1 h2 h3 : Reply)
    (rs rest : List Reply) (t : List Event) (h : Halt) (hacc : acceptedFrom 0 ps = true)
    (hlen : ps.length < 50)
    (hrun : exitwaitLoop s (50 - ps.length + 1) ps.length rs = ⟨t, rest, .halt h⟩) :
    exitwait s (h1 :: h2 :: h3 :: (pairReplies ps ++ rs))
      = ⟨headingEvents s h1 h2 h3 ++ pairEvents ps ++ t, rest, .halt h⟩ := by
  have e := exitwaitLoop_accepted_prefix s ps 0 (50 - ps.length + 1) rs hacc (by omega)
  rw [show 50 - ps.length + 1 + ps.length = 51 by omega, zero_add, hrun] at e
  rw [exitwait_run, bind_run, e]
  simp only [Out.after, List.append_assoc]

/-- When `exitwait` returns, all 50 iterations were accepted and the verdict was printed. -/
theorem exitwait_ok (s : List Nat) (rs : List Reply) (h : (exitwait s rs).res = .ok ()) :
    ∃ g1 g2 g3 qs v1 v2, qs.length = 50 ∧ acceptedFrom 0 qs = true ∧
      rs = g1 :: g2 :: g3 :: (pairReplies qs ++ v1 :: v2 :: (exitwait s rs).rest) ∧
      (exitwait s rs).trace = headingEvents s g1 g2 g3 ++ pairEvents qs
        ++ [⟨writeTrap (cstr s 0), some v1⟩, ⟨printTrap ": OK\n", some v2⟩] := by
  obtain ⟨g1, g2, g3, rs1, rfl⟩ := exitwait_heading s rs h
  rw [exitwait_run, after_res, bind_run] at h
  rw [exitwait_run, bind_run]
  have hok := exitwaitLoop_ok s 51 0 rs1
  rcases hloop : exitwaitLoop s 51 0 rs1 with ⟨t, rs2, u | hh⟩
  · rw [hloop] at h hok
    obtain ⟨qs, hq1, hq2, hq3, hq4⟩ := hok rfl
    simp only [after_res] at h
    obtain ⟨v1, v2, rest, rfl⟩ := verdict_ok s rs2 h
    have hlen : qs.length = 50 := by
      have := hq2 (by norm_num)
      omega
    refine ⟨g1, g2, g3, qs, v1, v2, hlen, hq1, ?_, ?_⟩
    · simp only [verdict_run, Out.after]
      rw [hq3]
    · simp only [verdict_run, Out.after, List.append_assoc]
      rw [← hq4]
  · rw [hloop] at h
    cases h

theorem cstr_canonical (n : Nat) : cstr (canonical (n : Int) ++ [0]) 0 = canonical (n : Int) := by
  unfold cstr
  rw [List.drop_zero]
  refine takeWhile_nonzero _ [] (fun c hc => ?_)
  have hnn : ¬ ((n : Int) < 0) := by omega
  by_cases h0 : (n : Int) = 0
  · simp only [canonical, if_pos h0, List.mem_singleton] at hc
    omega
  · simp only [canonical, if_neg h0, if_neg hnn] at hc
    exact decimal_nonzero _ c hc

/-- On every 32-bit `int` the loops of `itoa` end within their budget. -/
theorem itoa_total (z : Int) (h1 : -2147483648 ≤ z) (h2 : z < 2147483648) :
    ∃ b, itoa z = some b := by
  by_cases h : z = -2147483648
  · subst h
    exact ⟨[45, 0], by decide⟩
  · exact ⟨_, itoa_canonical z (by omega) h2⟩

theorem acceptedFrom_take : ∀ (ps : List (Reply × Reply)) (i : Int) (k : Nat),
    acceptedFrom i ps = true → acceptedFrom i (ps.take k) = true := by
  intro ps
  induction ps with
  | nil => intro i k h; simpa using h
  | cons p ps ih =>
    intro i k h
    cases k with
    | zero => rfl
    | succ k =>
      obtain ⟨rf, rw⟩ := p
      simp only [acceptedFrom, Bool.and_eq_true, decide_eq_true_eq] at h
      simp only [List.take_succ_cons, acceptedFrom, Bool.and_eq_true, decide_eq_true_eq]
      exact ⟨h.1, ih (i + 1) k h.2⟩

/-- Claim C17. Let `ps` be 50 pairs of replies to `fork` and `wait` that are accepted from
iteration 0 on (each `fork` returned a positive pid, each `wait` returned exactly that pid and
stored exactly the number of the iteration).  On these replies `exitwait` issues `fork` and
`wait` 50 times, prints the name and ": OK" and returns.  Conversely, whenever `exitwait`
returns, its replies were 50 accepted pairs and its last two traps printed the name and
": OK".  In iteration `k < 50`, behind the accepted iterations before it: the process that
`fork` returned 0 to calls `exit(k)`; on a failed `fork`, on a `wait` that returned another
pid, and on a `wait` that stored another status, the parent prints the diagnostic and calls
`exit(1)`, and no verdict is printed. -/
theorem exitwait_oracle (s : List Nat) (ps : List (Reply × Reply)) (k : Nat)
    (h1 h2 h3 rf rw w1 w2 w3 w4 w5 w6 : Reply) (rest : List Reply)
    (hacc : acceptedFrom 0 ps = true) (hlen : ps.length = 50) (hk : k < 50) :
    (exitwait s (h1 :: h2 :: h3 :: (pairReplies ps ++ w1 :: w2 :: rest))
      = ⟨headingEvents s h1 h2 h3 ++ pairEvents ps
          ++ [⟨writeTrap (cstr s 0), some w1⟩, ⟨printTrap ": OK\n", some w2⟩], rest,
          .ok ()⟩) ∧
    (∀ rs, (exitwait s rs).res = .ok () →
      ∃ g1 g2 g3 qs v1 v2, qs.length = 50 ∧ acceptedFrom 0 qs = true ∧
        rs = g1 :: g2 :: g3 :: (pairReplies qs ++ v1 :: v2 :: (exitwait s rs).rest) ∧
        (exitwait s rs).trace = headingEvents s g1 g2 g3 ++ pairEvents qs
          ++ [⟨writeTrap (cstr s 0), some v1⟩, ⟨printTrap ": OK\n", some v2⟩]) ∧
    (rf.ret = 0 →
      exitwait s (h1 :: h2 :: h3 :: (pairReplies (ps.take k) ++ rf :: rest))
        = ⟨headingEvents s h1 h2 h3 ++ pairEvents (ps.take k)
            ++ [⟨forkTrap, some rf⟩, ⟨exitTrap k, rest.head?⟩], rest.tail,
            .halt (if rest = [] then Halt.pending else Halt.spin)⟩) ∧
    (rf.ret < 0 →
      exitwait s (h1 :: h2 :: h3 :: (pairReplies (ps.take k) ++ rf :: w1 :: w2 :: rest))
        = ⟨headingEvents s h1 h2 h3 ++ pairEvents (ps.take k)
            ++ [⟨forkTrap, some rf⟩, ⟨writeTrap (cstr s 0), some w1⟩,
              ⟨printTrap ": fork failed\n", some w2⟩, ⟨exitTrap 1, rest.head?⟩], rest.tail,
            .halt (if rest = [] then Halt.pending else Halt.spin)⟩) ∧
    (0 < rf.ret → rw.ret ≠ rf.ret →
      exitwait s (h1 :: h2 :: h3 :: (pairReplies (ps.take k) ++ rf :: rw :: w1 :: w2 :: rest))
        = ⟨headingEvents s h1 h2 h3 ++ pairEvents (ps.take k)
            ++ [⟨forkTrap, some rf⟩, ⟨waitTrap, some rw⟩, ⟨writeTrap (cstr s 0), some w1⟩,
              ⟨printTrap ": wait wrong pid\n", some w2⟩, ⟨exitTrap 1, rest.head?⟩], rest.tail,
            .halt (if rest = [] then Halt.pending else Halt.spin)⟩) ∧
    (0 < rf.ret → rw.ret = rf.ret → rw.val ≠ k → -2147483648 ≤ rw.val →
      rw.val < 2147483648 →
      ∃ bx, itoa rw.val = some bx ∧
        exitwait s (h1 :: h2 :: h3 :: (pairReplies (ps.take k)
            ++ rf :: rw :: w1 :: w2 :: w3 :: w4 :: w5 :: w6 :: rest))
          = ⟨headingEvents s h1 h2 h3 ++ pairEvents (ps.take k)
              ++ [⟨forkTrap, some rf⟩, ⟨waitTrap, some rw⟩, ⟨writeTrap (cstr s 0), some w1⟩,
                ⟨printTrap ": wait wrong exit status. Expected ", some w2⟩,
                ⟨writeTrap (canonical k), some w3⟩, ⟨printTrap " got ", some w4⟩,
                ⟨writeTrap (cstr bx 0), some w5⟩, ⟨printTrap "\n", some w6⟩,
                ⟨exitTrap 1, rest.head?⟩], rest.tail,
              .halt (if rest = [] then Halt.pending else Halt.spin)⟩) := by
  have hacck := acceptedFrom_take ps 0 k hacc
  have hlenk : (ps.take k).length = k := by rw [List.length_take]; omega
  have hlt : (ps.take k).length < 50 := by omega
  have hi : ((ps.take k).length : Int) < 50 := by omega
  refine ⟨exitwait_all_accepted s ps h1 h2 h3 w1 w2 rest hacc hlen, exitwait_ok s, ?_, ?_, ?_,
    ?_⟩
  · intro h0
    have e := exitwait_after_prefix s (ps.take k) h1 h2 h3 (rf :: rest) _ _ _ hacck hlt
      (exitwaitLoop_child s _ _ rf rest hi h0)
    rw [hlenk] at e
    rw [e]
  · intro h0
    have e := exitwait_after_prefix s (ps.take k) h1 h2 h3 (rf :: w1 :: w2 :: rest) _ _ _ hacck
      hlt (exitwaitLoop_fork_failed s _ _ rf w1 w2 rest hi h0)
    rw [e]
  · intro h0 hpid
    have e := exitwait_after_prefix s (ps.take k) h1 h2 h3 (rf :: rw :: w1 :: w2 :: rest) _ _ _
      hacck hlt (exitwaitLoop_wrong_pid s _ _ rf rw w1 w2 rest hi h0 hpid)
    rw [e]
  · intro h0 hpid hst hlo hhi
    obtain ⟨bx, hbx⟩ := itoa_total rw.val hlo hhi
    refine ⟨bx, hbx, ?_⟩
    have hbi : itoa ((ps.take k).length : Int) = some (canonical (k : Int) ++ [0]) := by
      rw [hlenk]
      exact itoa_canonical _ (by omega) (by omega)
    have e := exitwait_after_prefix s (ps.take k) h1 h2 h3
      (rf :: rw :: w1 :: w2 :: w3 :: w4 :: w5 :: w6 :: rest) _ _ _ hacck hlt
      (exitwaitLoop_wrong_status s _ _ rf rw w1 w2 w3 w4 w5 w6 rest _ bx hi h0 hpid
        (by rw [hlenk]; exact hst) hbi hbx)
    rw [e, cstr_canonical]

/-- Witness of `exitwait_oracle`: the 50 accepted pairs in which `fork` and `wait` return the
pid 7, the name "exitwait", and iteration 3 for the failures. -/
theorem exitwait_oracle_witness :
    acceptedFrom 0 ((List.range 50).map (fun n => ((⟨7, 0⟩ : Reply), (⟨7, n⟩ : Reply)))) = true ∧
    ((List.range 50).map (fun n => ((⟨7, 0⟩ : Reply), (⟨7, n⟩ : Reply)))).length = 50 ∧
    3 < 50 ∧
    ((exitwait (lit "exitwait") (⟨1, 0⟩ :: ⟨1, 0⟩ :: ⟨1, 0⟩ :: (pairReplies ((List.range 50).map
        (fun n => ((⟨7, 0⟩ : Reply), (⟨7, n⟩ : Reply)))) ++ ⟨1, 0⟩ :: ⟨1, 0⟩ :: []))
      = ⟨headingEvents (lit "exitwait") ⟨1, 0⟩ ⟨1, 0⟩ ⟨1, 0⟩ ++ pairEvents ((List.range 50).map (fun
          n => ((⟨7, 0⟩ : Reply), (⟨7, n⟩ : Reply))))
          ++ [⟨writeTrap (cstr (lit "exitwait") 0), some ⟨1, 0⟩⟩, ⟨printTrap ": OK\n", some
              ⟨1, 0⟩⟩], [],
          .ok ()⟩) ∧
    (∀ rs, (exitwait (lit "exitwait") rs).res = .ok () →
      ∃ g1 g2 g3 qs v1 v2, qs.length = 50 ∧ acceptedFrom 0 qs = true ∧
        rs = g1 :: g2 :: g3 :: (pairReplies qs ++ v1 :: v2 :: (exitwait (lit "exitwait") rs).rest) ∧
        (exitwait (lit "exitwait") rs).trace = headingEvents (lit "exitwait") g1 g2 g3 ++ pairEvents
            qs
          ++ [⟨writeTrap (cstr (lit "exitwait") 0), some v1⟩, ⟨printTrap ": OK\n", some v2⟩]) ∧
    ((⟨8, 0⟩ : Reply).ret = 0 →
      exitwait (lit "exitwait") (⟨1, 0⟩ :: ⟨1, 0⟩ :: ⟨1, 0⟩ :: (pairReplies (((List.range 50).map
          (fun n => ((⟨7, 0⟩ : Reply), (⟨7, n⟩ : Reply)))).take (3 : Nat)) ++ ⟨8, 0⟩ :: []))
        = ⟨headingEvents (lit "exitwait") ⟨1, 0⟩ ⟨1, 0⟩ ⟨1, 0⟩ ++ pairEvents (((List.range 50).map
            (fun n => ((⟨7, 0⟩ : Reply), (⟨7, n⟩ : Reply)))).take (3 : Nat))
            ++ [⟨forkTrap, some ⟨8, 0⟩⟩, ⟨exitTrap (3 : Nat), ([] : List Reply).head?⟩], ([] : List
                Reply).tail,
            .halt (if ([] : List Reply) = [] then Halt.pending else Halt.spin)⟩) ∧
    ((⟨8, 0⟩ : Reply).ret < 0 →
      exitwait (lit "exitwait") (⟨1, 0⟩ :: ⟨1, 0⟩ :: ⟨1, 0⟩ :: (pairReplies (((List.range 50).map
          (fun n => ((⟨7, 0⟩ : Reply), (⟨7, n⟩ : Reply)))).take (3 : Nat)) ++ ⟨8, 0⟩ :: ⟨1, 0⟩ ::
          ⟨1, 0⟩ :: []))
        = ⟨headingEvents (lit "exitwait") ⟨1, 0⟩ ⟨1, 0⟩ ⟨1, 0⟩ ++ pairEvents (((List.range 50).map
            (fun n => ((⟨7, 0⟩ : Reply), (⟨7, n⟩ : Reply)))).take (3 : Nat))
            ++ [⟨forkTrap, some ⟨8, 0⟩⟩, ⟨writeTrap (cstr (lit "exitwait") 0), some ⟨1, 0⟩⟩,
              ⟨printTrap ": fork failed\n", some ⟨1, 0⟩⟩, ⟨exitTrap 1, ([] : List Reply).head?⟩],
                  ([] : List Reply).tail,
            .halt (if ([] : List Reply) = [] then Halt.pending else Halt.spin)⟩) ∧
    (0 < (⟨8, 0⟩ : Reply).ret → (⟨8, 5⟩ : Reply).ret ≠ (⟨8, 0⟩ : Reply).ret →
      exitwait (lit "exitwait") (⟨1, 0⟩ :: ⟨1, 0⟩ :: ⟨1, 0⟩ :: (pairReplies (((List.range 50).map
          (fun n => ((⟨7, 0⟩ : Reply), (⟨7, n⟩ : Reply)))).take (3 : Nat)) ++ ⟨8, 0⟩ :: ⟨8, 5⟩ ::
          ⟨1, 0⟩ :: ⟨1, 0⟩ :: []))
        = ⟨headingEvents (lit "exitwait") ⟨1, 0⟩ ⟨1, 0⟩ ⟨1, 0⟩ ++ pairEvents (((List.range 50).map
            (fun n => ((⟨7, 0⟩ : Reply), (⟨7, n⟩ : Reply)))).take (3 : Nat))
            ++ [⟨forkTrap, some ⟨8, 0⟩⟩, ⟨waitTrap, some ⟨8, 5⟩⟩, ⟨writeTrap (cstr (lit "exitwait")
                0), some ⟨1, 0⟩⟩,
              ⟨printTrap ": wait wrong pid\n", some ⟨1, 0⟩⟩, ⟨exitTrap 1, ([] : List Reply).head?⟩],
                  ([] : List Reply).tail,
            .halt (if ([] : List Reply) = [] then Halt.pending else Halt.spin)⟩) ∧
    (0 < (⟨8, 0⟩ : Reply).ret → (⟨8, 5⟩ : Reply).ret = (⟨8, 0⟩ : Reply).ret → (⟨8, 5⟩ : Reply).val ≠
        (3 : Nat) → -2147483648 ≤ (⟨8, 5⟩ : Reply).val →
      (⟨8, 5⟩ : Reply).val < 2147483648 →
      ∃ bx, itoa (⟨8, 5⟩ : Reply).val = some bx ∧
        exitwait (lit "exitwait") (⟨1, 0⟩ :: ⟨1, 0⟩ :: ⟨1, 0⟩ :: (pairReplies (((List.range 50).map
            (fun n => ((⟨7, 0⟩ : Reply), (⟨7, n⟩ : Reply)))).take (3 : Nat))
            ++ ⟨8, 0⟩ :: ⟨8, 5⟩ :: ⟨1, 0⟩ :: ⟨1, 0⟩ :: ⟨1, 0⟩ :: ⟨1, 0⟩ :: ⟨1, 0⟩ :: ⟨1, 0⟩ :: []))
          = ⟨headingEvents (lit "exitwait") ⟨1, 0⟩ ⟨1, 0⟩ ⟨1, 0⟩ ++ pairEvents (((List.range 50).map
              (fun n => ((⟨7, 0⟩ : Reply), (⟨7, n⟩ : Reply)))).take (3 : Nat))
              ++ [⟨forkTrap, some ⟨8, 0⟩⟩, ⟨waitTrap, some ⟨8, 5⟩⟩, ⟨writeTrap (cstr (lit
                  "exitwait") 0), some ⟨1, 0⟩⟩,
                ⟨printTrap ": wait wrong exit status. Expected ", some ⟨1, 0⟩⟩,
                ⟨writeTrap (canonical (3 : Nat)), some ⟨1, 0⟩⟩, ⟨printTrap " got ", some ⟨1, 0⟩⟩,
                ⟨writeTrap (cstr bx 0), some ⟨1, 0⟩⟩, ⟨printTrap "\n", some ⟨1, 0⟩⟩,
                ⟨exitTrap 1, ([] : List Reply).head?⟩], ([] : List Reply).tail,
              .halt (if ([] : List Reply) = [] then Halt.pending else Halt.spin)⟩)) :=
  ⟨by decide, by decide, by decide,
    exitwait_oracle (lit "exitwait")
      ((List.range 50).map (fun n => ((⟨7, 0⟩ : Reply), (⟨7, n⟩ : Reply)))) 3
      ⟨1, 0⟩ ⟨1, 0⟩ ⟨1, 0⟩ ⟨8, 0⟩ ⟨8, 5⟩ ⟨1, 0⟩ ⟨1, 0⟩ ⟨1, 0⟩ ⟨1, 0⟩ ⟨1, 0⟩ ⟨1, 0⟩ []
      (by decide) (by decide) (by decide)⟩

/-! ## sh.c: one child in flight -/

theorem oif_last (c : List Int) (l : Option Int) (t : List Event)
    (h : OneInFlight c none t) : OneInFlight c l t := by
  cases t with
  | nil => trivial
  | cons e t =>
    simp only [OneInFlight] at h ⊢
    split
    · trivial
    · rename_i c1 hk
      rw [hk] at h
      refine ⟨h.1, fun hw rw hr => ?_, h.2.2⟩
      exact absurd (h.2.1 hw rw hr) (by simp)

theorem kernelStep_quiet (c : List Int) (e : Event) (h1 : e.trap.num ≠ SYS_FORK)
    (h2 : e.trap.num ≠ SYS_WAIT) : kernelStep c e = some c := by
  unfold kernelStep
  cases e.reply with
  | none => rfl
  | some r => simp only [if_neg h1, if_neg h2]

theorem spawned_quiet (e : Event) (h1 : e.trap.num ≠ SYS_FORK) : spawned e = none := by
  unfold spawned
  cases e.reply with
  | none => rfl
  | some r =>
    have : ¬ (e.trap.num = SYS_FORK ∧ 0 < r.ret) := fun h => h1 h.1
    simp only [if_neg this]

/-- Traps other than `fork` and `wait` in front of a trace keep the property. -/
theorem oif_quiet (a b : List Event) (l : Option Int)
    (ha : ∀ e ∈ a, e.trap.num ≠ SYS_FORK ∧ e.trap.num ≠ SYS_WAIT)
    (hb : OneInFlight [] none b) : OneInFlight [] l (a ++ b) := by
  induction a generalizing l with
  | nil => exact oif_last _ _ _ hb
  | cons e a ih =>
    have he := ha e (List.mem_cons_self _ _)
    simp only [List.cons_append, OneInFlight, kernelStep_quiet [] e he.1 he.2,
      spawned_quiet e he.1]
    exact ⟨fun _ => trivial, fun hw => absurd hw he.2,
      ih none (fun x hx => ha x (List.mem_cons_of_mem _ hx))⟩

theorem oif_nil (c : List Int) (l : Option Int) : OneInFlight c l [] := trivial

theorem piece_of_quiet {α : Type} (p : Proc α)
    (h : ∀ rs, ∀ e ∈ (p rs).trace, e.trap.num ≠ SYS_FORK ∧ e.trap.num ≠ SYS_WAIT) :
    Piece p := by
  intro rs
  refine ⟨?_, fun _ _ b hb => oif_quiet _ b none (h rs) hb⟩
  have := oif_quiet (p rs).trace [] none (h rs) (oif_nil _ _)
  rwa [List.append_nil] at this

theorem piece_of_fits {α : Type} (nums : List Int) (p : Proc α)
    (hp : Proc.Inv (fun _ => True) (Fits (fun _ => True) nums) p) (h1 : SYS_FORK ∉ nums)
    (h2 : SYS_WAIT ∉ nums) : Piece p := by
  refine piece_of_quiet p (fun rs e he => ?_)
  have := ((hp rs (fun _ _ => trivial)).1 e he).1
  exact ⟨fun h => h1 (h ▸ this), fun h => h2 (h ▸ this)⟩

theorem piece_pure {α : Type} (a : α) : Piece (pure a : Proc α) :=
  fun _ => ⟨trivial, fun _ _ _ hb => hb⟩

theorem piece_stop {α : Type} (h : Halt) : Piece (stop h : Proc α) :=
  fun _ => ⟨trivial, fun _ _ _ hb => hb⟩

theorem piece_bind {α β : Type} {p : Proc α} {f : α → Proc β} (hp : Piece p)
    (hf : ∀ a, Piece (f a)) : Piece (p >>= f) := by
  intro rs
  have h1 := hp rs
  rw [bind_run]
  rcases hpr : p rs with ⟨t, rs1, a | h⟩
  · rw [hpr] at h1
    have h2 := hf a rs1
    simp only [Out.after]
    refine ⟨h1.2 a rfl _ h2.1, fun b hres c hc => ?_⟩
    rw [List.append_assoc]
    exact h1.2 a rfl _ (h2.2 b hres c hc)
  · rw [hpr] at h1
    exact ⟨h1.1, fun a hres => by cases hres⟩

/-- In the process that `fork` returned 0 or a negative value to, only `write`, `exec` and
`exit` follow. -/
theorem shAfterFork_nonparent_fits (R : Reply → Prop) (nums : List Int) (hwr : SYS_WRITE ∈ nums)
    (he : SYS_EXEC ∈ nums) (hx : SYS_EXIT ∈ nums) (t : TokState) (off : Nat) (pid : Int)
    (hpid : pid ≤ 0) : Proc.Inv R (Fits R nums) (shAfterFork t off pid) := by
  simp only [shAfterFork]
  by_cases h : pid < 0
  · simp only [if_pos h]
    exact inv_print R nums hwr _
  · have h0 : pid = 0 := by omega
    simp only [if_neg h, if_pos h0]
    refine inv_bind (inv_bind (inv_syscall R nums _ _ _ _ he) (fun _ => inv_pure _ _ _))
      (fun _ => ?_)
    exact inv_bind (inv_print R nums hwr _)
      (fun _ => inv_bind (inv_puts R nums hwr _) (fun _ => inv_exit R nums hx _))

/-- The parent after `fork`: `wait(&status)`, and the iteration ends. -/
theorem shSpawn_parent (t : TokState) (off : Nat) (rf rw : Reply) (rest : List Reply)
    (h : 0 < rf.ret) :
    shSpawn t off (rf :: rw :: rest)
      = ⟨[⟨forkTrap, some rf⟩, ⟨waitTrap, some rw⟩], rest, .ok ⟨t.buf, t.argv⟩⟩ := by
  have h1 : ¬ rf.ret < 0 := by omega
  have h2 : ¬ rf.ret = 0 := by omega
  simp only [shSpawn_cons, shAfterFork, if_neg h1, if_neg h2, wait, bind_assoc_run,
    syscall_bind_cons, pure_bind_run]
  rfl

/-- The parent blocks in `wait` when no reply comes. -/
theorem shSpawn_parent_blocked (t : TokState) (off : Nat) (rf : Reply) (h : 0 < rf.ret) :
    shSpawn t off [rf] = ⟨[⟨forkTrap, some rf⟩, ⟨waitTrap, none⟩], [], .halt .pending⟩ := by
  have h1 : ¬ rf.ret < 0 := by omega
  have h2 : ¬ rf.ret = 0 := by omega
  simp only [shSpawn_cons, shAfterFork, if_neg h1, if_neg h2, wait, bind_assoc_run,
    syscall_bind_nil]
  rfl

theorem kernelStep_fork (c : List Int) (rf : Reply) :
    kernelStep c ⟨forkTrap, some rf⟩ = some (if 0 < rf.ret then rf.ret :: c else c) := by
  simp only [kernelStep, forkTrap, if_true]
  split <;> rfl

theorem spawned_fork (rf : Reply) :
    spawned ⟨forkTrap, some rf⟩ = if 0 < rf.ret then some rf.ret else none := by
  simp [spawned, forkTrap]

theorem oif_fork_wait (rf rw : Reply) (b : List Event) (h : 0 < rf.ret)
    (hb : OneInFlight [] none b) :
    OneInFlight [] none (⟨forkTrap, some rf⟩ :: ⟨waitTrap, some rw⟩ :: b) := by
  simp only [OneInFlight, kernelStep_fork, spawned_fork, if_pos h]
  refine ⟨fun hn => absurd hn (by decide), fun hn => absurd hn (by decide), ?_⟩
  by_cases hm : rw.ret = rf.ret
  · have hk : kernelStep [rf.ret] ⟨waitTrap, some rw⟩ = some [] := by
      simp [kernelStep, waitTrap, SYS_WAIT, SYS_FORK, hm]
    rw [hk]
    refine ⟨fun hn => absurd hn (by decide), fun _ r hr => ?_, ?_⟩
    · cases hr
      rw [hm]
    · have : spawned ⟨waitTrap, some rw⟩ = none :=
        spawned_quiet ⟨waitTrap, some rw⟩ (show waitTrap.num ≠ SYS_FORK by decide)
      rw [this]
      exact hb
  · have hk : kernelStep [rf.ret] ⟨waitTrap, some rw⟩ = none := by
      simp [kernelStep, waitTrap, SYS_WAIT, SYS_FORK, hm]
    rw [hk]
    trivial

theorem oif_fork_wait_blocked (rf : Reply) (h : 0 < rf.ret) :
    OneInFlight [] none [⟨forkTrap, some rf⟩, ⟨waitTrap, none⟩] := by
  simp only [OneInFlight, kernelStep_fork, spawned_fork, if_pos h]
  refine ⟨fun hn => absurd hn (by decide), fun hn => absurd hn (by decide), ?_⟩
  have hk : kernelStep [rf.ret] ⟨waitTrap, none⟩ = some [rf.ret] := rfl
  rw [hk]
  exact ⟨fun hn => absurd hn (by decide), fun _ r hr => (by cases hr), trivial⟩

/-- Lines 84-108 keep the invariant: one `fork`, and in the parent one `wait` for it. -/
theorem shSpawn_piece (t : TokState) (off : Nat) : Piece (shSpawn t off) := by
  intro rs
  cases rs with
  | nil =>
    rw [shSpawn_nil]
    refine ⟨?_, fun a h => by cases h⟩
    simp only [OneInFlight]
    have hk : kernelStep [] ⟨forkTrap, none⟩ = some [] := rfl
    rw [hk]
    exact ⟨fun hn => absurd hn (by decide), fun hn => absurd hn (by decide), trivial⟩
  | cons rf rest =>
    by_cases hpos : 0 < rf.ret
    · cases rest with
      | nil =>
        rw [shSpawn_parent_blocked t off rf hpos]
        exact ⟨oif_fork_wait_blocked rf hpos, fun a h => by cases h⟩
      | cons rw rest =>
        rw [shSpawn_parent t off rf rw rest hpos]
        refine ⟨?_, fun _ _ b hb => oif_fork_wait rf rw b hpos hb⟩
        exact oif_fork_wait rf rw [] hpos trivial
    · rw [shSpawn_cons]
      have hq : ∀ e ∈ ((shAfterFork t off rf.ret >>= fun _ =>
          (pure ⟨t.buf, t.argv⟩ : Proc ShVars)) rest).trace,
          e.trap.num ≠ SYS_FORK ∧ e.trap.num ≠ SYS_WAIT := by
        intro e he
        rw [trace_bind_pure] at he
        have := ((shAfterFork_nonparent_fits (fun _ => True) [SYS_WRITE, SYS_EXEC, SYS_EXIT]
          (by decide) (by decide) (by decide) t off rf.ret (by omega) rest
          (fun _ _ => trivial)).1 e he).1
        constructor
        · intro h; rw [h] at this; revert this; decide
        · intro h; rw [h] at this; revert this; decide
      have step : ∀ b, OneInFlight [] none b →
          OneInFlight [] none (⟨forkTrap, some rf⟩ :: (((shAfterFork t off rf.ret >>= fun _ =>
            (pure ⟨t.buf, t.argv⟩ : Proc ShVars)) rest).trace ++ b)) := by
        intro b hb
        simp only [OneInFlight, kernelStep_fork, spawned_fork, if_neg hpos]
        exact ⟨fun hn => absurd hn (by decide), fun hn => absurd hn (by decide),
          oif_quiet _ b none hq hb⟩
      refine ⟨?_, fun _ _ b hb => step b hb⟩
      have := step [] trivial
      rwa [List.append_nil] at this

/-- Lines 79-108 keep the invariant. -/
theorem shCommand_piece (t : TokState) (off : Nat) : Piece (shCommand t off) := by
  by_cases hc : cstr t.buf off = bytes "exit"
  · refine piece_of_quiet _ (fun rs e he => ?_)
    rw [shCommand_exit t off rs hc, List.mem_singleton] at he
    rw [he]
    exact ⟨show (exitTrap 0).num ≠ SYS_FORK by decide,
      show (exitTrap 0).num ≠ SYS_WAIT by decide⟩
  · rw [shCommand_other t off hc]
    exact shSpawn_piece t off

/-- What one iteration does after `readline`: nothing, or the command of the line. -/
theorem shDispatch_cases (buf : List Nat) (argv : List (Option Nat)) :
    shDispatch buf argv = stop .fault ∨ (∃ v, shDispatch buf argv = pure v) ∨
      ∃ t off, shDispatch buf argv = shCommand t off := by
  unfold shDispatch
  split
  · exact Or.inl rfl
  · split
    · exact Or.inr (Or.inl ⟨_, rfl⟩)
    · split
      · exact Or.inl rfl
      · split
        · exact Or.inr (Or.inl ⟨_, rfl⟩)
        · split
          · exact Or.inr (Or.inr ⟨_, _, rfl⟩)
          · exact Or.inl rfl

theorem shDispatch_piece (buf : List Nat) (argv : List (Option Nat)) :
    Piece (shDispatch buf argv) := by
  rcases shDispatch_cases buf argv with h | ⟨v, h⟩ | ⟨t, off, h⟩
  · rw [h]; exact piece_stop _
  · rw [h]; exact piece_pure _
  · rw [h]; exact shCommand_piece t off

theorem shPrompt_piece (fuel : Nat) (v : ShVars) : Piece (shPrompt fuel v) :=
  piece_of_fits [SYS_READ, SYS_WRITE] _
    (shPrompt_fits (fun _ => True) [SYS_READ, SYS_WRITE] (by decide) (by decide) fuel v)
    (by decide) (by decide)

theorem shIteration_piece (fuel : Nat) (v : ShVars) : Piece (shIteration fuel v) :=
  piece_bind (shPrompt_piece fuel v) (fun _ => shDispatch_piece _ _)

theorem shLoop_piece : ∀ (fuel : Nat) (v : ShVars), Piece (shLoop fuel v) := by
  intro fuel
  induction fuel with
  | zero => intro v; exact piece_stop _
  | succ f ih =>
    intro v
    simp only [shLoop]
    exact piece_bind (shIteration_piece f v) (fun v1 => ih v1)

theorem shMain_piece (fuel : Nat) (v : ShVars) : Piece (shMain fuel v) := by
  simp only [shMain]
  refine piece_bind ?_ (fun _ => piece_bind (shLoop_piece fuel v) (fun _ => piece_pure _))
  exact piece_of_fits [SYS_WRITE] _ (inv_print (fun _ => True) [SYS_WRITE] (by decide) _)
    (by decide) (by decide)

theorem countTraps_append (num : Int) (a b : List Event) :
    countTraps num (a ++ b) = countTraps num a + countTraps num b := by
  simp [countTraps, List.filter_append]

theorem counts_nil : ForkWaitCounts [] :=
  ⟨by decide, fun ⟨_, h, _⟩ => absurd h (List.not_mem_nil _), fun _ => rfl⟩

/-- Traps other than `fork` and `wait` in front of a trace do not change its counts. -/
theorem counts_quiet_append (a b : List Event)
    (ha : ∀ e ∈ a, e.trap.num ≠ SYS_FORK ∧ e.trap.num ≠ SYS_WAIT) (hb : ForkWaitCounts b) :
    ForkWaitCounts (a ++ b) := by
  have hf : countTraps SYS_FORK a = 0 := countTraps_eq_zero _ _ (fun e he => (ha e he).1)
  have hw : countTraps SYS_WAIT a = 0 := countTraps_eq_zero _ _ (fun e he => (ha e he).2)
  have hmem : ∀ rf : Reply, (⟨forkTrap, some rf⟩ : Event) ∈ a ++ b ↔
      (⟨forkTrap, some rf⟩ : Event) ∈ b := by
    intro rf
    rw [List.mem_append]
    constructor
    · rintro (h | h)
      · exact absurd rfl (ha _ h).1
      · exact h
    · exact Or.inr
  simp only [ForkWaitCounts, countTraps_append, hf, hw, zero_add, hmem]
  exact hb

theorem counts_quiet (a : List Event)
    (ha : ∀ e ∈ a, e.trap.num ≠ SYS_FORK ∧ e.trap.num ≠ SYS_WAIT) : ForkWaitCounts a := by
  have := counts_quiet_append a [] ha counts_nil
  rwa [List.append_nil] at this

theorem counts_fork_quiet (rf : Option Reply) (a : List Event)
    (hrf : ∀ r, rf = some r → r.ret ≤ 0)
    (ha : ∀ e ∈ a, e.trap.num ≠ SYS_FORK ∧ e.trap.num ≠ SYS_WAIT) :
    ForkWaitCounts (⟨forkTrap, rf⟩ :: a) := by
  have hf : countTraps SYS_FORK a = 0 := countTraps_eq_zero _ _ (fun e he => (ha e he).1)
  have hw : countTraps SYS_WAIT a = 0 := countTraps_eq_zero _ _ (fun e he => (ha e he).2)
  have hno : ¬ ∃ r : Reply, (⟨forkTrap, some r⟩ : Event) ∈ (⟨forkTrap, rf⟩ :: a) ∧ 0 < r.ret := by
    rintro ⟨r, hm, hr⟩
    rcases List.mem_cons.mp hm with h | h
    · have := hrf r (by cases h; rfl)
      omega
    · exact absurd rfl (ha _ h).1
  refine ⟨?_, fun h => absurd h hno, fun _ => ?_⟩
  · rw [countTraps_cons, hf]
    simp [forkTrap]
  · rw [countTraps_cons, hw]
    simp [forkTrap, SYS_FORK, SYS_WAIT]

theorem counts_fork_wait (rf : Reply) (rw : Option Reply) (h : 0 < rf.ret) :
    ForkWaitCounts [⟨forkTrap, some rf⟩, ⟨waitTrap, rw⟩] := by
  refine ⟨?_, fun _ => ?_, fun hno => absurd ⟨rf, List.mem_cons_self _ _, h⟩ hno⟩
  · simp [countTraps, forkTrap, waitTrap, SYS_FORK, SYS_WAIT]
  · simp [countTraps, forkTrap, waitTrap, SYS_FORK, SYS_WAIT]

/-- Lines 84-108 call `fork` once, and `wait` once if and only if `fork` returned a positive
pid. -/
theorem shSpawn_counts (t : TokState) (off : Nat) (rs : List Reply) :
    ForkWaitCounts (shSpawn t off rs).trace := by
  cases rs with
  | nil =>
    rw [shSpawn_nil]
    exact counts_fork_quiet none [] (fun r h => by cases h)
      (fun e he => absurd he (List.not_mem_nil _))
  | cons rf rest =>
    by_cases hpos : 0 < rf.ret
    · cases rest with
      | nil =>
        rw [shSpawn_parent_blocked t off rf hpos]
        exact counts_fork_wait rf none hpos
      | cons rw rest =>
        rw [shSpawn_parent t off rf rw rest hpos]
        exact counts_fork_wait rf (some rw) hpos
    · rw [shSpawn_cons]
      refine counts_fork_quiet (some rf) _ (fun r h => by cases h; omega) (fun e he => ?_)
      rw [trace_bind_pure] at he
      have := ((shAfterFork_nonparent_fits (fun _ => True) [SYS_WRITE, SYS_EXEC, SYS_EXIT]
        (by decide) (by decide) (by decide) t off rf.ret (by omega) rest
        (fun _ _ => trivial)).1 e he).1
      constructor
      · intro h; rw [h] at this; revert this; decide
      · intro h; rw [h] at this; revert this; decide

theorem shDispatch_counts (buf : List Nat) (argv : List (Option Nat)) (rs : List Reply) :
    ForkWaitCounts (shDispatch buf argv rs).trace := by
  rcases shDispatch_cases buf argv with h | ⟨v, h⟩ | ⟨t, off, h⟩
  · rw [h]; exact counts_nil
  · rw [h]; exact counts_nil
  · rw [h]
    by_cases hc : cstr t.buf off = bytes "exit"
    · rw [shCommand_exit t off rs hc]
      refine counts_quiet _ (fun e he => ?_)
      rw [List.mem_singleton] at he
      rw [he]
      exact ⟨show (exitTrap 0).num ≠ SYS_FORK by decide,
        show (exitTrap 0).num ≠ SYS_WAIT by decide⟩
    · rw [shCommand_other t off hc]
      exact shSpawn_counts t off rs

/-- One iteration of the shell calls `fork` at most once, and `wait` once if and only if
`fork` returned a positive pid. -/
theorem shIteration_counts (fuel : Nat) (v : ShVars) (rs : List Reply) :
    ForkWaitCounts (shIteration fuel v rs).trace := by
  have hq : ∀ e ∈ (shPrompt fuel v rs).trace,
      e.trap.num ≠ SYS_FORK ∧ e.trap.num ≠ SYS_WAIT := by
    intro e he
    have := ((shPrompt_fits (fun _ => True) [SYS_READ, SYS_WRITE] (by decide) (by decide)
      fuel v rs (fun _ _ => trivial)).1 e he).1
    constructor
    · intro h; rw [h] at this; revert this; decide
    · intro h; rw [h] at this; revert this; decide
  simp only [shIteration, bind_run]
  rcases hp : shPrompt fuel v rs with ⟨tr, rs1, buf1 | hh⟩
  · rw [hp] at hq
    exact counts_quiet_append tr _ hq (shDispatch_counts buf1 v.argv rs1)
  · rw [hp] at hq
    exact counts_quiet tr hq

theorem oif_fork_read (rf r : Reply) (h : 0 < rf.ret) :
    ¬ OneInFlight [] none [⟨forkTrap, some rf⟩, ⟨readTrap, some r⟩] := by
  simp only [OneInFlight, kernelStep_fork, spawned_fork, if_pos h]
  have hk : kernelStep [rf.ret] ⟨readTrap, some r⟩ = some [rf.ret] :=
    kernelStep_quiet _ _ (show readTrap.num ≠ SYS_FORK by decide)
      (show readTrap.num ≠ SYS_WAIT by decide)
  rw [hk]
  intro hh
  exact absurd (hh.2.2.1 rfl) (by simp)

theorem oif_two_children :
    ¬ OneInFlight [] none
      [⟨forkTrap, some ⟨5, 0⟩⟩, ⟨forkTrap, some ⟨6, 0⟩⟩, ⟨waitTrap, some ⟨5, 0⟩⟩] := by
  simp [OneInFlight, kernelStep, spawned, forkTrap, waitTrap, SYS_FORK, SYS_WAIT, SYS_READ]

/-- Claim C12. The trace of every iteration of the shell holds at most one `fork`; it holds
exactly one `wait` when a `fork` in it returned a positive pid, and no `wait` otherwise.  The
traces of the loop of `main` and of `main` itself have the property `OneInFlight` from no
outstanding children on: as long as the replies are those of a kernel in which a `wait` with an
outstanding child reaps exactly one child, there is no outstanding child at any `read`, and
every `wait` returns the pid of the `fork` just before it.  The property is not void: it fails
for a trace that reads with a child outstanding, and for one that waits for the elder of two
children. -/
theorem one_child_in_flight (fuel : Nat) (v : ShVars) (rs : List Reply) :
    countTraps SYS_FORK (shIteration fuel v rs).trace ≤ 1 ∧
    ((∃ rf, ⟨forkTrap, some rf⟩ ∈ (shIteration fuel v rs).trace ∧ 0 < rf.ret) →
      countTraps SYS_WAIT (shIteration fuel v rs).trace = 1) ∧
    ((¬ ∃ rf, ⟨forkTrap, some rf⟩ ∈ (shIteration fuel v rs).trace ∧ 0 < rf.ret) →
      countTraps SYS_WAIT (shIteration fuel v rs).trace = 0) ∧
    OneInFlight [] none (shLoop fuel v rs).trace ∧
    OneInFlight [] none (shMain fuel v rs).trace ∧
    ¬ OneInFlight [] none [⟨forkTrap, some ⟨5, 0⟩⟩, ⟨readTrap, some ⟨1, 0⟩⟩] ∧
    ¬ OneInFlight [] none
      [⟨forkTrap, some ⟨5, 0⟩⟩, ⟨forkTrap, some ⟨6, 0⟩⟩, ⟨waitTrap, some ⟨5, 0⟩⟩] :=
  ⟨(shIteration_counts fuel v rs).1, (shIteration_counts fuel v rs).2.1,
    (shIteration_counts fuel v rs).2.2, (shLoop_piece fuel v rs).1, (shMain_piece fuel v rs).1,
    oif_fork_read ⟨5, 0⟩ ⟨1, 0⟩ (by decide), oif_two_children⟩

end RiscvUser
